import Mathlib

/-!
# p2pSD: block tracker, wire protocol, generator, server, client and peer

A shallow embedding of `internal/peer/blockmanager.go`,
`internal/protocol/messages.go`, `internal/checksum/checksum.go`,
`internal/metadata/metadata.go`, `internal/metadata/generator.go`,
`internal/peer/server.go`, `internal/peer/client.go` and
`internal/peer/peer.go`, with the properties proved about them.

Go `int` values are `Int`, `len` results are `Nat`, and a conversion such as
`uint32(len(data))` is an explicit `% 2 ^ 32`. The decoders of
`encoding/json` and SHA-256 are the fields of the structure `Library`;
`jsonLibrary` fills the decoders with a model of `encoding/json`: its scanner,
the `float64` a number is read as and written from, the map encoder and the
struct decoders.
-/

namespace P2P

/-! ## `map[int]bool` -/

/-- A Go `map[int]bool` as an association list, one entry per key, in
insertion order (the order is never observable through the tracker except as
the order of `GetAvailableBlocks`, which Go leaves unspecified). -/
abbrev BlockMap := List (Int × Bool)

namespace BlockMap

/-- Go `m[k]`: the stored value, or the zero value `false` for an absent key. -/
def get : BlockMap → Int → Bool
  | [], _ => false
  | (k', v) :: rest, k => if k' = k then v else get rest k

/-- Go `m[k] = v`: overwrite the entry of `k`, or add one. -/
def set : BlockMap → Int → Bool → BlockMap
  | [], k, v => [(k, v)]
  | (k', v') :: rest, k, v => if k' = k then (k', v) :: rest else (k', v') :: set rest k v

/-- Go `len(m)`. -/
def len (m : BlockMap) : Nat := m.length

/-- The keys, as `for k := range m` visits them. -/
def keys (m : BlockMap) : List Int := m.map Prod.fst

/-- Every stored value is `true`. -/
def AllTrue (m : BlockMap) : Prop := ∀ e ∈ m, e.2 = true

end BlockMap

/-! ## `BlockManager` (blockmanager.go) -/

/-- The `BlockManager` struct without its lock. -/
structure BlockManager where
  totalBlocks : Int
  availableBlocks : BlockMap
  downloadComplete : Bool
deriving DecidableEq, Repr

/-- Go `NewBlockManager(totalBlocks)`. -/
def NewBlockManager (totalBlocks : Int) : BlockManager :=
  { totalBlocks := totalBlocks, availableBlocks := [], downloadComplete := false }

namespace BlockManager

/-- Go `bm.MarkBlockAvailable(blockID)`. -/
def MarkBlockAvailable (bm : BlockManager) (blockID : Int) : BlockManager :=
  let availableBlocks := bm.availableBlocks.set blockID true
  if (availableBlocks.len : Int) = bm.totalBlocks then
    { bm with availableBlocks := availableBlocks, downloadComplete := true }
  else
    { bm with availableBlocks := availableBlocks }

/-- Go `bm.IsBlockAvailable(blockID)`. -/
def IsBlockAvailable (bm : BlockManager) (blockID : Int) : Bool :=
  bm.availableBlocks.get blockID

/-- Go `bm.GetAvailableBlocks()`. -/
def GetAvailableBlocks (bm : BlockManager) : List Int :=
  bm.availableBlocks.keys

/-- Go `bm.GetAvailableBlocksCount()`. -/
def GetAvailableBlocksCount (bm : BlockManager) : Int :=
  (bm.availableBlocks.len : Int)

/-- Go `bm.GetMissingBlocksCount()`. -/
def GetMissingBlocksCount (bm : BlockManager) : Int :=
  bm.totalBlocks - (bm.availableBlocks.len : Int)

/-- Go `bm.IsDownloadComplete()`. -/
def IsDownloadComplete (bm : BlockManager) : Bool :=
  bm.downloadComplete

/-- Go `bm.GetTotalBlocks()`. -/
def GetTotalBlocks (bm : BlockManager) : Int :=
  bm.totalBlocks

/-- The ids `0, 1, ..., totalBlocks - 1` visited by
`for i := 0; i < bm.totalBlocks; i++` (none when `totalBlocks <= 0`). -/
def blockRange (bm : BlockManager) : List Int :=
  (List.range bm.totalBlocks.toNat).map Int.ofNat

/-- Go `bm.MarkAllBlocksAvailable()`. -/
def MarkAllBlocksAvailable (bm : BlockManager) : BlockManager :=
  { bm with
    availableBlocks := bm.blockRange.foldl (fun m i => m.set i true) bm.availableBlocks
    downloadComplete := true }

/-- Go `bm.GetNextMissingBlock()`. -/
def GetNextMissingBlock (bm : BlockManager) : Int :=
  match bm.blockRange.find? (fun i => !bm.availableBlocks.get i) with
  | some i => i
  | none => -1

end BlockManager

/-- The operations of the tracker. The read-only accessors are listed for the
state they leave behind; `GetProgress` returns a `float64` and is only listed. -/
inductive TrackerOp where
  | markBlockAvailable (blockID : Int)
  | markAllBlocksAvailable
  | isBlockAvailable (blockID : Int)
  | getAvailableBlocks
  | getAvailableBlocksCount
  | getMissingBlocksCount
  | isDownloadComplete
  | getTotalBlocks
  | getProgress
  | getNextMissingBlock
deriving DecidableEq, Repr

namespace BlockManager

/-- The tracker after one operation. -/
def apply (bm : BlockManager) : TrackerOp → BlockManager
  | .markBlockAvailable blockID => bm.MarkBlockAvailable blockID
  | .markAllBlocksAvailable => bm.MarkAllBlocksAvailable
  | _ => bm

/-- The tracker after a sequence of operations, first to last. -/
def run (bm : BlockManager) (ops : List TrackerOp) : BlockManager :=
  ops.foldl apply bm

/-- The tracker after a sequence of `MarkBlockAvailable` calls. -/
def markAll (bm : BlockManager) (ids : List Int) : BlockManager :=
  ids.foldl MarkBlockAvailable bm

end BlockManager

/-- Every `MarkBlockAvailable` of the operation names an id of `[0, total)`. -/
def TrackerOp.inRange (total : Int) : TrackerOp → Prop
  | .markBlockAvailable blockID => 0 ≤ blockID ∧ blockID < total
  | _ => True

instance (total : Int) (op : TrackerOp) : Decidable (op.inRange total) := by
  cases op <;> unfold TrackerOp.inRange <;> infer_instance

/-- The shape of a tracker that only ever held ids of `[0, totalBlocks)`: one
entry per key, every key in range, every stored value `true`. -/
structure BlockManager.WellFormed (bm : BlockManager) : Prop where
  nodup : bm.availableBlocks.keys.Nodup
  inRange : ∀ k ∈ bm.availableBlocks.keys, 0 ≤ k ∧ k < bm.totalBlocks
  allTrue : bm.availableBlocks.AllTrue

/-- A set completion flag means that every id of `[0, totalBlocks)` is
available. -/
def BlockManager.FlagSound (bm : BlockManager) : Prop :=
  bm.downloadComplete = true →
    ∀ i : Int, 0 ≤ i → i < bm.totalBlocks → bm.availableBlocks.get i = true

/-- The completion flag is set exactly when the count has reached the total. -/
def BlockManager.FlagExact (bm : BlockManager) : Prop :=
  bm.downloadComplete = true ↔ (bm.availableBlocks.len : Int) = bm.totalBlocks

/-! ## Errors, connections, files -/

/-- The `error` values of the code. `errorf` is a `fmt.Errorf` without `%w`
and `wrap` one with `%w`; both keep the format string of the source and leave
the formatted arguments out. -/
inductive GoError where
  /-- Go `io.EOF`. -/
  | eof
  /-- Go `io.ErrUnexpectedEOF`. -/
  | unexpectedEOF
  /-- An error of a connection, one that implements `net.Error`. -/
  | net (desc : String)
  /-- An error returned by `encoding/json`. -/
  | json (desc : String)
  /-- An error returned by package `os`. -/
  | os (desc : String)
  | errorf (format : String)
  | wrap (format : String) (inner : GoError)
deriving DecidableEq, Repr

/-- The result of a call that returns a value and an `error`, or panics. -/
inductive Result (α : Type) where
  | ok (value : α)
  | err (e : GoError)
  | panic (reason : String)
deriving DecidableEq, Repr

/-- One end of a `net.Conn`: the bytes still to arrive, the error a read
returns once they are used up (`io.EOF` when the peer closed the connection),
the bytes written so far, and the error of a write when writes fail. -/
structure Conn where
  input : List UInt8
  readErr : GoError
  output : List UInt8
  writeErr : Option GoError
deriving DecidableEq, Repr

namespace Conn

/-- Go `io.ReadFull(conn, buf)` with `len(buf) = n`: the next `n` bytes, or, when
fewer arrive, the read error (`io.ErrUnexpectedEOF` in place of `io.EOF` after
a partial read). -/
def readFull (c : Conn) (n : Nat) : Except GoError (List UInt8) × Conn :=
  if n ≤ c.input.length then
    (.ok (c.input.take n), { c with input := c.input.drop n })
  else if c.input.length > 0 ∧ c.readErr = GoError.eof then
    (.error GoError.unexpectedEOF, { c with input := [] })
  else
    (.error c.readErr, { c with input := [] })

/-- Go `conn.Write(data)`. -/
def write (c : Conn) (data : List UInt8) : Option GoError × Conn :=
  match c.writeErr with
  | some e => (some e, c)
  | none => (none, { c with output := c.output ++ data })

end Conn

/-- Go `binary.BigEndian.PutUint32`: the 4 bytes of `size % 2 ^ 32`. -/
def putUint32 (size : Nat) : List UInt8 :=
  [UInt8.ofNat (size / 2 ^ 24 % 256), UInt8.ofNat (size / 2 ^ 16 % 256),
    UInt8.ofNat (size / 2 ^ 8 % 256), UInt8.ofNat (size % 256)]

/-- Go `binary.BigEndian.Uint32` of 4 bytes. -/
def uint32 (b0 b1 b2 b3 : UInt8) : Nat :=
  b0.toNat * 2 ^ 24 + b1.toNat * 2 ^ 16 + b2.toNat * 2 ^ 8 + b3.toNat

/-- Go `binary.Write(conn, binary.BigEndian, size)` for a `uint32`. -/
def binaryWriteUint32 (c : Conn) (size : Nat) : Option GoError × Conn :=
  c.write (putUint32 size)

/-- Go `binary.Read(conn, binary.BigEndian, &size)` for a `uint32`. -/
def binaryReadUint32 (c : Conn) : Except GoError Nat × Conn :=
  match c.readFull 4 with
  | (.ok [b0, b1, b2, b3], c') => (.ok (uint32 b0 b1 b2 b3), c')
  | (.ok _, c') => (.error GoError.unexpectedEOF, c')
  | (.error e, c') => (.error e, c')

/-! ## Messages (messages.go) -/

/-- A Go slice: `none` is the `nil` slice. -/
abbrev Slice (α : Type) := Option (List α)

/-- The elements of a slice; `nil` has none. -/
def Slice.elems {α : Type} (s : Slice α) : List α := s.getD []

def MsgTypeRequestBlock : String := "REQUEST_BLOCK"
def MsgTypeRequestInfo : String := "REQUEST_INFO"
def MsgTypeBlockData : String := "BLOCK_DATA"
def MsgTypePeerInfo : String := "PEER_INFO"
def MsgTypeError : String := "ERROR"

/-- Go `RequestBlockMsg`; the field `Type` is `MsgType` here, as in the four
other structs. Go strings are Lean strings, so valid UTF-8. -/
structure RequestBlockMsg where
  MsgType : String
  BlockID : Int
deriving DecidableEq, Repr

/-- Go `RequestInfoMsg`. -/
structure RequestInfoMsg where
  MsgType : String
deriving DecidableEq, Repr

/-- Go `BlockDataMsg`. -/
structure BlockDataMsg where
  MsgType : String
  BlockID : Int
  Data : Slice UInt8
  Checksum : String
deriving DecidableEq, Repr

/-- Go `PeerInfoMsg`. -/
structure PeerInfoMsg where
  MsgType : String
  AvailableBlocks : Slice Int
  TotalBlocks : Int
deriving DecidableEq, Repr

/-- Go `ErrorMsg`. -/
structure ErrorMsg where
  MsgType : String
  Message : String
deriving DecidableEq, Repr

/-- The `Message` interface: a pointer to one of the five structs. -/
inductive Message where
  | requestBlock (m : RequestBlockMsg)
  | requestInfo (m : RequestInfoMsg)
  | blockData (m : BlockDataMsg)
  | peerInfo (m : PeerInfoMsg)
  | error (m : ErrorMsg)
deriving DecidableEq, Repr

/-- Go `msg.GetType()`. -/
def Message.GetType : Message → String
  | .requestBlock m => m.MsgType
  | .requestInfo m => m.MsgType
  | .blockData m => m.MsgType
  | .peerInfo m => m.MsgType
  | .error m => m.MsgType

/-- Go `NewRequestBlock(blockID)`. -/
def NewRequestBlock (blockID : Int) : RequestBlockMsg :=
  { MsgType := MsgTypeRequestBlock, BlockID := blockID }

/-- Go `NewRequestInfo()`. -/
def NewRequestInfo : RequestInfoMsg :=
  { MsgType := MsgTypeRequestInfo }

/-- Go `NewBlockData(blockID, data, checksum)`. -/
def NewBlockData (blockID : Int) (data : Slice UInt8) (checksum : String) : BlockDataMsg :=
  { MsgType := MsgTypeBlockData, BlockID := blockID, Data := data, Checksum := checksum }

/-- Go `NewPeerInfo(availableBlocks, totalBlocks)`. -/
def NewPeerInfo (availableBlocks : Slice Int) (totalBlocks : Int) : PeerInfoMsg :=
  { MsgType := MsgTypePeerInfo, AvailableBlocks := availableBlocks, TotalBlocks := totalBlocks }

/-- Go `NewError(message)`. -/
def NewError (message : String) : ErrorMsg :=
  { MsgType := MsgTypeError, Message := message }

/-- The messages the five constructors build: the `Type` field is the
discriminant of the shape. -/
def Message.Built : Message → Prop
  | .requestBlock m => m.MsgType = MsgTypeRequestBlock
  | .requestInfo m => m.MsgType = MsgTypeRequestInfo
  | .blockData m => m.MsgType = MsgTypeBlockData
  | .peerInfo m => m.MsgType = MsgTypePeerInfo
  | .error m => m.MsgType = MsgTypeError

instance (msg : Message) : Decidable msg.Built := by
  cases msg <;> unfold Message.Built <;> infer_instance

/-! ## `json.Marshal` of the message structs

The encoder of `encoding/json` on the five structs: the fields in declaration
order under their `json` tags, strings quoted with the HTML-safe escaping of
`json.Marshal`, an `int` in decimal, a `[]byte` in padded standard base64, a
`nil` slice as `null`. -/

/-- A lower-case hexadecimal digit. -/
def hexDigit (n : Nat) : UInt8 :=
  if n < 10 then UInt8.ofNat (48 + n) else UInt8.ofNat (87 + n)

/-- The bytes the encoder writes for one character of a string (with the
short escapes for backspace and form feed that Go 1.22 introduced). -/
def jsonEscapeChar (c : Char) : List UInt8 :=
  let n := c.toNat
  if n < 128 then
    if 32 ≤ n ∧ n ≠ 34 ∧ n ≠ 38 ∧ n ≠ 60 ∧ n ≠ 62 ∧ n ≠ 92 then [UInt8.ofNat n]
    else if n = 92 ∨ n = 34 then [92, UInt8.ofNat n]
    else if n = 8 then [92, 98]
    else if n = 12 then [92, 102]
    else if n = 10 then [92, 110]
    else if n = 13 then [92, 114]
    else if n = 9 then [92, 116]
    else [92, 117, 48, 48, hexDigit (n / 16), hexDigit (n % 16)]
  else if n = 8232 ∨ n = 8233 then [92, 117, 50, 48, 50, hexDigit (n % 16)]
  else String.utf8EncodeChar c

/-- A string as a JSON string literal. -/
def jsonString (s : String) : List UInt8 :=
  [34] ++ s.data.flatMap jsonEscapeChar ++ [34]

/-- The decimal digits of a natural number. -/
def decimal (n : Nat) : List UInt8 :=
  (Nat.toDigits 10 n).map (fun c => UInt8.ofNat c.toNat)

/-- An `int` as a JSON number (`strconv.AppendInt(b, v, 10)`). -/
def jsonInt : Int → List UInt8
  | .ofNat n => decimal n
  | .negSucc n => 45 :: decimal (n + 1)

/-- The character of a 6-bit value in the standard base64 alphabet. -/
def base64Char (n : Nat) : UInt8 :=
  if n < 26 then UInt8.ofNat (65 + n)
  else if n < 52 then UInt8.ofNat (71 + n)
  else if n < 62 then UInt8.ofNat (n - 4)
  else if n = 62 then 43
  else 47

/-- Go `base64.StdEncoding.EncodeToString`. -/
def base64Encode : List UInt8 → List UInt8
  | [] => []
  | [a] =>
    let n := a.toNat * 65536
    [base64Char (n / 262144), base64Char (n / 4096 % 64), 61, 61]
  | [a, b] =>
    let n := a.toNat * 65536 + b.toNat * 256
    [base64Char (n / 262144), base64Char (n / 4096 % 64), base64Char (n / 64 % 64), 61]
  | a :: b :: c :: rest =>
    let n := a.toNat * 65536 + b.toNat * 256 + c.toNat
    [base64Char (n / 262144), base64Char (n / 4096 % 64), base64Char (n / 64 % 64),
      base64Char (n % 64)] ++ base64Encode rest

/-- The bytes of a text of ASCII characters. -/
def asciiBytes (text : String) : List UInt8 :=
  text.data.map (fun c => UInt8.ofNat c.toNat)

/-- The bytes `null`. -/
def jsonNull : List UInt8 := [110, 117, 108, 108]

/-- A `[]byte` field. -/
def jsonBytes : Slice UInt8 → List UInt8
  | none => jsonNull
  | some data => [34] ++ base64Encode data ++ [34]

/-- A `[]int` field. -/
def jsonInts : Slice Int → List UInt8
  | none => jsonNull
  | some ids => [91] ++ List.intercalate [44] (ids.map jsonInt) ++ [93]

/-- One member of an object: the quoted name, a colon, the value. -/
def jsonMember (field : String × List UInt8) : List UInt8 :=
  jsonString field.1 ++ [58] ++ field.2

/-- An object: its members separated by commas, in braces. -/
def jsonObject (fields : List (String × List UInt8)) : List UInt8 :=
  [123] ++ List.intercalate [44] (fields.map jsonMember) ++ [125]

/-- The members `json.Marshal(msg)` writes, from the `json` tags of the
struct of `msg`. -/
def Message.fields : Message → List (String × List UInt8)
  | .requestBlock m => [("type", jsonString m.MsgType), ("block_id", jsonInt m.BlockID)]
  | .requestInfo m => [("type", jsonString m.MsgType)]
  | .blockData m =>
    [("type", jsonString m.MsgType), ("block_id", jsonInt m.BlockID), ("data", jsonBytes m.Data),
      ("checksum", jsonString m.Checksum)]
  | .peerInfo m =>
    [("type", jsonString m.MsgType), ("available_blocks", jsonInts m.AvailableBlocks),
      ("total_blocks", jsonInt m.TotalBlocks)]
  | .error m => [("type", jsonString m.MsgType), ("message", jsonString m.Message)]

/-- The bytes `json.Marshal(msg)` produces for a `Message`. -/
def Message.payload (msg : Message) : List UInt8 :=
  jsonObject msg.fields

/-- Go `json.Marshal(msg)` for a `Message`; it has no failing case on the five
structs. -/
def jsonMarshal (msg : Message) : Except GoError (List UInt8) :=
  .ok msg.payload

/-! ## Decoded values and the rest of the library -/

/-- What `json.Unmarshal` stores in an `interface{}`. A number is a `float64`,
kept as its IEEE 754 bit pattern. -/
inductive GoValue where
  | null
  | bool (b : Bool)
  | float64 (bits : Nat)
  | string (s : String)
  | slice (elems : List GoValue)
  | map (members : List (String × GoValue))

/-- A `map[string]interface{}`. -/
abbrev FieldBag := List (String × GoValue)

/-- Go `data[key]` with the presence flag. -/
def FieldBag.lookup : FieldBag → String → Option GoValue
  | [], _ => none
  | (k, v) :: rest, key => if k = key then some v else FieldBag.lookup rest key

/-- Go `data[key].(string)`: the string and `ok`. -/
def FieldBag.stringField (data : FieldBag) (key : String) : String × Bool :=
  match data.lookup key with
  | some (.string s) => (s, true)
  | _ => ("", false)

/-- The library functions the code calls and that are taken as given: the
decoders and the map encoder of `encoding/json`, and SHA-256 in hexadecimal. -/
structure Library where
  /-- Go `json.Unmarshal(data, &msg)` with `msg map[string]interface{}`. -/
  unmarshalMap : List UInt8 → Except GoError FieldBag
  /-- Go `json.Marshal(data)` with `data map[string]interface{}`. -/
  marshalMap : FieldBag → Except GoError (List UInt8)
  /-- Go `json.Unmarshal(jsonData, &msg)` with `msg RequestBlockMsg`. -/
  unmarshalRequestBlock : List UInt8 → Except GoError RequestBlockMsg
  /-- Go `json.Unmarshal(jsonData, &msg)` with `msg RequestInfoMsg`. -/
  unmarshalRequestInfo : List UInt8 → Except GoError RequestInfoMsg
  /-- Go `json.Unmarshal(jsonData, &msg)` with `msg BlockDataMsg`. -/
  unmarshalBlockData : List UInt8 → Except GoError BlockDataMsg
  /-- Go `json.Unmarshal(jsonData, &msg)` with `msg PeerInfoMsg`. -/
  unmarshalPeerInfo : List UInt8 → Except GoError PeerInfoMsg
  /-- Go `json.Unmarshal(jsonData, &msg)` with `msg ErrorMsg`. -/
  unmarshalError : List UInt8 → Except GoError ErrorMsg
  /-- Go `hex.EncodeToString(h[:])` of `h := sha256.Sum256(data)`. -/
  sha256Hex : List UInt8 → String

/-- Go `SendMessage(conn, msg)`: the error and the connection afterwards. -/
def SendMessage (conn : Conn) (msg : Message) : Option GoError × Conn :=
  match jsonMarshal msg with
  | .error err => (some (.wrap "erro ao serializar mensagem: %w" err), conn)
  | .ok data =>
    let size := data.length % 2 ^ 32
    match binaryWriteUint32 conn size with
    | (some err, conn) => (some (.wrap "erro ao enviar tamanho: %w" err), conn)
    | (none, conn) =>
      match conn.write data with
      | (some err, conn) => (some (.wrap "erro ao enviar dados: %w" err), conn)
      | (none, conn) => (none, conn)

/-- The ceiling of `ReceiveMessage`, `16*1024*1024`. -/
def maxMessageSize : Nat := 16 * 1024 * 1024

/-- The error of `ReceiveMessage` for a size above the ceiling. -/
def errMessageTooLarge : GoError := .errorf "mensagem muito grande: %d bytes"

/-- Go `ReceiveMessage(conn)`: the field bag or the error, and the connection
afterwards. -/
def ReceiveMessage (lib : Library) (conn : Conn) : Except GoError FieldBag × Conn :=
  match binaryReadUint32 conn with
  | (.error err, conn) => (.error (.wrap "erro ao ler tamanho: %w" err), conn)
  | (.ok size, conn) =>
    if size > maxMessageSize then
      (.error errMessageTooLarge, conn)
    else
      match conn.readFull size with
      | (.error err, conn) => (.error (.wrap "erro ao ler dados: %w" err), conn)
      | (.ok data, conn) =>
        match lib.unmarshalMap data with
        | .error err => (.error (.wrap "erro ao deserializar JSON: %w" err), conn)
        | .ok msg => (.ok msg, conn)

/-- Go `ParseMessage(data)`. -/
def ParseMessage (lib : Library) (data : FieldBag) : Except GoError Message :=
  match data.stringField "type" with
  | (_, false) => .error (.errorf "campo 'type' não encontrado ou inválido")
  | (msgType, true) =>
    match lib.marshalMap data with
    | .error err => .error err
    | .ok jsonData =>
      if msgType = MsgTypeRequestBlock then
        match lib.unmarshalRequestBlock jsonData with
        | .error err => .error err
        | .ok msg => .ok (.requestBlock msg)
      else if msgType = MsgTypeRequestInfo then
        match lib.unmarshalRequestInfo jsonData with
        | .error err => .error err
        | .ok msg => .ok (.requestInfo msg)
      else if msgType = MsgTypeBlockData then
        match lib.unmarshalBlockData jsonData with
        | .error err => .error err
        | .ok msg => .ok (.blockData msg)
      else if msgType = MsgTypePeerInfo then
        match lib.unmarshalPeerInfo jsonData with
        | .error err => .error err
        | .ok msg => .ok (.peerInfo msg)
      else if msgType = MsgTypeError then
        match lib.unmarshalError jsonData with
        | .error err => .error err
        | .ok msg => .ok (.error msg)
      else
        .error (.errorf "tipo de mensagem desconhecido: %s")

/-! ## checksum.go -/

/-- Go `CalculateBlockChecksum(data)`. -/
def CalculateBlockChecksum (lib : Library) (data : List UInt8) : String :=
  "sha256:" ++ lib.sha256Hex data

/-- Go `ValidateBlockChecksum(data, expectedChecksum)`. -/
def ValidateBlockChecksum (lib : Library) (data : List UInt8) (expectedChecksum : String) :
    Bool :=
  let actualChecksum := CalculateBlockChecksum lib data
  decide (actualChecksum = expectedChecksum)

/-- The file at one path: its bytes (`none` when there is no file) and the
error of `os.OpenFile` when opening it fails. -/
structure File where
  content : Option (List UInt8)
  openErr : Option GoError
deriving DecidableEq, Repr

/-- The product of two `int64` values, wrapped to 64 bits. -/
def mulInt64 (a b : Int) : Int :=
  (a * b + 2 ^ 63) % 2 ^ 64 - 2 ^ 63

/-- The bytes of a file after `file.WriteAt(data, off)` with `off >= 0`: a
write past the end fills the gap with zero bytes, an empty write changes
nothing. -/
def writeAt (old data : List UInt8) (off : Nat) : List UInt8 :=
  if data = [] then old
  else (old ++ List.replicate (off - old.length) 0).take off ++ data ++
    old.drop (off + data.length)

/-- Go `WriteBlockToFile(filePath, blockID, blockSize, data)` on the file at
`filePath`: the error and the file afterwards. `O_CREATE` makes a missing file
an empty one before the write. -/
def WriteBlockToFile (file : File) (blockID blockSize : Int) (data : List UInt8) :
    Option GoError × File :=
  match file.openErr with
  | some err => (some (.wrap "erro ao abrir arquivo: %w" err), file)
  | none =>
    let opened := file.content.getD []
    let offset := mulInt64 blockID blockSize
    if offset < 0 then
      (some (.wrap "erro ao escrever bloco: %w" (.os "negative offset")),
        { file with content := some opened })
    else
      (none, { file with content := some (writeAt opened data offset.toNat) })

/-! ## metadata.go -/

/-- Go `BlockInfo`. -/
structure BlockInfo where
  ID : Int
  Offset : Int
  Size : Int
  Hash : String
deriving DecidableEq, Repr

/-- Go `Metadata`. -/
structure Metadata where
  FileName : String
  FileSize : Int
  BlockSize : Int
  TotalBlocks : Int
  FileHash : String
  Blocks : List BlockInfo
deriving DecidableEq, Repr

/-- Go `m.GetBlock(blockID)`; indexing `m.Blocks` past its end panics. -/
def Metadata.GetBlock (m : Metadata) (blockID : Int) : Result BlockInfo :=
  if blockID < 0 ∨ blockID ≥ m.TotalBlocks then
    .err (.errorf "ID de bloco inválido: %d (total: %d)")
  else
    match m.Blocks[blockID.toNat]? with
    | some block => .ok block
    | none => .panic "index out of range"

/-! ## `Client.downloadBlock` (client.go) -/

/-- What `downloadBlock` uses of a `Client`: the tracker, the metadata and the
file at `c.filePath`. -/
structure Client where
  blockManager : BlockManager
  metadata : Metadata
  file : File
deriving DecidableEq, Repr

/-- Go `c.downloadBlock(conn, neighborAddr, blockID)`: the result, the client and
the connection afterwards (`neighborAddr` is not used by the body). -/
def Client.downloadBlock (lib : Library) (c : Client) (conn : Conn) (blockID : Int) :
    Result Unit × Client × Conn :=
  let request := NewRequestBlock blockID
  match SendMessage conn (.requestBlock request) with
  | (some err, conn) => (.err (.wrap "erro ao enviar REQUEST_BLOCK: %w" err), c, conn)
  | (none, conn) =>
    match ReceiveMessage lib conn with
    | (.error err, conn) => (.err (.wrap "erro ao receber resposta: %w" err), c, conn)
    | (.ok msgData, conn) =>
      match ParseMessage lib msgData with
      | .error err => (.err (.wrap "erro ao parsear resposta: %w" err), c, conn)
      | .ok (.blockData m) =>
        if !ValidateBlockChecksum lib m.Data.elems m.Checksum then
          (.err (.errorf "checksum inválido para bloco %d"), c, conn)
        else
          match c.metadata.GetBlock blockID with
          | .panic reason => (.panic reason, c, conn)
          | .err err => (.err (.wrap "erro ao obter metadados: %w" err), c, conn)
          | .ok expectedBlock =>
            if m.Checksum ≠ expectedBlock.Hash then
              (.err (.errorf "checksum não corresponde aos metadados"), c, conn)
            else
              match WriteBlockToFile c.file blockID c.metadata.BlockSize m.Data.elems with
              | (some err, file) =>
                (.err (.wrap "erro ao escrever bloco: %w" err), { c with file := file }, conn)
              | (none, file) =>
                (.ok (),
                  { c with
                    file := file
                    blockManager := c.blockManager.MarkBlockAvailable blockID },
                  conn)
      | .ok (.error _) => (.err (.errorf "erro do servidor: %s"), c, conn)
      | .ok _ => (.err (.errorf "tipo de mensagem inesperado: %T"), c, conn)

/-! ## Encode-then-decode, and a sample library -/

/-- A connection on which nothing has been written, that delivers the bytes
`input` and then ends. -/
def Conn.delivering (input : List UInt8) : Conn :=
  { input := input, readErr := .eof, output := [], writeErr := none }

/-- Encode-then-decode: `SendMessage` on a fresh connection, then
`ReceiveMessage` and `ParseMessage` on a connection that delivers the bytes
written. -/
def roundTrip (lib : Library) (msg : Message) : Except GoError Message :=
  match SendMessage (Conn.delivering []) msg with
  | (some err, _) => .error err
  | (none, sent) =>
    match ReceiveMessage lib (Conn.delivering sent.output) with
    | (.error err, _) => .error err
    | (.ok data, _) => ParseMessage lib data

/-- Go `json.Unmarshal(jsonData, &m)` with `m` of the struct type of `shape`. -/
def Library.unmarshalLike (lib : Library) (shape : Message) (jsonData : List UInt8) :
    Except GoError Message :=
  match shape with
  | .requestBlock _ => (lib.unmarshalRequestBlock jsonData).map Message.requestBlock
  | .requestInfo _ => (lib.unmarshalRequestInfo jsonData).map Message.requestInfo
  | .blockData _ => (lib.unmarshalBlockData jsonData).map Message.blockData
  | .peerInfo _ => (lib.unmarshalPeerInfo jsonData).map Message.peerInfo
  | .error _ => (lib.unmarshalError jsonData).map Message.error

/-- The `BlockData` message of the worked examples: block 0 with the bytes
1, 2, 3 and a checksum that is not the digest of those bytes. -/
def sampleBlockData : BlockDataMsg :=
  NewBlockData 0 (some [1, 2, 3]) "sha256:00"

/-- The field bag of the document of `sampleBlockData`. -/
def sampleBlockDataBag : FieldBag :=
  [("type", .string MsgTypeBlockData), ("block_id", .float64 0), ("data", .string "AQID"),
    ("checksum", .string "sha256:00")]

/-- A small instance of `Library` for the worked examples. Its decoders know
two documents, the encodings of `NewRequestInfo()` and of `sampleBlockData`,
and fail on every other input; its digest is the byte count in unary, not
SHA-256. -/
def sampleLibrary : Library where
  unmarshalMap data :=
    if data = (Message.requestInfo NewRequestInfo).payload then
      .ok [("type", .string MsgTypeRequestInfo)]
    else if data = (Message.blockData sampleBlockData).payload then
      .ok sampleBlockDataBag
    else .error (.json "unexpected document")
  marshalMap data :=
    match data.stringField "type" with
    | ("REQUEST_INFO", true) => .ok ((Message.requestInfo NewRequestInfo).payload)
    | ("BLOCK_DATA", true) => .ok ((Message.blockData sampleBlockData).payload)
    | _ => .error (.json "unsupported value")
  unmarshalRequestBlock _ := .error (.json "unexpected document")
  unmarshalRequestInfo data :=
    if data = (Message.requestInfo NewRequestInfo).payload then .ok NewRequestInfo
    else .error (.json "unexpected document")
  unmarshalBlockData data :=
    if data = (Message.blockData sampleBlockData).payload then .ok sampleBlockData
    else .error (.json "unexpected document")
  unmarshalPeerInfo _ := .error (.json "unexpected document")
  unmarshalError _ := .error (.json "unexpected document")
  sha256Hex data := String.mk (List.replicate data.length '1')

/-- An `ErrorMsg` whose text is `n` letters `a`. -/
def errorOfLength (n : Nat) : Message :=
  .error (NewError (String.mk (List.replicate n 'a')))

/-- A `BlockDataMsg` for block 0 that carries `n` zero bytes. -/
def blockDataOfLength (n : Nat) : Message :=
  .blockData (NewBlockData 0 (some (List.replicate n 0)) "")

/-- The client of the worked examples: a tracker of 1 block, metadata that
records a digest for block 0, and a destination file of 3 zero bytes. -/
def sampleClient : Client :=
  { blockManager := NewBlockManager 1
    metadata :=
      { FileName := "sample.bin", FileSize := 3, BlockSize := 3, TotalBlocks := 1,
        FileHash := "sha256:111",
        Blocks := [{ ID := 0, Offset := 0, Size := 3, Hash := "sha256:111" }] }
    file := { content := some [0, 0, 0], openErr := none } }

/-- A connection that delivers the frame of `sampleBlockData` and then ends. -/
def sampleConn : Conn :=
  Conn.delivering (putUint32 (Message.blockData sampleBlockData).payload.length ++
    (Message.blockData sampleBlockData).payload)

/-! ## A library over a table of documents -/

/-- A two-digit digest for the worked examples: the sum of the bytes modulo
256, in hexadecimal. It is not SHA-256. -/
def toyDigest (data : List UInt8) : String :=
  let sum := (data.foldl (fun acc b => acc + b.toNat) 0) % 256
  String.mk [Char.ofNat (hexDigit (sum / 16)).toNat, Char.ofNat (hexDigit (sum % 16)).toNat]

/-- The byte a decoded number stands for. -/
def GoValue.toByte : GoValue → UInt8
  | .float64 bits => UInt8.ofNat bits
  | _ => 0

/-- An instance of `Library` for the worked examples, over a table of
messages. Its decoders know the encodings of the messages of the table and
fail on every other input: the generic decoder keeps the `type` string and the
bytes of the document, the map encoder writes those bytes back, and a struct
decoder yields the message of the table with that encoding. Its digest is
`toyDigest`. -/
def tableLibrary (docs : List Message) : Library where
  unmarshalMap data :=
    match docs.find? (fun m => decide (m.payload = data)) with
    | some m =>
      .ok [("type", .string m.GetType),
        ("document", .slice (data.map (fun b => GoValue.float64 b.toNat)))]
    | none => .error (.json "unexpected document")
  marshalMap data :=
    match data.lookup "document" with
    | some (.slice elems) => .ok (elems.map GoValue.toByte)
    | _ => .error (.json "unsupported value")
  unmarshalRequestBlock data :=
    match docs.find? (fun m => decide (m.payload = data)) with
    | some (.requestBlock m) => .ok m
    | _ => .error (.json "unexpected document")
  unmarshalRequestInfo data :=
    match docs.find? (fun m => decide (m.payload = data)) with
    | some (.requestInfo m) => .ok m
    | _ => .error (.json "unexpected document")
  unmarshalBlockData data :=
    match docs.find? (fun m => decide (m.payload = data)) with
    | some (.blockData m) => .ok m
    | _ => .error (.json "unexpected document")
  unmarshalPeerInfo data :=
    match docs.find? (fun m => decide (m.payload = data)) with
    | some (.peerInfo m) => .ok m
    | _ => .error (.json "unexpected document")
  unmarshalError data :=
    match docs.find? (fun m => decide (m.payload = data)) with
    | some (.error m) => .ok m
    | _ => .error (.json "unexpected document")
  sha256Hex := toyDigest

/-- A connection that delivers the frame of a message and then ends. -/
def Conn.deliveringFrame (msg : Message) : Conn :=
  Conn.delivering (putUint32 msg.payload.length ++ msg.payload)

/-- A `BlockData` for block 0 with the bytes 1, 2, 3 and their toy digest. -/
def goodBlockData : BlockDataMsg :=
  NewBlockData 0 (some [1, 2, 3]) ("sha256:" ++ toyDigest [1, 2, 3])

/-- A client whose metadata records, for block 0, the offset 5 and the size 2
next to the digest of the bytes 1, 2, 3, with a block size of 3; its
destination file holds 8 zero bytes. -/
def shiftedClient : Client :=
  { blockManager := NewBlockManager 1
    metadata :=
      { FileName := "shifted.bin", FileSize := 8, BlockSize := 3, TotalBlocks := 1,
        FileHash := "sha256:06",
        Blocks := [{ ID := 0, Offset := 5, Size := 2, Hash := "sha256:" ++ toyDigest [1, 2, 3] }] }
    file := { content := some [0, 0, 0, 0, 0, 0, 0, 0], openErr := none } }

/-- A metadata record that declares 2 blocks and lists none. -/
def shortMetadata : Metadata :=
  { FileName := "short.bin", FileSize := 8, BlockSize := 4, TotalBlocks := 2,
    FileHash := "sha256:00", Blocks := [] }

/-! ## Reading files (checksum.go) and the generator (generator.go) -/

/-- Go `os.Open(filePath)` followed by reads: the bytes of the file, or the
error of opening it. -/
def File.openRead (file : File) : Except GoError (List UInt8) :=
  match file.openErr with
  | some err => .error err
  | none =>
    match file.content with
    | none => .error (.os "no such file or directory")
    | some bytes => .ok bytes

/-- Go `GetFileSize(filePath)`, through `os.Stat`. -/
def GetFileSize (file : File) : Except GoError Int :=
  match file.content with
  | none =>
    .error (.wrap "erro ao obter informações do arquivo: %w" (.os "no such file or directory"))
  | some bytes => .ok (bytes.length : Int)

/-- Go `CalculateTotalBlocks(fileSize, blockSize)`; the division truncates
toward zero and panics for a block size of 0. -/
def CalculateTotalBlocks (fileSize blockSize : Int) : Result Int :=
  if blockSize = 0 then .panic "integer divide by zero"
  else
    let totalBlocks := fileSize.tdiv blockSize
    if fileSize.tmod blockSize ≠ 0 then .ok (totalBlocks + 1) else .ok totalBlocks

/-- Go `CalculateFileChecksum(filePath)`. -/
def CalculateFileChecksum (lib : Library) (file : File) : Except GoError String :=
  match file.openRead with
  | .error err => .error (.wrap "erro ao abrir arquivo: %w" err)
  | .ok bytes => .ok ("sha256:" ++ lib.sha256Hex bytes)

/-- The loop of `CalculateFileBlocksChecksums` over the bytes not yet read:
each `file.Read(buffer)` takes up to `blockSize` bytes, and the loop ends at
the end of the file. With an empty buffer `Read` returns 0 bytes and no error,
so for a block size of 0 the loop never ends; `none` says that it is still
running after `fuel` reads. -/
def readBlocksChecksums (lib : Library) (blockSize : Nat) :
    Nat → List UInt8 → Option (List String)
  | 0, _ => none
  | fuel + 1, rest =>
    if blockSize = 0 then
      (readBlocksChecksums lib blockSize fuel rest).map
        (fun checksums => CalculateBlockChecksum lib [] :: checksums)
    else if rest = [] then some []
    else
      (readBlocksChecksums lib blockSize fuel (rest.drop blockSize)).map
        (fun checksums => CalculateBlockChecksum lib (rest.take blockSize) :: checksums)

/-- Go `CalculateFileBlocksChecksums(filePath, blockSize)`; `none` when the
loop is still running after `fuel` reads. A negative block size panics in
`make`. -/
def CalculateFileBlocksChecksums (lib : Library) (file : File) (blockSize : Int) (fuel : Nat) :
    Option (Result (List String)) :=
  match file.openRead with
  | .error err => some (.err (.wrap "erro ao abrir arquivo: %w" err))
  | .ok bytes =>
    if blockSize < 0 then some (.panic "makeslice: len out of range")
    else (readBlocksChecksums lib blockSize.toNat fuel bytes).map Result.ok

/-- The body of the loop of `GenerateFromFile` for the index `i`. -/
def generateBlock (fileSize : Int) (blockSize : Int) (totalBlocks : Int)
    (blockChecksums : List String) (i : Nat) : Result BlockInfo :=
  let offset := mulInt64 i blockSize
  let size :=
    if (i : Int) = totalBlocks - 1 then
      let remainingSize := fileSize - offset
      if remainingSize < blockSize then remainingSize else blockSize
    else blockSize
  match blockChecksums[i]? with
  | none => .panic "index out of range"
  | some hash => .ok { ID := i, Offset := offset, Size := size, Hash := hash }

/-- The loop of `GenerateFromFile` over the indices still to fill. -/
def generateBlocks (fileSize : Int) (blockSize : Int) (totalBlocks : Int)
    (blockChecksums : List String) : List Nat → Result (List BlockInfo)
  | [] => .ok []
  | i :: rest =>
    match generateBlock fileSize blockSize totalBlocks blockChecksums i with
    | .panic reason => .panic reason
    | .err err => .err err
    | .ok block =>
      match generateBlocks fileSize blockSize totalBlocks blockChecksums rest with
      | .panic reason => .panic reason
      | .err err => .err err
      | .ok blocks => .ok (block :: blocks)

/-- Go `GenerateFromFile(filePath, blockSize)` on the file at `filePath`, whose
base name is `fileName`; `none` when the checksum loop is still running after
`fuel` reads. -/
def GenerateFromFile (lib : Library) (file : File) (fileName : String) (blockSize : Int)
    (fuel : Nat) : Option (Result Metadata) :=
  match GetFileSize file with
  | .error err => some (.err (.wrap "erro ao obter tamanho do arquivo: %w" err))
  | .ok fileSize =>
    match CalculateTotalBlocks fileSize blockSize with
    | .panic reason => some (.panic reason)
    | .err err => some (.err err)
    | .ok totalBlocks =>
      match CalculateFileChecksum lib file with
      | .error err => some (.err (.wrap "erro ao calcular hash do arquivo: %w" err))
      | .ok fileHash =>
        match CalculateFileBlocksChecksums lib file blockSize fuel with
        | none => none
        | some (.panic reason) => some (.panic reason)
        | some (.err err) =>
          some (.err (.wrap "erro ao calcular checksums dos blocos: %w" err))
        | some (.ok blockChecksums) =>
          if totalBlocks < 0 then some (.panic "makeslice: len out of range")
          else
            match generateBlocks fileSize blockSize totalBlocks blockChecksums
                (List.range totalBlocks.toNat) with
            | .panic reason => some (.panic reason)
            | .err err => some (.err err)
            | .ok blocks =>
              some (.ok
                { FileName := fileName, FileSize := fileSize, BlockSize := blockSize,
                  TotalBlocks := totalBlocks, FileHash := fileHash, Blocks := blocks })

/-- A file of the worked examples: the bytes 1 to 9. -/
def nineBytes : File :=
  { content := some [1, 2, 3, 4, 5, 6, 7, 8, 9], openErr := none }

/-- The number of blocks of `n` bytes in blocks of `b` bytes. -/
def blockCount (n b : Nat) : Nat :=
  n / b + (if n % b = 0 then 0 else 1)

/-- The bytes of block `i` of a file in blocks of `b` bytes. -/
def blockBytes (bytes : List UInt8) (b i : Nat) : List UInt8 :=
  (bytes.drop (i * b)).take b

/-- The descriptor `GenerateFromFile` builds for block `i` of a file of `n`
bytes in blocks of `b` bytes, with the digest `hash`. -/
def generatedBlock (n b : Nat) (hash : String) (i : Nat) : BlockInfo :=
  { ID := i, Offset := (i : Int) * b,
    Size := if i + 1 = blockCount n b then (n : Int) - (i : Int) * b else b,
    Hash := hash }

/-- The metadata `GenerateFromFile` builds for a file that holds `bytes`, in
blocks of `b` bytes. -/
def generatedMetadata (lib : Library) (bytes : List UInt8) (fileName : String) (b : Nat) :
    Metadata :=
  { FileName := fileName, FileSize := (bytes.length : Int), BlockSize := (b : Int),
    TotalBlocks := (blockCount bytes.length b : Int),
    FileHash := "sha256:" ++ lib.sha256Hex bytes,
    Blocks := (List.range (blockCount bytes.length b)).map
      (fun i => generatedBlock bytes.length b (CalculateBlockChecksum lib (blockBytes bytes b i))
        i) }

/-! ## `Server` (server.go) -/

/-- Go `err.Error()`: the text of an error. A `%w` at the end of a format is
replaced by the text of the wrapped error; the verbs of the arguments that
`GoError` leaves out stay as written. -/
def GoError.Error : GoError → String
  | .eof => "EOF"
  | .unexpectedEOF => "unexpected EOF"
  | .net desc => desc
  | .json desc => desc
  | .os desc => desc
  | .errorf format => format
  | .wrap format inner => String.mk (format.data.take (format.length - 2)) ++ inner.Error

/-- An `int` as `%d` prints it. -/
def formatInt (n : Int) : String :=
  String.mk ((jsonInt n).map (fun b => Char.ofNat b.toNat))

/-- Go `ReadBlockFromFile(filePath, blockID, blockSize)` on the file at
`filePath`: up to `blockSize` bytes from the offset `blockID * blockSize`. A
negative offset fails in `Seek`, a negative block size panics in `make`. -/
def ReadBlockFromFile (file : File) (blockID blockSize : Int) : Result (List UInt8) :=
  match file.openRead with
  | .error err => .err (.wrap "erro ao abrir arquivo: %w" err)
  | .ok bytes =>
    let offset := mulInt64 blockID blockSize
    if offset < 0 then .err (.wrap "erro ao buscar posição: %w" (.os "invalid argument"))
    else if blockSize < 0 then .panic "makeslice: len out of range"
    else .ok ((bytes.drop offset.toNat).take blockSize.toNat)

/-- What the handlers use of a `Server`: the tracker, the metadata and the
file at `s.filePath`. -/
structure Server where
  blockManager : BlockManager
  metadata : Metadata
  file : File
deriving DecidableEq, Repr

/-- What the body of the loop of `handleConnection` ends with: the next
iteration, or the return of the handler. -/
inductive Flow where
  | next (conn : Conn)
  | done (conn : Conn)
deriving DecidableEq, Repr

namespace Server

/-- Go `s.handleRequestInfo(conn, remoteAddr)`: the connection afterwards. -/
def handleRequestInfo (s : Server) (conn : Conn) : Conn :=
  let availableBlocks := s.blockManager.GetAvailableBlocks
  let totalBlocks := s.blockManager.GetTotalBlocks
  let response := NewPeerInfo (some availableBlocks) totalBlocks
  (SendMessage conn (.peerInfo response)).2

/-- Go `s.handleRequestBlock(conn, remoteAddr, blockID)`: the connection
afterwards, or the panic. The comparison of the digest with the one of the
metadata only writes a log line. -/
def handleRequestBlock (lib : Library) (s : Server) (conn : Conn) (blockID : Int) :
    Result Conn :=
  if !s.blockManager.IsBlockAvailable blockID then
    let errMsg := NewError ("Bloco " ++ formatInt blockID ++ " não disponível")
    .ok (SendMessage conn (.error errMsg)).2
  else
    match ReadBlockFromFile s.file blockID s.metadata.BlockSize with
    | .panic reason => .panic reason
    | .err err =>
      let errMsg := NewError ("Erro ao ler bloco: " ++ err.Error)
      .ok (SendMessage conn (.error errMsg)).2
    | .ok blockData =>
      let blockChecksum := CalculateBlockChecksum lib blockData
      match s.metadata.GetBlock blockID with
      | .panic reason => .panic reason
      | .err _ =>
        let errMsg := NewError "Erro ao obter metadados do bloco"
        .ok (SendMessage conn (.error errMsg)).2
      | .ok _ =>
        let response := NewBlockData blockID (some blockData) blockChecksum
        .ok (SendMessage conn (.blockData response)).2

/-- The body of the loop of `s.handleConnection(conn)`. -/
def handleConnectionStep (lib : Library) (s : Server) (conn : Conn) : Result Flow :=
  match ReceiveMessage lib conn with
  | (.error _, conn) => .ok (.done conn)
  | (.ok msgData, conn) =>
    match ParseMessage lib msgData with
    | .error err =>
      let errMsg := NewError ("Erro ao parsear mensagem: " ++ err.Error)
      .ok (.next (SendMessage conn (.error errMsg)).2)
    | .ok (.requestInfo _) => .ok (.next (s.handleRequestInfo conn))
    | .ok (.requestBlock m) =>
      match s.handleRequestBlock lib conn m.BlockID with
      | .panic reason => .panic reason
      | .err err => .err err
      | .ok conn => .ok (.next conn)
    | .ok _ =>
      let errMsg := NewError "Tipo de mensagem não suportado"
      .ok (.next (SendMessage conn (.error errMsg)).2)

/-- Go `s.handleConnection(conn)`: the connection when the handler returns, or
the panic; `none` when the loop is still running after `fuel` iterations. -/
def handleConnection (lib : Library) (s : Server) : Nat → Conn → Option (Result Conn)
  | 0, _ => none
  | fuel + 1, conn =>
    match s.handleConnectionStep lib conn with
    | .panic reason => some (.panic reason)
    | .err err => some (.err err)
    | .ok (.done conn) => some (.ok conn)
    | .ok (.next conn) => handleConnection lib s fuel conn

end Server

/-- A server whose metadata was generated from the 2 bytes 1, 2 in blocks of
4, and whose file now holds the 4 bytes 1, 2, 3, 4; block 0 is available. -/
def grownServer : Server :=
  { blockManager := (NewBlockManager 1).MarkAllBlocksAvailable
    metadata := generatedMetadata (tableLibrary []) [1, 2] "grown.bin" 4
    file := { content := some [1, 2, 3, 4], openErr := none } }

/-- A server that holds no block of a file of 2 blocks. -/
def emptyServer : Server :=
  { blockManager := NewBlockManager 2
    metadata := generatedMetadata (tableLibrary []) [1, 2, 3, 4, 5] "five.bin" 4
    file := { content := none, openErr := none } }

/-- The shape of the map of every tracker the operations build: one entry per
key, every stored value `true`. -/
def BlockMap.IsMap (m : BlockMap) : Prop :=
  m.keys.Nodup ∧ m.AllTrue

/-- A document with the discriminant `PING`, which is none of the five. -/
def pingMessage : Message :=
  .requestInfo { MsgType := "PING" }

/-! ## The downloader task (client.go) -/

/-- Go `isConnectionError(err)`: whether the error value itself implements
`net.Error`; an error built by `fmt.Errorf` does not. -/
def isConnectionError : Option GoError → Bool
  | some (.net _) => true
  | _ => false

/-- The outcome of `connectWithRetry`, with the number of dial attempts and of
waits of the retry delay it made. -/
structure Connect where
  result : Except GoError Conn
  attempts : Nat
  sleeps : Nat

/-- The loop of `connectWithRetry` with `remaining` iterations to go, at index
`i`; `dial k` is the outcome of the `k`-th `net.DialTimeout` of the task and
`first` the number of dials made before the call. -/
def connectWithRetryLoop (dial : Nat → Except GoError Conn) (first : Nat) (maxRetries : Int) :
    Nat → Nat → Nat → Option GoError → Connect
  | 0, i, sleeps, err =>
    { result :=
        .error (match err with
          | some e => .wrap "falha após %d tentativas: %w" e
          | none => .errorf "falha após %d tentativas: %w")
      attempts := i, sleeps := sleeps }
  | remaining + 1, i, sleeps, _ =>
    match dial (first + i) with
    | .ok conn => { result := .ok conn, attempts := i + 1, sleeps := sleeps }
    | .error err =>
      if (i : Int) < maxRetries - 1 then
        connectWithRetryLoop dial first maxRetries remaining (i + 1) (sleeps + 1) (some err)
      else
        connectWithRetryLoop dial first maxRetries remaining (i + 1) sleeps (some err)

/-- Go `c.connectWithRetry(address, maxRetries, retryDelay)`. -/
def connectWithRetry (dial : Nat → Except GoError Conn) (first : Nat) (maxRetries : Int) :
    Connect :=
  connectWithRetryLoop dial first maxRetries maxRetries.toNat 0 0 none

/-- The network as one downloader task meets it: the outcome of each dial of
the neighbor's address, the bytes the neighbor writes in answer to the bytes of
a request, and whether the stop channel is closed when the iteration `k` of the
loop looks at it. -/
structure Neighbor where
  dial : Nat → Except GoError Conn
  answer : List UInt8 → List UInt8
  stopped : Nat → Bool

/-- The connection with the neighbor's answer to a request added to the bytes
that arrive. `downloadBlock` writes the request before it reads, and the answer
depends on the request only, so the answer is put on the connection ahead of
the call. -/
def Neighbor.deliver (nb : Neighbor) (conn : Conn) (request : Message) : Conn :=
  let sent := (SendMessage conn request).2.output.drop conn.output.length
  { conn with input := conn.input ++ nb.answer sent }

/-- The state of a downloader task in its loop: the client it shares, its
connection, the dials it made and the block ids it requested, in order. -/
structure TaskState where
  client : Client
  conn : Conn
  dialed : Nat
  requested : List Int

/-- What a downloader task leaves when it returns. -/
structure TaskResult where
  client : Client
  dialed : Nat
  requested : List Int

/-- The loop of `downloadFromNeighbor` at its iteration `k`; `none` when it is
still running after `fuel` iterations. -/
def Client.downloadLoop (lib : Library) (nb : Neighbor) :
    Nat → Nat → TaskState → Option (Result TaskResult)
  | 0, _, _ => none
  | fuel + 1, k, st =>
    if nb.stopped k then
      some (.ok { client := st.client, dialed := st.dialed, requested := st.requested })
    else if st.client.blockManager.IsDownloadComplete then
      some (.ok { client := st.client, dialed := st.dialed, requested := st.requested })
    else
      let blockID := st.client.blockManager.GetNextMissingBlock
      if blockID = -1 then
        some (.ok { client := st.client, dialed := st.dialed, requested := st.requested })
      else
        let conn := nb.deliver st.conn (.requestBlock (NewRequestBlock blockID))
        match st.client.downloadBlock lib conn blockID with
        | (.panic reason, _, _) => some (.panic reason)
        | (.err err, client, conn) =>
          if isConnectionError (some err) then
            let again := connectWithRetry nb.dial st.dialed 3
            match again.result with
            | .error _ =>
              some (.ok
                { client := client, dialed := st.dialed + again.attempts,
                  requested := st.requested ++ [blockID] })
            | .ok newConn =>
              Client.downloadLoop lib nb fuel (k + 1)
                { client := client, conn := newConn, dialed := st.dialed + again.attempts,
                  requested := st.requested ++ [blockID] }
          else
            Client.downloadLoop lib nb fuel (k + 1)
              { client := client, conn := conn, dialed := st.dialed,
                requested := st.requested ++ [blockID] }
        | (.ok (), client, conn) =>
          Client.downloadLoop lib nb fuel (k + 1)
            { client := client, conn := conn, dialed := st.dialed,
              requested := st.requested ++ [blockID] }

/-- Go `c.downloadFromNeighbor(neighbor)`; `none` when its loop is still
running after `fuel` iterations. -/
def Client.downloadFromNeighbor (lib : Library) (nb : Neighbor) (fuel : Nat) (c : Client) :
    Option (Result TaskResult) :=
  let first := connectWithRetry nb.dial 0 3
  match first.result with
  | .error _ => some (.ok { client := c, dialed := first.attempts, requested := [] })
  | .ok conn =>
    Client.downloadLoop lib nb fuel 0
      { client := c, conn := conn, dialed := first.attempts, requested := [] }

/-- The bytes a server writes in answer to the bytes of one request that
arrive on a connection it handles. -/
def Server.answer (lib : Library) (s : Server) (request : List UInt8) : List UInt8 :=
  match s.handleConnectionStep lib (Conn.delivering request) with
  | .ok (.next conn) => conn.output
  | .ok (.done conn) => conn.output
  | _ => []

/-- A neighbor that cannot be reached: every dial fails. -/
def unreachableNeighbor : Neighbor :=
  { dial := fun _ => .error (.net "connection refused")
    answer := fun _ => []
    stopped := fun _ => false }

/-- A neighbor behind which a server handles the connection: every dial
succeeds, and nobody stops the task. -/
def Server.asNeighbor (lib : Library) (s : Server) : Neighbor :=
  { dial := fun _ => .ok (Conn.delivering [])
    answer := s.answer lib
    stopped := fun _ => false }

/-! ## `Peer` (peer.go) -/

def ModeSeeder : String := "seeder"
def ModeLeecher : String := "leecher"

/-- What `NewPeer` uses of a `PeerConfig` and of the file system: the mode, the
number of neighbors, the result of `metadata.LoadFromFile(config.MetadataPath)`
and the file at `config.FilePath`. -/
structure PeerConfig where
  Mode : String
  neighbors : Nat
  loaded : Except GoError Metadata
  file : File

/-- A `Peer`: its mode; the tracker, the metadata and the file at `p.FilePath`,
which it shares with its server and its client; whether it has a client; the
downloader tasks started and not yet returned (the counter of the client's
`WaitGroup`); the `waitForDownloadCompletion` goroutines started and not yet
run; whether `Stop` has closed the stop channels; whether the process has
panicked. -/
structure Peer where
  Mode : String
  shared : Client
  hasClient : Bool
  neighbors : Nat
  running : Nat
  watchers : Nat
  stopped : Bool
  crashed : Bool
deriving DecidableEq, Repr

/-- Go `createEmptyFile(filePath, size)`: the file it leaves. -/
def createEmptyFile (size : Int) : Except GoError File :=
  if size < 0 then .error (.os "invalid argument")
  else .ok { content := some (List.replicate size.toNat 0), openErr := none }

/-- Go `NewPeer(config)`, with a download directory that can be created. -/
def NewPeer (config : PeerConfig) : Except GoError Peer :=
  match config.loaded with
  | .error err => .error (.wrap "erro ao carregar metadados: %w" err)
  | .ok meta =>
    let blockManager := NewBlockManager meta.TotalBlocks
    if config.Mode = ModeSeeder then
      match config.file.content with
      | none =>
        .error (.wrap "arquivo não encontrado: %w" (.os "no such file or directory"))
      | some _ =>
        .ok { Mode := config.Mode
              shared := { blockManager := blockManager.MarkAllBlocksAvailable, metadata := meta,
                          file := config.file }
              hasClient := false, neighbors := config.neighbors, running := 0, watchers := 0,
              stopped := false, crashed := false }
    else
      match createEmptyFile meta.FileSize with
      | .error err => .error (.wrap "erro ao criar arquivo de download: %w" err)
      | .ok file =>
        .ok { Mode := config.Mode
              shared := { blockManager := blockManager, metadata := meta, file := file }
              hasClient := decide (config.Mode = ModeLeecher ∧ config.neighbors > 0)
              neighbors := config.neighbors, running := 0, watchers := 0,
              stopped := false, crashed := false }

/-- Go `ValidateFileChecksum(filePath, expectedChecksum)`. -/
def ValidateFileChecksum (lib : Library) (file : File) (expectedChecksum : String) :
    Except GoError Bool :=
  match CalculateFileChecksum lib file with
  | .error err => .error err
  | .ok actualChecksum => .ok (decide (actualChecksum = expectedChecksum))

/-- Go `p.validateFile()`: the error, or `none`. -/
def Peer.validateFile (lib : Library) (p : Peer) : Option GoError :=
  match GetFileSize p.shared.file with
  | .error err => some (.wrap "erro ao obter tamanho do arquivo: %w" err)
  | .ok fileSize =>
    if fileSize ≠ p.shared.metadata.FileSize then
      some (.errorf "tamanho incorreto: esperado %d, obtido %d")
    else
      match ValidateFileChecksum lib p.shared.file p.shared.metadata.FileHash with
      | .error err => some (.wrap "erro ao validar checksum: %w" err)
      | .ok valid =>
        if !valid then some (.errorf "checksum do arquivo não corresponde")
        else none

/-- The events of a peer's life: the calls of its methods, the run of one
downloader task to its return, and the run of `waitForDownloadCompletion` once
`Client.Wait()` has returned. -/
inductive PeerEvent where
  | start (listenErr : Option GoError)
  | task (nb : Neighbor) (fuel : Nat)
  | waitForDownloadCompletion
  | stop
  | wait
  | getProgress
  | isDownloadComplete
  | getStats

/-- The peer after an event. An event that cannot happen in the state (a task
when none is running, the completion watcher while a task runs or when none
was started) leaves the state as it is, and so does every event after a
panic. -/
def Peer.apply (lib : Library) (p : Peer) : PeerEvent → Peer
  | .start listenErr =>
    if p.crashed then p
    else
      match listenErr with
      | some _ => p
      | none =>
        if p.Mode = ModeLeecher ∧ p.hasClient = true then
          { p with running := p.running + p.neighbors, watchers := p.watchers + 1 }
        else p
  | .task nb fuel =>
    if p.crashed ∨ p.running = 0 then p
    else
      match p.shared.downloadFromNeighbor lib nb fuel with
      | none => p
      | some (.panic _) => { p with crashed := true }
      | some (.err _) => { p with running := p.running - 1 }
      | some (.ok result) => { p with shared := result.client, running := p.running - 1 }
  | .waitForDownloadCompletion =>
    if p.crashed ∨ p.watchers = 0 ∨ p.running ≠ 0 then p
    else
      match p.validateFile lib with
      | some _ => { p with watchers := p.watchers - 1 }
      | none => { p with Mode := ModeSeeder, watchers := p.watchers - 1 }
  | .stop =>
    if p.crashed then p
    else if p.stopped then { p with crashed := true }
    else { p with stopped := true }
  | _ => p

/-- The states a peer goes through under a list of events, the first one
included. -/
def Peer.states (lib : Library) (p : Peer) : List PeerEvent → List Peer
  | [] => [p]
  | e :: rest => p :: Peer.states lib (p.apply lib e) rest

/-- The number of places where a list of modes changes. -/
def modeChanges : List String → Nat
  | a :: b :: rest => (if a = b then 0 else 1) + modeChanges (b :: rest)
  | _ => 0

/-- The configuration of a leecher with one neighbor, for a file of 6 zero
bytes in blocks of 4. -/
def zeroFileConfig : PeerConfig :=
  { Mode := ModeLeecher, neighbors := 1
    loaded := .ok (generatedMetadata (tableLibrary []) [0, 0, 0, 0, 0, 0] "zeros.bin" 4)
    file := { content := none, openErr := none } }

/-- The leecher `NewPeer` builds from `zeroFileConfig`. -/
def zeroFilePeer : Peer :=
  { Mode := ModeLeecher
    shared :=
      { blockManager := NewBlockManager 2
        metadata := generatedMetadata (tableLibrary []) [0, 0, 0, 0, 0, 0] "zeros.bin" 4
        file := { content := some [0, 0, 0, 0, 0, 0], openErr := none } }
    hasClient := true, neighbors := 1, running := 0, watchers := 0, stopped := false,
    crashed := false }

/-! ## A seeder and a leecher -/

/-- The library carries a message: the payload is at most 16 MiB, and the
decoders give the message back (the generic decoder keeps the `type` string,
and the struct decoder, fed what the map encoder writes, yields the
message). -/
def Library.Conveys (lib : Library) (msg : Message) : Prop :=
  msg.payload.length ≤ maxMessageSize ∧
  ∃ (data : FieldBag) (jsonData : List UInt8),
    lib.unmarshalMap msg.payload = .ok data ∧
    data.lookup "type" = some (.string msg.GetType) ∧
    lib.marshalMap data = .ok jsonData ∧
    lib.unmarshalLike msg jsonData = .ok msg

/-- The bytes of the frame of a message. -/
def Message.frame (msg : Message) : List UInt8 :=
  putUint32 msg.payload.length ++ msg.payload

/-- The request for block `i`. -/
def requestFor (i : Nat) : Message :=
  .requestBlock (NewRequestBlock i)

/-- The `BlockData` a seeder of `bytes` in blocks of `b` answers with for
block `i`. -/
def responseFor (lib : Library) (bytes : List UInt8) (b i : Nat) : Message :=
  .blockData (NewBlockData i (some (blockBytes bytes b i))
    (CalculateBlockChecksum lib (blockBytes bytes b i)))

/-- The server of a peer: it shares the peer's tracker, metadata and file. -/
def Peer.server (p : Peer) : Server :=
  { blockManager := p.shared.blockManager, metadata := p.shared.metadata, file := p.shared.file }

/-- The configuration of a seeder of the file that holds `bytes`, with the
metadata generated from it. -/
def seederConfig (lib : Library) (bytes : List UInt8) (fileName : String) (b : Nat) :
    PeerConfig :=
  { Mode := ModeSeeder, neighbors := 0
    loaded := .ok (generatedMetadata lib bytes fileName b)
    file := { content := some bytes, openErr := none } }

/-- The configuration of a leecher with one neighbor, with the same
metadata. -/
def leecherConfig (lib : Library) (bytes : List UInt8) (fileName : String) (b : Nat) :
    PeerConfig :=
  { Mode := ModeLeecher, neighbors := 1
    loaded := .ok (generatedMetadata lib bytes fileName b)
    file := { content := none, openErr := none } }

/-- The tracker of `total` blocks after the marks `0, 1, ..., k - 1`. -/
def trackerAfter (total : Int) (k : Nat) : BlockManager :=
  { totalBlocks := total
    availableBlocks := (List.range k).map (fun (i : Nat) => ((i : Int), true))
    downloadComplete := decide ((k : Int) = total ∧ 0 < k) }

/-- The destination file after the blocks `0, 1, ..., k - 1` of `bytes`: their
bytes, then zeros up to the length of `bytes`. -/
def fileAfter (bytes : List UInt8) (b k : Nat) : List UInt8 :=
  bytes.take (k * b) ++ List.replicate (bytes.length - k * b) 0

/-- The leecher's client after it stored the blocks `0, 1, ..., k - 1` of
`bytes`. -/
def clientAfter (lib : Library) (bytes : List UInt8) (fileName : String) (b k : Nat) : Client :=
  { blockManager := trackerAfter (blockCount bytes.length b : Int) k
    metadata := generatedMetadata lib bytes fileName b
    file := { content := some (fileAfter bytes b k), openErr := none } }

/-- The state of the downloader task after `k` iterations that stored the
blocks `0, 1, ..., k - 1`: nothing is left to read on the connection, and the
connection accepts writes. -/
def TaskState.After (lib : Library) (bytes : List UInt8) (fileName : String) (b k : Nat)
    (st : TaskState) : Prop :=
  st.client = clientAfter lib bytes fileName b k ∧
  st.conn.input = [] ∧ st.conn.writeErr = none ∧
  st.requested = (List.range k).map (fun (i : Nat) => (i : Int))

/-- The bytes of the file `nineBytes`: in blocks of 4 bytes they make three
blocks of 4, 4 and 1 bytes. -/
def nineByteList : List UInt8 := [1, 2, 3, 4, 5, 6, 7, 8, 9]

/-- The `error` a call returned: `nil` (`none`) when it returned without one
or panicked. -/
def Result.errorValue {α : Type} : Result α → Option GoError
  | .err e => some e
  | _ => none

/-- A connection whose peer is gone: nothing arrives, and every write fails
with an error of the network (a `*net.OpError`, which implements
`net.Error`). -/
def brokenConn : Conn :=
  { input := [], readErr := .eof, output := [], writeErr := some (.net "write: broken pipe") }

/-- A connection that was reset after it was established: writes are
accepted, nothing arrives, and every read fails with an error of the network
(a `*net.OpError`, which implements `net.Error`). -/
def resetConn : Conn :=
  { input := [], readErr := .net "read: connection reset by peer", output := [],
    writeErr := none }

/-- A neighbor whose first connection is `resetConn` and that never answers on
it; `later k` is the outcome of the dial `k` for `k > 0`. Nobody stops the
task. -/
def resetNeighbor (later : Nat → Except GoError Conn) : Neighbor :=
  { dial := fun k => if k = 0 then .ok resetConn else later k
    answer := fun _ => []
    stopped := fun _ => false }

/-- Dial outcomes for the worked example of `connectWithRetry`: the first two
dials are refused and the third one succeeds. -/
def thirdDial : Nat → Except GoError Conn :=
  fun k => if k = 2 then .ok (Conn.delivering []) else .error (.net "connection refused")

/-- The `BlockData` of `goodBlockData` labelled with the block id 7. -/
def mislabelledBlockData : BlockDataMsg :=
  { goodBlockData with BlockID := 7 }

/-- The table library of the two responses that differ in their block id. -/
def relabelLibrary : Library :=
  tableLibrary [.blockData goodBlockData, .blockData mislabelledBlockData]


/-! ## A model of `encoding/json`: reading a document

The decoder of `encoding/json` as this program uses it: the scanner of JSON
text, the conversion of a value to an `interface{}` (every number becomes a
`float64`), the encoder of a `map[string]interface{}` (keys sorted, a
`float64` in its shortest decimal form), and the decoders into the five
message structs. The model does not bound the nesting depth, matches the keys
of a struct with ASCII case folding only, and its base64 decoder does not skip
line breaks. -/

/-- A JSON value as the decoder reads it. A number keeps what the conversions
need of its literal: the sign, the digits of the integer and fraction parts as
one natural number, the power of ten that scales them, and whether the literal
is an integer literal (neither a fraction nor an exponent). -/
inductive Json where
  | null
  | bool (b : Bool)
  | number (negative : Bool) (digits : Nat) (exp10 : Int) (plain : Bool)
  | string (s : String)
  | array (elems : List Json)
  | object (members : List (String × Json))

/-- The white space of JSON: space, tab, line feed, carriage return. -/
def isJsonSpace (b : UInt8) : Bool :=
  b = 32 || b = 9 || b = 10 || b = 13

/-- The input without its leading white space. -/
def skipSpace : List UInt8 → List UInt8
  | [] => []
  | b :: rest => if isJsonSpace b then skipSpace rest else b :: rest

/-- A decimal digit. -/
def isDigit (b : UInt8) : Bool :=
  48 ≤ b.toNat && b.toNat ≤ 57

/-- The leading decimal digits of the input, and the input after them. -/
def takeDigits : List UInt8 → List UInt8 × List UInt8
  | [] => ([], [])
  | b :: rest =>
    if isDigit b then ((b :: (takeDigits rest).1), (takeDigits rest).2) else ([], b :: rest)

/-- The number a list of decimal digits writes, after the digits read so
far. -/
def digitsValue (acc : Nat) (digits : List UInt8) : Nat :=
  digits.foldl (fun n b => n * 10 + (b.toNat - 48)) acc

/-- The exponent part of a number literal, when there is one: its value and
the input after it; `none` when an `e` is not followed by digits. -/
def scanExponent : List UInt8 → Option (Option Int × List UInt8)
  | [] => some (none, [])
  | b :: rest =>
    if b = 101 || b = 69 then
      match rest with
      | [] => none
      | s :: rest1 =>
        if s = 43 then
          if (takeDigits rest1).1 = [] then none
          else some (some (digitsValue 0 (takeDigits rest1).1 : Int), (takeDigits rest1).2)
        else if s = 45 then
          if (takeDigits rest1).1 = [] then none
          else some (some (-(digitsValue 0 (takeDigits rest1).1 : Int)), (takeDigits rest1).2)
        else
          if (takeDigits rest).1 = [] then none
          else some (some (digitsValue 0 (takeDigits rest).1 : Int), (takeDigits rest).2)
    else some (none, b :: rest)

/-- The fraction part of a number literal, when there is one: its digits and
the input after it; `none` when the point is not followed by a digit. -/
def scanFraction : List UInt8 → Option (Option (List UInt8) × List UInt8)
  | [] => some (none, [])
  | b :: rest =>
    if b = 46 then
      if (takeDigits rest).1 = [] then none
      else some (some (takeDigits rest).1, (takeDigits rest).2)
    else some (none, b :: rest)

/-- A number literal without its sign: an integer part without a leading
zero, an optional fraction, an optional exponent. -/
def scanUnsigned (negative : Bool) (bytes : List UInt8) : Option (Json × List UInt8) :=
  let whole := (takeDigits bytes).1
  if whole = [] then none
  else if whole.length > 1 ∧ whole.head? = some 48 then none
  else
    match scanFraction (takeDigits bytes).2 with
    | none => none
    | some (fraction, rest1) =>
      match scanExponent rest1 with
      | none => none
      | some (exponent, rest2) =>
        let fractionDigits := fraction.getD []
        some (.number negative (digitsValue (digitsValue 0 whole) fractionDigits)
          (exponent.getD 0 - (fractionDigits.length : Int))
          (fraction.isNone && exponent.isNone), rest2)

/-- A number literal. -/
def scanNumber : List UInt8 → Option (Json × List UInt8)
  | [] => none
  | b :: rest => if b = 45 then scanUnsigned true rest else scanUnsigned false (b :: rest)

/-- The value of a hexadecimal digit. -/
def hexValue (b : UInt8) : Option Nat :=
  if 48 ≤ b.toNat ∧ b.toNat ≤ 57 then some (b.toNat - 48)
  else if 97 ≤ b.toNat ∧ b.toNat ≤ 102 then some (b.toNat - 87)
  else if 65 ≤ b.toNat ∧ b.toNat ≤ 70 then some (b.toNat - 55)
  else none

/-- The value of four hexadecimal digits. -/
def hexValue4 (a b c d : UInt8) : Option Nat :=
  match hexValue a, hexValue b, hexValue c, hexValue d with
  | some x, some y, some z, some w => some (x * 4096 + y * 256 + z * 16 + w)
  | _, _, _, _ => none

/-- The Unicode replacement character U+FFFD. -/
def replacementChar : Char := Char.ofNat 65533

/-- A continuation byte of UTF-8. -/
def isContinuation (b : UInt8) : Bool :=
  128 ≤ b.toNat && b.toNat < 192

/-- Go `utf8.DecodeRune` on an input whose first byte `b0` is not ASCII: the
character and the input after it; an invalid or truncated encoding gives
U+FFFD and consumes one byte. -/
def decodeRune (b0 : UInt8) (rest : List UInt8) : Char × List UInt8 :=
  if 194 ≤ b0.toNat ∧ b0.toNat < 224 then
    match rest with
    | b1 :: rest1 =>
      if isContinuation b1 then
        (Char.ofNat ((b0.toNat - 192) * 64 + (b1.toNat - 128)), rest1)
      else (replacementChar, rest)
    | _ => (replacementChar, rest)
  else if 224 ≤ b0.toNat ∧ b0.toNat < 240 then
    match rest with
    | b1 :: b2 :: rest2 =>
      let code := (b0.toNat - 224) * 4096 + (b1.toNat - 128) * 64 + (b2.toNat - 128)
      if isContinuation b1 ∧ isContinuation b2 ∧ 2048 ≤ code ∧ ¬ (55296 ≤ code ∧ code < 57344) then
        (Char.ofNat code, rest2)
      else (replacementChar, rest)
    | _ => (replacementChar, rest)
  else if 240 ≤ b0.toNat ∧ b0.toNat < 245 then
    match rest with
    | b1 :: b2 :: b3 :: rest3 =>
      let code := (b0.toNat - 240) * 262144 + (b1.toNat - 128) * 4096 + (b2.toNat - 128) * 64 +
        (b3.toNat - 128)
      if isContinuation b1 ∧ isContinuation b2 ∧ isContinuation b3 ∧ 65536 ≤ code ∧
          code < 1114112 then
        (Char.ofNat code, rest3)
      else (replacementChar, rest)
    | _ => (replacementChar, rest)
  else (replacementChar, rest)

/-- A character in front of the characters read after it. -/
def consChar (c : Char) (tail : Option (List Char × List UInt8)) :
    Option (List Char × List UInt8) :=
  match tail with
  | none => none
  | some (cs, rest) => some (c :: cs, rest)

/-- The character of a `\u` escape with the value `code`, and the input after
it: a high surrogate followed by the escape of a low surrogate is the
character of the pair, any other surrogate is U+FFFD. -/
def unescapeUnicode (code : Nat) (rest : List UInt8) : Char × List UInt8 :=
  if 55296 ≤ code ∧ code < 56320 then
    match rest with
    | s :: u :: a :: b :: c :: d :: rest1 =>
      if s = 92 ∧ u = 117 then
        match hexValue4 a b c d with
        | some low =>
          if 56320 ≤ low ∧ low < 57344 then
            (Char.ofNat (65536 + (code - 55296) * 1024 + (low - 56320)), rest1)
          else (replacementChar, rest)
        | none => (replacementChar, rest)
      else (replacementChar, rest)
    | _ => (replacementChar, rest)
  else if 56320 ≤ code ∧ code < 57344 then (replacementChar, rest)
  else (Char.ofNat code, rest)

/-- The characters of a string literal after its opening quote, up to the
closing quote, and the input after it. A control character, an unknown escape
and a missing closing quote are syntax errors. -/
def scanChars : Nat → List UInt8 → Option (List Char × List UInt8)
  | 0, _ => none
  | _ + 1, [] => none
  | fuel + 1, b :: rest =>
    if b = 34 then some ([], rest)
    else if b.toNat < 32 then none
    else if b = 92 then
      match rest with
      | [] => none
      | e :: rest1 =>
        if e = 34 ∨ e = 92 ∨ e = 47 then consChar (Char.ofNat e.toNat) (scanChars fuel rest1)
        else if e = 98 then consChar (Char.ofNat 8) (scanChars fuel rest1)
        else if e = 102 then consChar (Char.ofNat 12) (scanChars fuel rest1)
        else if e = 110 then consChar (Char.ofNat 10) (scanChars fuel rest1)
        else if e = 114 then consChar (Char.ofNat 13) (scanChars fuel rest1)
        else if e = 116 then consChar (Char.ofNat 9) (scanChars fuel rest1)
        else if e = 117 then
          match rest1 with
          | a :: b1 :: c :: d :: rest2 =>
            match hexValue4 a b1 c d with
            | none => none
            | some code =>
              consChar (unescapeUnicode code rest2).1
                (scanChars fuel (unescapeUnicode code rest2).2)
          | _ => none
        else none
    else if b.toNat < 128 then consChar (Char.ofNat b.toNat) (scanChars fuel rest)
    else consChar (decodeRune b rest).1 (scanChars fuel (decodeRune b rest).2)

/-- A string literal after its opening quote. -/
def scanString (bytes : List UInt8) : Option (String × List UInt8) :=
  match scanChars (bytes.length + 1) bytes with
  | none => none
  | some (cs, rest) => some (String.mk cs, rest)

/-- The input after the bytes `word`, when it starts with them. -/
def scanWord (word : List UInt8) (bytes : List UInt8) : Option (List UInt8) :=
  if bytes.take word.length = word then some (bytes.drop word.length) else none

mutual

/-- One JSON value, after white space, and the input after it; `fuel` bounds
the number of values, elements and members read. -/
def scanValue : Nat → List UInt8 → Option (Json × List UInt8)
  | 0, _ => none
  | fuel + 1, bytes =>
    match skipSpace bytes with
    | [] => none
    | b :: rest =>
      if b = 34 then
        match scanString rest with
        | none => none
        | some (s, rest1) => some (.string s, rest1)
      else if b = 123 then
        match skipSpace rest with
        | [] => none
        | c :: rest1 =>
          if c = 125 then some (.object [], rest1)
          else
            match scanMembers fuel (c :: rest1) with
            | none => none
            | some (members, rest2) => some (.object members, rest2)
      else if b = 91 then
        match skipSpace rest with
        | [] => none
        | c :: rest1 =>
          if c = 93 then some (.array [], rest1)
          else
            match scanElems fuel (c :: rest1) with
            | none => none
            | some (elems, rest2) => some (.array elems, rest2)
      else if b = 116 then
        match scanWord [114, 117, 101] rest with
        | none => none
        | some rest1 => some (.bool true, rest1)
      else if b = 102 then
        match scanWord [97, 108, 115, 101] rest with
        | none => none
        | some rest1 => some (.bool false, rest1)
      else if b = 110 then
        match scanWord [117, 108, 108] rest with
        | none => none
        | some rest1 => some (.null, rest1)
      else scanNumber (b :: rest)

/-- The elements of an array after its opening bracket, up to the closing
bracket. -/
def scanElems : Nat → List UInt8 → Option (List Json × List UInt8)
  | 0, _ => none
  | fuel + 1, bytes =>
    match scanValue fuel bytes with
    | none => none
    | some (elem, rest) =>
      match skipSpace rest with
      | [] => none
      | c :: rest1 =>
        if c = 44 then
          match scanElems fuel rest1 with
          | none => none
          | some (elems, rest2) => some (elem :: elems, rest2)
        else if c = 93 then some ([elem], rest1)
        else none

/-- The members of an object after its opening brace, up to the closing
brace. -/
def scanMembers : Nat → List UInt8 → Option (List (String × Json) × List UInt8)
  | 0, _ => none
  | fuel + 1, bytes =>
    match skipSpace bytes with
    | [] => none
    | q :: rest =>
      if q = 34 then
        match scanString rest with
        | none => none
        | some (key, rest1) =>
          match skipSpace rest1 with
          | [] => none
          | c :: rest2 =>
            if c = 58 then
              match scanValue fuel rest2 with
              | none => none
              | some (value, rest3) =>
                match skipSpace rest3 with
                | [] => none
                | d :: rest4 =>
                  if d = 44 then
                    match scanMembers fuel rest4 with
                    | none => none
                    | some (members, rest5) => some ((key, value) :: members, rest5)
                  else if d = 125 then some ([(key, value)], rest4)
                  else none
            else none
      else none

end

/-- Go `checkValid` and the scan of one document: a JSON value between white
space, or a syntax error. -/
def parseJson (bytes : List UInt8) : Except GoError Json :=
  match scanValue (bytes.length + 1) bytes with
  | none => .error (.json "invalid character or unexpected end of JSON input")
  | some (value, rest) =>
    if skipSpace rest = [] then .ok value
    else .error (.json "invalid character after top-level value")

/-! ## `float64` -/

/-- The number of binary digits of a natural number (0 for 0); `fuel` bounds
the count. -/
def bitLengthLoop : Nat → Nat → Nat
  | 0, _ => 0
  | fuel + 1, a => if a = 0 then 0 else bitLengthLoop fuel (a / 2) + 1

/-- The number of binary digits of a natural number. -/
def bitLength (a : Nat) : Nat :=
  bitLengthLoop a a

/-- The quotient and the divisor of `num / den / 2 ^ e` with the power of two
moved to the side that keeps both natural numbers. -/
def scaleBinary (num den : Nat) (e : Int) : Nat × Nat :=
  if 0 ≤ e then (num, den * 2 ^ e.toNat) else (num * 2 ^ (-e).toNat, den)

/-- Go `strconv.ParseFloat(s, 64)` for the positive rational `num / den`: the
bit pattern of the nearest `float64`, ties to the even mantissa, subnormal
below 2^-1022; `none` when the value rounds to infinity. -/
def float64OfRatio (num den : Nat) : Option Nat :=
  if num = 0 then some 0
  else
    let low : Int := (bitLength num : Int) - (bitLength den : Int) - 53
    let e1 : Int :=
      if 2 ^ 53 * (scaleBinary num den low).2 ≤ (scaleBinary num den low).1 then low + 1 else low
    let e : Int := max e1 (-1074)
    let n := (scaleBinary num den e).1
    let d := (scaleBinary num den e).2
    let m := n / d
    let r := n % d
    let rounded := if 2 * r > d ∨ (2 * r = d ∧ m % 2 = 1) then m + 1 else m
    let bits := (e + 1074).toNat * 2 ^ 52 + rounded
    if bits < 2047 * 2 ^ 52 then some bits else none

/-- The rational `digits * 10 ^ exp10` as a numerator and a denominator. -/
def decimalRatio (digits : Nat) (exp10 : Int) : Nat × Nat :=
  if 0 ≤ exp10 then (digits * 10 ^ exp10.toNat, 1) else (digits, 10 ^ (-exp10).toNat)

/-- Go `strconv.ParseFloat` on a number literal: the bit pattern of its
`float64`, with the sign bit; `none` when the value is out of range. A literal
of more than 400 digits or with an exponent beyond 400 is decided without the
division. -/
def float64OfDecimal (negative : Bool) (digits : Nat) (exp10 : Int) : Option Nat :=
  let sign := if negative then 2 ^ 63 else 0
  if digits = 0 then some sign
  else if exp10 > 400 then none
  else if exp10 < -800 then some sign
  else
    match float64OfRatio (decimalRatio digits exp10).1 (decimalRatio digits exp10).2 with
    | none => none
    | some bits => some (sign + bits)

/-- The finite, non-zero value of a bit pattern without its sign bit, as a
mantissa and a binary exponent: `mantissa * 2 ^ exponent`. -/
def float64Parts (bits : Nat) : Nat × Int :=
  if bits / 2 ^ 52 = 0 then (bits % 2 ^ 52, -1074)
  else (2 ^ 52 + bits % 2 ^ 52, (bits / 2 ^ 52 : Nat) - 1075)

/-- The value of a bit pattern without its sign bit, as a numerator and a
denominator. -/
def float64Ratio (bits : Nat) : Nat × Nat :=
  if 0 ≤ (float64Parts bits).2 then ((float64Parts bits).1 * 2 ^ (float64Parts bits).2.toNat, 1)
  else ((float64Parts bits).1, 2 ^ (-(float64Parts bits).2).toNat)

/-- The floor of `num / den / 10 ^ x`. -/
def scaleDecimal (num den : Nat) (x : Int) : Nat :=
  if 0 ≤ x then num / (den * 10 ^ x.toNat) else num * 10 ^ (-x).toNat / den

/-- The least `j` from `j0` on with `den <= num * 10 ^ j`; `fuel` bounds the
search. -/
def leadingZeros (num den : Nat) : Nat → Nat → Nat
  | 0, j => j
  | fuel + 1, j => if den ≤ num * 10 ^ j then j else leadingZeros num den fuel (j + 1)

/-- The decimal exponent of the first significant digit of the positive
rational `num / den`. -/
def decimalExponent (num den : Nat) : Int :=
  if den ≤ num then ((decimal (num / den)).length : Int) - 1
  else -(leadingZeros num den 400 1 : Int)

/-- Whether the rational `num / den` is at least as near to `lo * 10 ^ x` as to
`(lo + 1) * 10 ^ x`. -/
def nearerLow (num den lo : Nat) (x : Int) : Bool :=
  if 0 ≤ x then decide (2 * num ≤ (2 * lo + 1) * 10 ^ x.toNat * den)
  else decide (2 * num * 10 ^ (-x).toNat ≤ (2 * lo + 1) * den)

/-- The shortest decimal that reads back as the `float64` with the bit pattern
`bits` and the value `num / den`: with `nd` digits or more, the digits as a
number and the power of ten that scales them. Of two candidates of the same
length the nearer one is taken. -/
def shortestDecimal (num den bits : Nat) (p : Int) : Nat → Nat → Nat × Int
  | 0, nd => (scaleDecimal num den (p - (nd : Int) + 1), p - (nd : Int) + 1)
  | fuel + 1, nd =>
    let x := p - (nd : Int) + 1
    let lo := scaleDecimal num den x
    if float64OfDecimal false lo x = some bits ∧
        (float64OfDecimal false (lo + 1) x ≠ some bits ∨ nearerLow num den lo x = true) then
      (lo, x)
    else if float64OfDecimal false (lo + 1) x = some bits then (lo + 1, x)
    else shortestDecimal num den bits p fuel (nd + 1)

/-- The digits without their trailing zeros, each zero moved into the power
of ten. -/
def stripZeros : Nat → Nat → Int → Nat × Int
  | 0, d, x => (d, x)
  | fuel + 1, d, x => if d ≠ 0 ∧ d % 10 = 0 then stripZeros fuel (d / 10) (x + 1) else (d, x)

/-- The text of `d * 10 ^ x` in the format `'f'`: no exponent, and a decimal
point only in front of a fraction. -/
def formatPlain (d : Nat) (x : Int) : List UInt8 :=
  if 0 ≤ x then decimal (d * 10 ^ x.toNat)
  else
    let s := stripZeros 20 d x
    let ds := decimal s.1
    let k := (-s.2).toNat
    if 0 ≤ s.2 then decimal (s.1 * 10 ^ s.2.toNat)
    else if k < ds.length then ds.take (ds.length - k) ++ [46] ++ ds.drop (ds.length - k)
    else [48, 46] ++ List.replicate (k - ds.length) 48 ++ ds

/-- The text of `d * 10 ^ x` in the format `'e'` as `encoding/json` writes it:
one digit, the other digits after a point, and the exponent with its sign
(a negative exponent below ten loses the leading zero `strconv` writes). -/
def formatExponent (d : Nat) (x : Int) : List UInt8 :=
  let s := stripZeros 20 d x
  let ds := decimal s.1
  let e : Int := s.2 + (ds.length : Int) - 1
  ds.take 1 ++ (if ds.length > 1 then [46] ++ ds.drop 1 else []) ++
    [101, if e < 0 then 45 else 43] ++ decimal e.natAbs

/-- The encoder of a `float64` in `encoding/json`
(`strconv.AppendFloat(b, f, fmt, -1, 64)` with the format `'e'` below the
`float64` of 1e-6, whose bit pattern is 0x3EB0C6F7A0B5ED8D, and from 1e21 on,
whose bit pattern is 0x444B1AE4D6E2EF50, and `'f'` otherwise); NaN and the
infinities are not encoded. -/
def renderFloat64 (bits : Nat) : Except GoError (List UInt8) :=
  let sign : List UInt8 := if bits / 2 ^ 63 % 2 = 1 then [45] else []
  let magnitude := bits % 2 ^ 63
  if magnitude / 2 ^ 52 = 2047 then .error (.json "json: unsupported value")
  else if magnitude = 0 then .ok (sign ++ [48])
  else
    let num := (float64Ratio magnitude).1
    let den := (float64Ratio magnitude).2
    let p := decimalExponent num den
    let s := shortestDecimal num den magnitude p 17 1
    if magnitude < 0x3EB0C6F7A0B5ED8D ∨ 0x444B1AE4D6E2EF50 ≤ magnitude then
      .ok (sign ++ formatExponent s.1 s.2)
    else .ok (sign ++ formatPlain s.1 s.2)

/-! ## Decoding into `interface{}`, and encoding a `map[string]interface{}` -/

/-- Go `m[key] = value` on a `map[string]interface{}`: the entry of the key is
replaced, or a new one added. -/
def FieldBag.put : FieldBag → String → GoValue → FieldBag
  | [], key, value => [(key, value)]
  | (k, v) :: rest, key, value =>
    if k = key then (k, value) :: rest else (k, v) :: FieldBag.put rest key value

mutual

/-- What the decoder stores in an `interface{}` for a JSON value: a number
becomes a `float64`, and one out of its range is an error. -/
def Json.toGoValue : Json → Except GoError GoValue
  | .null => .ok .null
  | .bool b => .ok (.bool b)
  | .number negative digits exp10 _ =>
    match float64OfDecimal negative digits exp10 with
    | some bits => .ok (.float64 bits)
    | none => .error (.json "cannot unmarshal number into Go value of type float64")
  | .string s => .ok (.string s)
  | .array elems =>
    match Json.toGoValues elems with
    | .error err => .error err
    | .ok values => .ok (.slice values)
  | .object members =>
    match Json.toGoMembers members [] with
    | .error err => .error err
    | .ok bag => .ok (.map bag)

/-- The elements of an array as `[]interface{}`. -/
def Json.toGoValues : List Json → Except GoError (List GoValue)
  | [] => .ok []
  | elem :: rest =>
    match Json.toGoValue elem with
    | .error err => .error err
    | .ok value =>
      match Json.toGoValues rest with
      | .error err => .error err
      | .ok values => .ok (value :: values)

/-- The members of an object stored one after the other into the map `bag`; a
key that comes again replaces the value stored before. -/
def Json.toGoMembers : List (String × Json) → FieldBag → Except GoError FieldBag
  | [], bag => .ok bag
  | (key, elem) :: rest, bag =>
    match Json.toGoValue elem with
    | .error err => .error err
    | .ok value => Json.toGoMembers rest (bag.put key value)

end

/-- Go `json.Unmarshal(data, &msg)` with `msg map[string]interface{}`: the
document is an object, or `null`, which leaves the map `nil`. -/
def jsonUnmarshalMap (data : List UInt8) : Except GoError FieldBag :=
  match parseJson data with
  | .error err => .error err
  | .ok .null => .ok []
  | .ok (.object members) => Json.toGoMembers members []
  | .ok _ =>
    .error (.json "cannot unmarshal into Go value of type map[string]interface {}")

/-- The order of Go strings, on their characters: the first difference
decides, and a proper initial part comes first. -/
def lessChars : List Char → List Char → Bool
  | _, [] => false
  | [], _ :: _ => true
  | a :: s, b :: t =>
    if a.toNat < b.toNat then true else if b.toNat < a.toNat then false else lessChars s t

/-- The members of `fields` with `field` put in front of the first member
whose key is greater. -/
def insertField {α : Type} (field : String × α) : List (String × α) → List (String × α)
  | [] => [field]
  | first :: rest =>
    if lessChars field.1.data first.1.data then field :: first :: rest
    else first :: insertField field rest

/-- The members sorted by key, as the encoder writes a map. -/
def sortFields {α : Type} : List (String × α) → List (String × α)
  | [] => []
  | field :: rest => insertField field (sortFields rest)

mutual

/-- The encoder of `encoding/json` on a value held in an `interface{}`. -/
def GoValue.render : GoValue → Except GoError (List UInt8)
  | .null => .ok jsonNull
  | .bool b => .ok (if b then [116, 114, 117, 101] else [102, 97, 108, 115, 101])
  | .float64 bits => renderFloat64 bits
  | .string s => .ok (jsonString s)
  | .slice elems =>
    match GoValue.renderAll elems with
    | .error err => .error err
    | .ok texts => .ok ([91] ++ List.intercalate [44] texts ++ [93])
  | .map members =>
    match GoValue.renderFields members with
    | .error err => .error err
    | .ok fields => .ok (jsonObject (sortFields fields))

/-- The texts of the elements of a slice. -/
def GoValue.renderAll : List GoValue → Except GoError (List (List UInt8))
  | [] => .ok []
  | value :: rest =>
    match GoValue.render value with
    | .error err => .error err
    | .ok text =>
      match GoValue.renderAll rest with
      | .error err => .error err
      | .ok texts => .ok (text :: texts)

/-- The members of a map with the texts of their values. -/
def GoValue.renderFields : List (String × GoValue) → Except GoError (List (String × List UInt8))
  | [] => .ok []
  | (key, value) :: rest =>
    match GoValue.render value with
    | .error err => .error err
    | .ok text =>
      match GoValue.renderFields rest with
      | .error err => .error err
      | .ok fields => .ok ((key, text) :: fields)

end

/-- Go `json.Marshal(data)` with `data map[string]interface{}`: an object with
its keys in sorted order. -/
def jsonMarshalMap (data : FieldBag) : Except GoError (List UInt8) :=
  match GoValue.renderFields data with
  | .error err => .error err
  | .ok fields => .ok (jsonObject (sortFields fields))

/-! ## Decoding into the message structs -/

/-- The value of a character of the standard base64 alphabet. -/
def base64Value (b : UInt8) : Option Nat :=
  if 65 ≤ b.toNat ∧ b.toNat ≤ 90 then some (b.toNat - 65)
  else if 97 ≤ b.toNat ∧ b.toNat ≤ 122 then some (b.toNat - 71)
  else if 48 ≤ b.toNat ∧ b.toNat ≤ 57 then some (b.toNat + 4)
  else if b.toNat = 43 then some 62
  else if b.toNat = 47 then some 63
  else none

/-- Go `base64.StdEncoding.DecodeString`: groups of four characters, the last
one padded with `=`; the bits a padded group has too many are not checked. -/
def base64Decode : List UInt8 → Option (List UInt8)
  | [] => some []
  | a :: b :: c :: d :: rest =>
    match base64Value a, base64Value b with
    | some x, some y =>
      if rest = [] ∧ c = 61 ∧ d = 61 then some [UInt8.ofNat ((x * 64 + y) / 16)]
      else
        match base64Value c with
        | none => none
        | some z =>
          if rest = [] ∧ d = 61 then
            some [UInt8.ofNat ((x * 4096 + y * 64 + z) / 1024),
              UInt8.ofNat ((x * 4096 + y * 64 + z) / 4 % 256)]
          else
            match base64Value d, base64Decode rest with
            | some w, some tail =>
              some (UInt8.ofNat ((x * 262144 + y * 4096 + z * 64 + w) / 65536) ::
                UInt8.ofNat ((x * 262144 + y * 4096 + z * 64 + w) / 256 % 256) ::
                UInt8.ofNat ((x * 262144 + y * 4096 + z * 64 + w) % 256) :: tail)
            | _, _ => none
    | _, _ => none
  | _ => none

/-- The bytes of a Go string. -/
def utf8Bytes (s : String) : List UInt8 :=
  s.data.flatMap String.utf8EncodeChar

/-- The key of an object with its ASCII capitals in lower case: the decoder
takes a key for a field when they are equal up to case. -/
def foldKey (key : String) : String :=
  String.mk (key.data.map
    (fun c => if 65 ≤ c.toNat ∧ c.toNat ≤ 90 then Char.ofNat (c.toNat + 32) else c))

/-- A JSON value decoded into a `string` field that holds `old`. -/
def decodeStringField (old : String) : Json → Except GoError String
  | .string s => .ok s
  | .null => .ok old
  | _ => .error (.json "cannot unmarshal into Go struct field of type string")

/-- A JSON value decoded into an `int` field that holds `old`
(`strconv.ParseInt(literal, 10, 64)`): an integer literal of the range of
`int64`. -/
def decodeIntField (old : Int) : Json → Except GoError Int
  | .number negative digits _ plain =>
    if plain ∧ (if negative then digits ≤ 2 ^ 63 else digits < 2 ^ 63) then
      .ok (if negative then -(digits : Int) else (digits : Int))
    else .error (.json "cannot unmarshal number into Go struct field of type int")
  | .null => .ok old
  | _ => .error (.json "cannot unmarshal into Go struct field of type int")

/-- A JSON value decoded into an element of a `[]byte`. -/
def decodeByteElem : Json → Except GoError UInt8
  | .number negative digits _ plain =>
    if plain ∧ (negative = false ∨ digits = 0) ∧ digits < 256 then .ok (UInt8.ofNat digits)
    else .error (.json "cannot unmarshal number into Go struct field of type uint8")
  | .null => .ok 0
  | _ => .error (.json "cannot unmarshal into Go struct field of type uint8")

/-- A JSON value decoded into a `[]byte` field that holds `old`: a string is
read as base64, an array element by element, `null` gives the `nil` slice. -/
def decodeBytesField (_old : Slice UInt8) : Json → Except GoError (Slice UInt8)
  | .string s =>
    match base64Decode (utf8Bytes s) with
    | some data => .ok (some data)
    | none => .error (.json "illegal base64 data")
  | .array elems =>
    match elems.mapM decodeByteElem with
    | .error err => .error err
    | .ok data => .ok (some data)
  | .null => .ok none
  | _ => .error (.json "cannot unmarshal into Go struct field of type []uint8")

/-- A JSON value decoded into an `[]int` field that holds `old`. -/
def decodeIntsField (_old : Slice Int) : Json → Except GoError (Slice Int)
  | .array elems =>
    match elems.mapM (decodeIntField 0) with
    | .error err => .error err
    | .ok ids => .ok (some ids)
  | .null => .ok none
  | _ => .error (.json "cannot unmarshal into Go struct field of type []int")

/-- The decoder on a struct: `null` leaves the zero value, an object stores
its members one after the other with `store`, anything else is an error. -/
def decodeStruct {α : Type} (zero : α) (store : α → String → Json → Except GoError α) :
    Json → Except GoError α
  | .null => .ok zero
  | .object members => members.foldlM (fun msg member => store msg member.1 member.2) zero
  | _ => .error (.json "cannot unmarshal into Go value of a struct type")

/-- One member stored into a `RequestBlockMsg`. -/
def storeRequestBlock (msg : RequestBlockMsg) (key : String) (value : Json) :
    Except GoError RequestBlockMsg :=
  if foldKey key = "type" then
    (decodeStringField msg.MsgType value).map (fun s => { msg with MsgType := s })
  else if foldKey key = "block_id" then
    (decodeIntField msg.BlockID value).map (fun n => { msg with BlockID := n })
  else .ok msg

/-- One member stored into a `RequestInfoMsg`. -/
def storeRequestInfo (msg : RequestInfoMsg) (key : String) (value : Json) :
    Except GoError RequestInfoMsg :=
  if foldKey key = "type" then
    (decodeStringField msg.MsgType value).map (fun s => { msg with MsgType := s })
  else .ok msg

/-- One member stored into a `BlockDataMsg`. -/
def storeBlockData (msg : BlockDataMsg) (key : String) (value : Json) :
    Except GoError BlockDataMsg :=
  if foldKey key = "type" then
    (decodeStringField msg.MsgType value).map (fun s => { msg with MsgType := s })
  else if foldKey key = "block_id" then
    (decodeIntField msg.BlockID value).map (fun n => { msg with BlockID := n })
  else if foldKey key = "data" then
    (decodeBytesField msg.Data value).map (fun d => { msg with Data := d })
  else if foldKey key = "checksum" then
    (decodeStringField msg.Checksum value).map (fun s => { msg with Checksum := s })
  else .ok msg

/-- One member stored into a `PeerInfoMsg`. -/
def storePeerInfo (msg : PeerInfoMsg) (key : String) (value : Json) :
    Except GoError PeerInfoMsg :=
  if foldKey key = "type" then
    (decodeStringField msg.MsgType value).map (fun s => { msg with MsgType := s })
  else if foldKey key = "available_blocks" then
    (decodeIntsField msg.AvailableBlocks value).map (fun l => { msg with AvailableBlocks := l })
  else if foldKey key = "total_blocks" then
    (decodeIntField msg.TotalBlocks value).map (fun n => { msg with TotalBlocks := n })
  else .ok msg

/-- One member stored into an `ErrorMsg`. -/
def storeError (msg : ErrorMsg) (key : String) (value : Json) : Except GoError ErrorMsg :=
  if foldKey key = "type" then
    (decodeStringField msg.MsgType value).map (fun s => { msg with MsgType := s })
  else if foldKey key = "message" then
    (decodeStringField msg.Message value).map (fun s => { msg with Message := s })
  else .ok msg

/-- Go `json.Unmarshal(jsonData, &msg)` with `msg` a struct: the document is
scanned, then decoded with `decode`. -/
def jsonUnmarshal {α : Type} (decode : Json → Except GoError α) (jsonData : List UInt8) :
    Except GoError α :=
  match parseJson jsonData with
  | .error err => .error err
  | .ok value => decode value

/-- The library with `encoding/json` as modelled above; SHA-256 stays a
parameter. -/
def jsonLibrary (sha256Hex : List UInt8 → String) : Library where
  unmarshalMap := jsonUnmarshalMap
  marshalMap := jsonMarshalMap
  unmarshalRequestBlock :=
    jsonUnmarshal (decodeStruct { MsgType := "", BlockID := 0 } storeRequestBlock)
  unmarshalRequestInfo := jsonUnmarshal (decodeStruct { MsgType := "" } storeRequestInfo)
  unmarshalBlockData :=
    jsonUnmarshal
      (decodeStruct { MsgType := "", BlockID := 0, Data := none, Checksum := "" } storeBlockData)
  unmarshalPeerInfo :=
    jsonUnmarshal
      (decodeStruct { MsgType := "", AvailableBlocks := none, TotalBlocks := 0 } storePeerInfo)
  unmarshalError := jsonUnmarshal (decodeStruct { MsgType := "", Message := "" } storeError)
  sha256Hex := sha256Hex

/-! ## What the scanner reads from the encoder's output -/

/-- The input after a number literal: its first byte, when there is one, does
not continue the literal. -/
def NumberEnd (rest : List UInt8) : Prop :=
  ∀ b, rest.head? = some b → isDigit b = false ∧ b ≠ 46 ∧ b ≠ 101 ∧ b ≠ 69

/-- The scanner reads the value `value` from the text `text`, whatever follows
that does not continue a number. -/
def Reads (text : List UInt8) (value : Json) : Prop :=
  ∀ (fuel : Nat) (rest : List UInt8), text.length < fuel → NumberEnd rest →
    scanValue fuel (text ++ rest) = some (value, rest)

/-- One member as the encoder writes it, and what the scanner reads from
it. -/
def MemberReads (field : String × List UInt8) (member : String × Json) : Prop :=
  field.1 = member.1 ∧ Reads field.2 member.2

/-- The number literal of an `int`. -/
def Json.ofInt (v : Int) : Json :=
  .number (decide (v < 0)) v.natAbs 0 true

/-- A byte that is a character of a string literal as it stands: printable
ASCII other than the quote, the backslash and the three characters the encoder
escapes for HTML. -/
def PlainByte (b : UInt8) : Prop :=
  32 ≤ b.toNat ∧ b.toNat < 128 ∧ b.toNat ≠ 34 ∧ b.toNat ≠ 38 ∧ b.toNat ≠ 60 ∧ b.toNat ≠ 62 ∧
    b.toNat ≠ 92

/-- The base64 text of a `[]byte`, as a string. -/
def base64Text (data : List UInt8) : String :=
  String.mk ((base64Encode data).map (fun b => Char.ofNat b.toNat))

/-- The bit pattern of the `float64` the literal of an `int` is read as (0
when the literal is out of range). -/
def float64OfInt (v : Int) : Nat :=
  (float64OfDecimal (decide (v < 0)) v.natAbs 0).getD 0

/-- The `int` fields of a message: the block id, the total, and every id
listed. -/
def Message.ints : Message → List Int
  | .requestBlock m => [m.BlockID]
  | .requestInfo _ => []
  | .blockData m => [m.BlockID]
  | .peerInfo m => m.TotalBlocks :: m.AvailableBlocks.elems
  | .error _ => []

/-- Every `int` field of the message is a `float64` exactly: its absolute
value is at most 2^53. -/
def Message.IntsExact (msg : Message) : Prop :=
  ∀ v ∈ msg.ints, v.natAbs ≤ 2 ^ 53

instance (msg : Message) : Decidable msg.IntsExact := by
  unfold Message.IntsExact
  infer_instance

/-- What the scanner reads from the text of a `[]byte` field. -/
def Json.ofBytes : Slice UInt8 → Json
  | none => .null
  | some data => .string (base64Text data)

/-- What the scanner reads from the text of a `[]int` field. -/
def Json.ofInts : Slice Int → Json
  | none => .null
  | some ids => .array (ids.map Json.ofInt)

/-- What the scanner reads from the document of a message: the members of
`Message.fields` with their values scanned. -/
def Message.members : Message → List (String × Json)
  | .requestBlock m => [("type", .string m.MsgType), ("block_id", Json.ofInt m.BlockID)]
  | .requestInfo m => [("type", .string m.MsgType)]
  | .blockData m =>
    [("type", .string m.MsgType), ("block_id", Json.ofInt m.BlockID),
      ("data", Json.ofBytes m.Data), ("checksum", .string m.Checksum)]
  | .peerInfo m =>
    [("type", .string m.MsgType), ("available_blocks", Json.ofInts m.AvailableBlocks),
      ("total_blocks", Json.ofInt m.TotalBlocks)]
  | .error m => [("type", .string m.MsgType), ("message", .string m.Message)]

/-- An `int` field as the generic decoder holds it: a `float64`. -/
def GoValue.ofInt (v : Int) : GoValue :=
  .float64 (float64OfInt v)

/-- A `[]byte` field as the generic decoder holds it: the base64 string. -/
def GoValue.ofBytes : Slice UInt8 → GoValue
  | none => .null
  | some data => .string (base64Text data)

/-- A `[]int` field as the generic decoder holds it: a slice of `float64`. -/
def GoValue.ofInts : Slice Int → GoValue
  | none => .null
  | some ids => .slice (ids.map GoValue.ofInt)

/-- The `map[string]interface{}` the generic decoder builds from the document
of a message. -/
def Message.bag : Message → FieldBag
  | .requestBlock m => [("type", .string m.MsgType), ("block_id", GoValue.ofInt m.BlockID)]
  | .requestInfo m => [("type", .string m.MsgType)]
  | .blockData m =>
    [("type", .string m.MsgType), ("block_id", GoValue.ofInt m.BlockID),
      ("data", GoValue.ofBytes m.Data), ("checksum", .string m.Checksum)]
  | .peerInfo m =>
    [("type", .string m.MsgType), ("available_blocks", GoValue.ofInts m.AvailableBlocks),
      ("total_blocks", GoValue.ofInt m.TotalBlocks)]
  | .error m => [("type", .string m.MsgType), ("message", .string m.Message)]

/-! ## Lemmas on `BlockMap` -/

namespace BlockMap

theorem get_set_self (m : BlockMap) (k : Int) (v : Bool) : (m.set k v).get k = v := by
  induction m with
  | nil => simp [set, get]
  | cons e rest ih =>
    obtain ⟨k', v'⟩ := e
    by_cases h : k' = k
    · simp [set, get, h]
    · simp [set, get, h, ih]

theorem get_set_of_ne (m : BlockMap) (k j : Int) (v : Bool) (h : k ≠ j) :
    (m.set k v).get j = m.get j := by
  induction m with
  | nil => simp [set, get, h]
  | cons e rest ih =>
    obtain ⟨k', v'⟩ := e
    by_cases h1 : k' = k
    · subst h1
      simp [set, get, h]
    · by_cases h2 : k' = j
      · subst h2
        simp [set, get, h1]
      · simp [set, get, h1, h2, ih]

theorem get_set_true_mono (m : BlockMap) (k j : Int) (h : m.get j = true) :
    (m.set k true).get j = true := by
  by_cases hkj : k = j
  · subst hkj
    exact get_set_self m k true
  · rw [get_set_of_ne m k j true hkj]
    exact h

theorem set_set_self (m : BlockMap) (k : Int) (v : Bool) : (m.set k v).set k v = m.set k v := by
  induction m with
  | nil => simp [set]
  | cons e rest ih =>
    obtain ⟨k', v'⟩ := e
    by_cases h : k' = k
    · simp [set, h]
    · simp [set, h, ih]

theorem keys_set (m : BlockMap) (k : Int) (v : Bool) :
    (m.set k v).keys = if k ∈ m.keys then m.keys else m.keys ++ [k] := by
  induction m with
  | nil => simp [set, keys]
  | cons e rest ih =>
    obtain ⟨k', v'⟩ := e
    by_cases h : k' = k
    · subst h
      simp [set, keys]
    · have h' : ¬ k = k' := fun e => h e.symm
      simp only [keys] at ih
      by_cases hm : k ∈ List.map Prod.fst rest
      · simp [set, keys, h, h', hm, ih]
      · simp [set, keys, h, h', hm, ih]

theorem len_eq_keys_length (m : BlockMap) : m.len = m.keys.length := by
  simp [len, keys]

theorem mem_keys_set (m : BlockMap) (k j : Int) (v : Bool) :
    j ∈ (m.set k v).keys ↔ j ∈ m.keys ∨ j = k := by
  rw [keys_set]
  by_cases h : k ∈ m.keys
  · simp only [h, if_true]
    constructor
    · intro hj
      exact Or.inl hj
    · rintro (hj | hj)
      · exact hj
      · rw [hj]
        exact h
  · simp [h]

theorem nodup_keys_set (m : BlockMap) (k : Int) (v : Bool) (h : m.keys.Nodup) :
    (m.set k v).keys.Nodup := by
  rw [keys_set]
  by_cases hk : k ∈ m.keys
  · simpa [hk] using h
  · simp only [hk, if_false]
    rw [List.nodup_append]
    refine ⟨h, List.nodup_singleton k, ?_⟩
    intro a ha hb
    simp only [List.mem_singleton] at hb
    subst hb
    exact hk ha

theorem allTrue_set (m : BlockMap) (k : Int) (h : AllTrue m) : AllTrue (m.set k true) := by
  induction m with
  | nil =>
    intro e he
    simp [set] at he
    simp [he]
  | cons e rest ih =>
    obtain ⟨k', v'⟩ := e
    have hrest : AllTrue rest := fun e he => h e (List.mem_cons_of_mem _ he)
    by_cases hk : k' = k
    · intro e he
      simp only [set, hk, if_true, List.mem_cons] at he
      rcases he with he | he
      · simp [he]
      · exact hrest e he
    · intro e he
      simp only [set, hk, if_false, List.mem_cons] at he
      rcases he with he | he
      · rw [he]
        exact h (k', v') (List.mem_cons_self _ _)
      · exact ih hrest e he

theorem get_of_mem_keys (m : BlockMap) (k : Int) (h : AllTrue m) (hk : k ∈ m.keys) :
    m.get k = true := by
  induction m with
  | nil => simp [keys] at hk
  | cons e rest ih =>
    obtain ⟨k', v'⟩ := e
    have hrest : AllTrue rest := fun e he => h e (List.mem_cons_of_mem _ he)
    by_cases hkk : k' = k
    · have hv : v' = true := h (k', v') (List.mem_cons_self _ _)
      simp [get, hkk, hv]
    · have hk' : k ∈ keys rest := by
        simp only [keys, List.map_cons, List.mem_cons] at hk
        rcases hk with hk | hk
        · exact absurd hk.symm hkk
        · exact hk
      simp [get, hkk, ih hrest hk']

theorem mem_keys_of_get (m : BlockMap) (k : Int) (h : m.get k = true) : k ∈ m.keys := by
  induction m with
  | nil => simp [get] at h
  | cons e rest ih =>
    obtain ⟨k', v'⟩ := e
    by_cases hkk : k' = k
    · simp [keys, hkk]
    · simp only [get, hkk, if_false] at h
      have := ih h
      simp only [keys] at this
      simp [keys, this]

/-- A duplicate-free list of ids of `[0, total)` that has `total` elements
holds every id of `[0, total)`. -/
theorem mem_of_nodup_of_length (l : List Int) (total : Int) (hn : l.Nodup)
    (hr : ∀ k ∈ l, 0 ≤ k ∧ k < total) (hl : (l.length : Int) = total)
    (i : Int) (h0 : 0 ≤ i) (h1 : i < total) : i ∈ l := by
  have hsub : l.toFinset ⊆ Finset.Ico 0 total := by
    intro k hk
    rw [List.mem_toFinset] at hk
    rw [Finset.mem_Ico]
    exact hr k hk
  have hcard : (Finset.Ico (0 : Int) total).card ≤ l.toFinset.card := by
    rw [List.toFinset_card_of_nodup hn, Int.card_Ico]
    omega
  have heq := Finset.eq_of_subset_of_card_le hsub hcard
  have hi : i ∈ Finset.Ico (0 : Int) total := Finset.mem_Ico.mpr ⟨h0, h1⟩
  rw [← heq, List.mem_toFinset] at hi
  exact hi

/-- A duplicate-free list of ids of `[0, total)` has at most `total` elements. -/
theorem length_le_of_nodup (l : List Int) (total : Int) (hn : l.Nodup)
    (hr : ∀ k ∈ l, 0 ≤ k ∧ k < total) : l.length ≤ total.toNat := by
  have hsub : l.toFinset ⊆ Finset.Ico 0 total := by
    intro k hk
    rw [List.mem_toFinset] at hk
    rw [Finset.mem_Ico]
    exact hr k hk
  have := Finset.card_le_card hsub
  rw [List.toFinset_card_of_nodup hn, Int.card_Ico] at this
  simpa using this

end BlockMap

/-! ## Lemmas on `BlockManager` -/

namespace BlockManager

theorem eq_of_fields (a b : BlockManager) (h1 : a.totalBlocks = b.totalBlocks)
    (h2 : a.availableBlocks = b.availableBlocks) (h3 : a.downloadComplete = b.downloadComplete) :
    a = b := by
  cases a
  cases b
  simp_all

theorem totalBlocks_MarkBlockAvailable (bm : BlockManager) (id : Int) :
    (bm.MarkBlockAvailable id).totalBlocks = bm.totalBlocks := by
  simp only [MarkBlockAvailable]
  split <;> rfl

theorem availableBlocks_MarkBlockAvailable (bm : BlockManager) (id : Int) :
    (bm.MarkBlockAvailable id).availableBlocks = bm.availableBlocks.set id true := by
  simp only [MarkBlockAvailable]
  split <;> rfl

theorem downloadComplete_MarkBlockAvailable (bm : BlockManager) (id : Int) :
    (bm.MarkBlockAvailable id).downloadComplete =
      (decide (((bm.availableBlocks.set id true).len : Int) = bm.totalBlocks)
        || bm.downloadComplete) := by
  simp only [MarkBlockAvailable]
  split <;> simp [*]

theorem mem_blockRange (bm : BlockManager) (i : Int) :
    i ∈ bm.blockRange ↔ 0 ≤ i ∧ i < bm.totalBlocks := by
  unfold blockRange
  simp only [List.mem_map, List.mem_range]
  constructor
  · rintro ⟨n, hn, rfl⟩
    simp only [Int.ofNat_eq_coe]
    omega
  · rintro ⟨h0, h1⟩
    refine ⟨i.toNat, ?_, ?_⟩
    · omega
    · simp only [Int.ofNat_eq_coe]
      omega

theorem wellFormed_new (total : Int) : (NewBlockManager total).WellFormed :=
  ⟨by simp [NewBlockManager, BlockMap.keys], by simp [NewBlockManager, BlockMap.keys],
    by simp [NewBlockManager, BlockMap.AllTrue]⟩

theorem wellFormed_set (bm : BlockManager) (id : Int) (h : bm.WellFormed)
    (h0 : 0 ≤ id) (h1 : id < bm.totalBlocks) :
    ({ bm with availableBlocks := bm.availableBlocks.set id true } : BlockManager).WellFormed := by
  refine ⟨BlockMap.nodup_keys_set _ _ _ h.nodup, ?_, BlockMap.allTrue_set _ _ h.allTrue⟩
  intro k hk
  rcases (BlockMap.mem_keys_set _ _ _ _).mp hk with hk | hk
  · exact h.inRange k hk
  · subst hk
    exact ⟨h0, h1⟩

theorem wellFormed_MarkBlockAvailable (bm : BlockManager) (id : Int) (h : bm.WellFormed)
    (h0 : 0 ≤ id) (h1 : id < bm.totalBlocks) : (bm.MarkBlockAvailable id).WellFormed := by
  have hw := wellFormed_set bm id h h0 h1
  exact ⟨by rw [availableBlocks_MarkBlockAvailable]; exact hw.nodup,
    by rw [availableBlocks_MarkBlockAvailable, totalBlocks_MarkBlockAvailable]; exact hw.inRange,
    by rw [availableBlocks_MarkBlockAvailable]; exact hw.allTrue⟩

/-- In a well-formed tracker that holds `totalBlocks` ids, every id of
`[0, totalBlocks)` is available. -/
theorem available_of_full (bm : BlockManager) (h : bm.WellFormed)
    (hl : (bm.availableBlocks.len : Int) = bm.totalBlocks) (i : Int) (h0 : 0 ≤ i)
    (h1 : i < bm.totalBlocks) : bm.availableBlocks.get i = true := by
  apply BlockMap.get_of_mem_keys _ _ h.allTrue
  apply BlockMap.mem_of_nodup_of_length _ bm.totalBlocks h.nodup h.inRange _ i h0 h1
  rw [← BlockMap.len_eq_keys_length]
  exact hl

/-- Setting a list of ids keeps what was available and makes the ids available. -/
theorem get_foldl_set (l : List Int) (m : BlockMap) (j : Int)
    (h : j ∈ l ∨ m.get j = true) : (l.foldl (fun m i => m.set i true) m).get j = true := by
  induction l generalizing m with
  | nil =>
    rcases h with h | h
    · simp at h
    · simpa using h
  | cons a l ih =>
    simp only [List.foldl_cons]
    apply ih
    rcases h with h | h
    · rcases List.mem_cons.mp h with h | h
      · subst h
        exact Or.inr (BlockMap.get_set_self m j true)
      · exact Or.inl h
    · exact Or.inr (BlockMap.get_set_true_mono m a j h)

theorem wellFormed_foldl_set (l : List Int) (bm : BlockManager) (h : bm.WellFormed)
    (hl : ∀ i ∈ l, 0 ≤ i ∧ i < bm.totalBlocks) :
    ({ bm with availableBlocks := l.foldl (fun m i => m.set i true) bm.availableBlocks } :
      BlockManager).WellFormed := by
  induction l generalizing bm with
  | nil => simpa using h
  | cons a l ih =>
    simp only [List.foldl_cons]
    have ha := hl a (List.mem_cons_self _ _)
    have := ih { bm with availableBlocks := bm.availableBlocks.set a true }
      (wellFormed_set bm a h ha.1 ha.2) (fun i hi => hl i (List.mem_cons_of_mem _ hi))
    simpa using this

theorem wellFormed_MarkAllBlocksAvailable (bm : BlockManager) (h : bm.WellFormed) :
    bm.MarkAllBlocksAvailable.WellFormed := by
  have hw := wellFormed_foldl_set bm.blockRange bm h (fun i hi => (mem_blockRange bm i).mp hi)
  exact ⟨hw.nodup, hw.inRange, hw.allTrue⟩

/-- What the scan of `GetNextMissingBlock` finds among the ids `0 .. n-1`. -/
theorem find_range (p : Int → Bool) (n : Nat) :
    match ((List.range n).map Int.ofNat).find? p with
    | some i => 0 ≤ i ∧ i < n ∧ p i = true ∧ ∀ j : Int, 0 ≤ j → j < i → p j = false
    | none => ∀ j : Int, 0 ≤ j → j < n → p j = false := by
  induction n with
  | zero =>
    simp only [List.range_zero, List.map_nil, List.find?_nil]
    intro j h0 h1
    simp at h1
    omega
  | succ n ih =>
    rw [List.range_succ, List.map_append, List.find?_append]
    cases hf : ((List.range n).map Int.ofNat).find? p with
    | some i =>
      rw [hf] at ih
      simp only [Option.or]
      obtain ⟨h0, h1, h2, h3⟩ := ih
      exact ⟨h0, by push_cast; omega, h2, h3⟩
    | none =>
      rw [hf] at ih
      simp only [Option.or, List.map_cons, List.map_nil, List.find?_cons, List.find?_nil]
      cases hp : p (Int.ofNat n) with
      | true =>
        simp only
        refine ⟨by simp, by simp, hp, ?_⟩
        intro j h0 h1
        exact ih j h0 (by simpa using h1)
      | false =>
        simp only
        intro j h0 h1
        by_cases hj : j < n
        · exact ih j h0 hj
        · have : j = Int.ofNat n := by
            simp only [Int.ofNat_eq_coe]
            push_cast at h1
            omega
          rw [this]
          exact hp

/-- The result of `GetNextMissingBlock`, for every tracker: the least
unavailable id of `[0, totalBlocks)`, or `-1` when there is none. -/
theorem GetNextMissingBlock_spec (bm : BlockManager) :
    (bm.GetNextMissingBlock = -1 ∧
        ∀ i : Int, 0 ≤ i → i < bm.totalBlocks → bm.IsBlockAvailable i = true) ∨
      (0 ≤ bm.GetNextMissingBlock ∧ bm.GetNextMissingBlock < bm.totalBlocks ∧
        bm.IsBlockAvailable bm.GetNextMissingBlock = false ∧
        ∀ j : Int, 0 ≤ j → j < bm.GetNextMissingBlock → bm.IsBlockAvailable j = true) := by
  have h := find_range (fun i => !bm.availableBlocks.get i) bm.totalBlocks.toNat
  unfold GetNextMissingBlock blockRange IsBlockAvailable
  cases hf : ((List.range bm.totalBlocks.toNat).map Int.ofNat).find?
      (fun i => !bm.availableBlocks.get i) with
  | some i =>
    rw [hf] at h
    obtain ⟨h0, h1, h2, h3⟩ := h
    right
    dsimp only
    refine ⟨h0, by omega, by simpa using h2, ?_⟩
    intro j hj0 hj1
    simpa using h3 j hj0 hj1
  | none =>
    rw [hf] at h
    left
    refine ⟨rfl, ?_⟩
    intro i h0 h1
    simpa using h i h0 (by omega)

end BlockManager

namespace BlockManager

theorem totalBlocks_markAll (bm : BlockManager) (ids : List Int) :
    (bm.markAll ids).totalBlocks = bm.totalBlocks := by
  induction ids generalizing bm with
  | nil => rfl
  | cons a l ih =>
    simp only [markAll, List.foldl_cons] at ih ⊢
    rw [ih, totalBlocks_MarkBlockAvailable]

theorem totalBlocks_apply (bm : BlockManager) (op : TrackerOp) :
    (bm.apply op).totalBlocks = bm.totalBlocks := by
  cases op <;> simp [apply, totalBlocks_MarkBlockAvailable, MarkAllBlocksAvailable]

theorem totalBlocks_run (bm : BlockManager) (ops : List TrackerOp) :
    (bm.run ops).totalBlocks = bm.totalBlocks := by
  induction ops generalizing bm with
  | nil => rfl
  | cons a l ih =>
    simp only [run, List.foldl_cons] at ih ⊢
    rw [ih, totalBlocks_apply]

theorem wellFormed_apply (bm : BlockManager) (op : TrackerOp) (h : bm.WellFormed)
    (hop : op.inRange bm.totalBlocks) : (bm.apply op).WellFormed := by
  cases op with
  | markBlockAvailable id => exact wellFormed_MarkBlockAvailable bm id h hop.1 hop.2
  | markAllBlocksAvailable => exact wellFormed_MarkAllBlocksAvailable bm h
  | _ => exact h

theorem wellFormed_run (bm : BlockManager) (ops : List TrackerOp) (h : bm.WellFormed)
    (hops : ∀ op ∈ ops, op.inRange bm.totalBlocks) : (bm.run ops).WellFormed := by
  induction ops generalizing bm with
  | nil => exact h
  | cons a l ih =>
    simp only [run, List.foldl_cons] at ih ⊢
    apply ih _ (wellFormed_apply bm a h (hops a (List.mem_cons_self _ _)))
    intro op hop
    rw [totalBlocks_apply]
    exact hops op (List.mem_cons_of_mem _ hop)

theorem flagSound_apply (bm : BlockManager) (op : TrackerOp) (h : bm.WellFormed)
    (hf : bm.FlagSound) (hop : op.inRange bm.totalBlocks) : (bm.apply op).FlagSound := by
  cases op with
  | markBlockAvailable id =>
    have hw := wellFormed_MarkBlockAvailable bm id h hop.1 hop.2
    intro hc i h0 h1
    simp only [apply] at hc h1 ⊢
    rw [totalBlocks_MarkBlockAvailable] at h1
    rw [downloadComplete_MarkBlockAvailable, Bool.or_eq_true, decide_eq_true_eq] at hc
    rcases hc with hc | hc
    · apply available_of_full _ hw _ i h0
      · rw [totalBlocks_MarkBlockAvailable]
        exact h1
      · rw [availableBlocks_MarkBlockAvailable, totalBlocks_MarkBlockAvailable]
        exact hc
    · rw [availableBlocks_MarkBlockAvailable]
      exact BlockMap.get_set_true_mono _ _ _ (hf hc i h0 h1)
  | markAllBlocksAvailable =>
    intro _ i h0 h1
    simp only [apply, MarkAllBlocksAvailable] at h1 ⊢
    exact get_foldl_set _ _ _ (Or.inl ((mem_blockRange bm i).mpr ⟨h0, h1⟩))
  | _ => exact hf

theorem flagSound_run (bm : BlockManager) (ops : List TrackerOp) (h : bm.WellFormed)
    (hf : bm.FlagSound) (hops : ∀ op ∈ ops, op.inRange bm.totalBlocks) :
    (bm.run ops).FlagSound := by
  induction ops generalizing bm with
  | nil => exact hf
  | cons a l ih =>
    simp only [run, List.foldl_cons] at ih ⊢
    have ha := hops a (List.mem_cons_self _ _)
    apply ih _ (wellFormed_apply bm a h ha) (flagSound_apply bm a h hf ha)
    intro op hop
    rw [totalBlocks_apply]
    exact hops op (List.mem_cons_of_mem _ hop)

theorem flagExact_MarkBlockAvailable (bm : BlockManager) (id : Int) (h : bm.WellFormed)
    (hf : bm.FlagExact) (h0 : 0 ≤ id) (h1 : id < bm.totalBlocks) :
    (bm.MarkBlockAvailable id).FlagExact := by
  unfold FlagExact
  rw [downloadComplete_MarkBlockAvailable, availableBlocks_MarkBlockAvailable,
    totalBlocks_MarkBlockAvailable, Bool.or_eq_true, decide_eq_true_eq]
  constructor
  · rintro (hc | hc)
    · exact hc
    · have hfull := hf.mp hc
      have hmem : id ∈ bm.availableBlocks.keys := by
        apply BlockMap.mem_of_nodup_of_length _ bm.totalBlocks h.nodup h.inRange _ id h0 h1
        rw [← BlockMap.len_eq_keys_length]
        exact hfull
      rw [BlockMap.len_eq_keys_length, BlockMap.keys_set, if_pos hmem,
        ← BlockMap.len_eq_keys_length]
      exact hfull
  · intro hc
    exact Or.inl hc

theorem markAll_invariant (bm : BlockManager) (ids : List Int) (h : bm.WellFormed)
    (hf : bm.FlagExact) (hids : ∀ id ∈ ids, 0 ≤ id ∧ id < bm.totalBlocks) :
    (bm.markAll ids).FlagExact := by
  induction ids generalizing bm with
  | nil => exact hf
  | cons a l ih =>
    simp only [markAll, List.foldl_cons] at ih ⊢
    have ha := hids a (List.mem_cons_self _ _)
    apply ih _ (wellFormed_MarkBlockAvailable bm a h ha.1 ha.2)
      (flagExact_MarkBlockAvailable bm a h hf ha.1 ha.2)
    intro id hid
    rw [totalBlocks_MarkBlockAvailable]
    exact hids id (List.mem_cons_of_mem _ hid)

theorem IsBlockAvailable_apply_mono (bm : BlockManager) (op : TrackerOp) (id : Int)
    (h : bm.IsBlockAvailable id = true) : (bm.apply op).IsBlockAvailable id = true := by
  cases op with
  | markBlockAvailable k =>
    simp only [apply, IsBlockAvailable, availableBlocks_MarkBlockAvailable]
    exact BlockMap.get_set_true_mono _ _ _ h
  | markAllBlocksAvailable =>
    simp only [apply, IsBlockAvailable, MarkAllBlocksAvailable]
    exact get_foldl_set _ _ _ (Or.inr h)
  | _ => exact h

theorem IsBlockAvailable_run_mono (bm : BlockManager) (ops : List TrackerOp) (id : Int)
    (h : bm.IsBlockAvailable id = true) : (bm.run ops).IsBlockAvailable id = true := by
  induction ops generalizing bm with
  | nil => exact h
  | cons a l ih =>
    simp only [run, List.foldl_cons] at ih ⊢
    exact ih _ (IsBlockAvailable_apply_mono bm a id h)

end BlockManager

/-! ## The tracker's claims -/

/-- C1, as the code has it: for a tracker built with a total other than 0 and
every sequence of `MarkBlockAvailable` calls whose ids lie in `[0, total)`,
`IsDownloadComplete()` is true exactly when `GetAvailableBlocksCount()` equals
`GetTotalBlocks()`; every reachable state is the end of such a sequence, the
empty one included. -/
theorem C1_complete_iff_count_eq_total (total : Int) (ids : List Int) (htotal : total ≠ 0)
    (hids : ∀ id ∈ ids, 0 ≤ id ∧ id < total) :
    ((NewBlockManager total).markAll ids).IsDownloadComplete = true ↔
      ((NewBlockManager total).markAll ids).GetAvailableBlocksCount =
        ((NewBlockManager total).markAll ids).GetTotalBlocks := by
  have hinit : (NewBlockManager total).FlagExact := by
    unfold BlockManager.FlagExact
    simp only [NewBlockManager, BlockMap.len, List.length_nil]
    constructor
    · intro h
      cases h
    · intro h
      exact absurd h.symm htotal
  exact BlockManager.markAll_invariant (NewBlockManager total) ids
    (BlockManager.wellFormed_new total) hinit hids

/-- Witness of C1: a total of 2 and the marks 1, 0, 1. -/
theorem C1_complete_iff_count_eq_total_witness :
    ((NewBlockManager 2).markAll [1, 0, 1]).IsDownloadComplete = true ↔
      ((NewBlockManager 2).markAll [1, 0, 1]).GetAvailableBlocksCount =
        ((NewBlockManager 2).markAll [1, 0, 1]).GetTotalBlocks :=
  C1_complete_iff_count_eq_total 2 [1, 0, 1] (by decide) (by decide)

/-- C1 as stated fails: a fresh tracker of 0 blocks holds 0 of 0 blocks and is
not complete, and a tracker of 1 block that is marked 0 and then 5 is complete
while holding 2 ids. -/
theorem C1_counterexample :
    ¬ ((NewBlockManager 0).IsDownloadComplete = true ↔
        (NewBlockManager 0).GetAvailableBlocksCount = (NewBlockManager 0).GetTotalBlocks) ∧
    ¬ (((NewBlockManager 1).markAll [0, 5]).IsDownloadComplete = true ↔
        ((NewBlockManager 1).markAll [0, 5]).GetAvailableBlocksCount =
          ((NewBlockManager 1).markAll [0, 5]).GetTotalBlocks) := by
  decide

/-- C2, as the code has it: in every tracker state `GetNextMissingBlock()` is
the smallest id of `[0, total)` that is not available, and `-1` when there is
none; and in every state reached from `NewBlockManager(total)` by operations
whose `MarkBlockAvailable` ids lie in `[0, total)`, it is `-1` when
`IsDownloadComplete()` is true. -/
theorem C2_next_missing_block (bm : BlockManager) (total : Int) (ops : List TrackerOp)
    (hops : ∀ op ∈ ops, op.inRange total) :
    ((bm.GetNextMissingBlock = -1 ∧
        ∀ i : Int, 0 ≤ i → i < bm.GetTotalBlocks → bm.IsBlockAvailable i = true) ∨
      (0 ≤ bm.GetNextMissingBlock ∧ bm.GetNextMissingBlock < bm.GetTotalBlocks ∧
        bm.IsBlockAvailable bm.GetNextMissingBlock = false ∧
        ∀ j : Int, 0 ≤ j → j < bm.GetNextMissingBlock → bm.IsBlockAvailable j = true)) ∧
    (((NewBlockManager total).run ops).IsDownloadComplete = true →
      ((NewBlockManager total).run ops).GetNextMissingBlock = -1) := by
  refine ⟨BlockManager.GetNextMissingBlock_spec bm, ?_⟩
  intro hc
  have hsound := BlockManager.flagSound_run (NewBlockManager total) ops
    (BlockManager.wellFormed_new total) (by intro h; cases h) hops
  rcases BlockManager.GetNextMissingBlock_spec ((NewBlockManager total).run ops) with h | h
  · exact h.1
  · obtain ⟨h0, h1, h2, _⟩ := h
    have := hsound hc _ h0 h1
    simp only [BlockManager.IsBlockAvailable] at h2
    rw [h2] at this
    cases this

/-- Witness of C2: a tracker of 3 blocks holding 1, and the run mark 0, mark 1,
mark 2 from a fresh tracker of 3 blocks. -/
theorem C2_next_missing_block_witness :
    (((NewBlockManager 3).MarkBlockAvailable 1).GetNextMissingBlock = 0) ∧
    ((((NewBlockManager 3).run [.markBlockAvailable 0, .markBlockAvailable 1,
        .getNextMissingBlock, .markBlockAvailable 2]).IsDownloadComplete = true →
      ((NewBlockManager 3).run [.markBlockAvailable 0, .markBlockAvailable 1,
        .getNextMissingBlock, .markBlockAvailable 2]).GetNextMissingBlock = -1)) :=
  ⟨by decide,
    (C2_next_missing_block ((NewBlockManager 3).MarkBlockAvailable 1) 3
      [.markBlockAvailable 0, .markBlockAvailable 1, .getNextMissingBlock,
        .markBlockAvailable 2] (by decide)).2⟩

/-- C2 as stated fails: a tracker of 2 blocks marked with the ids 5 and 7 is
complete, and `GetNextMissingBlock()` returns 0, not -1. -/
theorem C2_counterexample :
    ((NewBlockManager 2).markAll [5, 7]).IsDownloadComplete = true ∧
    ((NewBlockManager 2).markAll [5, 7]).GetNextMissingBlock = 0 := by
  decide

/-- C3: after `MarkBlockAvailable(id)`, `IsBlockAvailable(id)` is true, and it
is still true after any further sequence of tracker operations; this holds from
every tracker state and for every id, those of `[0, total)` among them. -/
theorem C3_mark_is_monotonic (bm : BlockManager) (id : Int) (ops : List TrackerOp) :
    (bm.MarkBlockAvailable id).IsBlockAvailable id = true ∧
    ((bm.MarkBlockAvailable id).run ops).IsBlockAvailable id = true := by
  have h : (bm.MarkBlockAvailable id).IsBlockAvailable id = true := by
    simp only [BlockManager.IsBlockAvailable, BlockManager.availableBlocks_MarkBlockAvailable]
    exact BlockMap.get_set_self _ _ _
  exact ⟨h, BlockManager.IsBlockAvailable_run_mono _ ops id h⟩

theorem BlockManager.availableBlocks_mark_twice_new (total id : Int) :
    (((NewBlockManager total).MarkBlockAvailable id).MarkBlockAvailable id).availableBlocks =
      [(id, true)] := by
  rw [BlockManager.availableBlocks_MarkBlockAvailable,
    BlockManager.availableBlocks_MarkBlockAvailable, BlockMap.set_set_self]
  rfl

/-- C4: `MarkBlockAvailable` is idempotent, marking an id twice leaves the same
tracker (held set, count, completion flag) as marking it once; and two marks of
one id on a fresh tracker leave exactly that id available. -/
theorem C4_mark_is_idempotent (bm : BlockManager) (total id : Int) :
    (bm.MarkBlockAvailable id).MarkBlockAvailable id = bm.MarkBlockAvailable id ∧
    (((NewBlockManager total).MarkBlockAvailable id).MarkBlockAvailable id).GetAvailableBlocks
      = [id] ∧
    (((NewBlockManager total).MarkBlockAvailable id).MarkBlockAvailable id).GetAvailableBlocksCount
      = 1 := by
  have hab : (bm.MarkBlockAvailable id).availableBlocks.set id true =
      (bm.MarkBlockAvailable id).availableBlocks := by
    rw [BlockManager.availableBlocks_MarkBlockAvailable bm id, BlockMap.set_set_self]
  have h1 : (bm.MarkBlockAvailable id).MarkBlockAvailable id = bm.MarkBlockAvailable id := by
    apply BlockManager.eq_of_fields
    · rw [BlockManager.totalBlocks_MarkBlockAvailable]
    · rw [BlockManager.availableBlocks_MarkBlockAvailable (bm.MarkBlockAvailable id) id, hab]
    · rw [BlockManager.downloadComplete_MarkBlockAvailable (bm.MarkBlockAvailable id) id, hab,
        BlockManager.totalBlocks_MarkBlockAvailable bm id,
        BlockManager.availableBlocks_MarkBlockAvailable bm id,
        BlockManager.downloadComplete_MarkBlockAvailable bm id, ← Bool.or_assoc, Bool.or_self]
  have h2 := BlockManager.availableBlocks_mark_twice_new total id
  refine ⟨h1, ?_, ?_⟩
  · rw [BlockManager.GetAvailableBlocks, h2]
    rfl
  · rw [BlockManager.GetAvailableBlocksCount, h2]
    rfl

/-- C5, as the code has it: in every state reached from
`NewBlockManager(total)` by tracker operations whose `MarkBlockAvailable` ids
lie in `[0, total)`, every id returned by `GetAvailableBlocks()` lies in
`[0, total)`. -/
theorem C5_held_ids_in_range (total : Int) (ops : List TrackerOp)
    (hops : ∀ op ∈ ops, op.inRange total) :
    ∀ id ∈ ((NewBlockManager total).run ops).GetAvailableBlocks, 0 ≤ id ∧ id < total := by
  have hw := BlockManager.wellFormed_run (NewBlockManager total) ops
    (BlockManager.wellFormed_new total) hops
  intro id hid
  have := hw.inRange id hid
  rw [BlockManager.totalBlocks_run] at this
  exact this

/-- Witness of C5: a tracker of 3 blocks after mark 2, mark-all, mark 0 holds
the id 2, which lies in `[0, 3)`. -/
theorem C5_held_ids_in_range_witness :
    (2 : Int) ∈ ((NewBlockManager 3).run [.markBlockAvailable 2, .markAllBlocksAvailable,
      .markBlockAvailable 0]).GetAvailableBlocks ∧ ((0 : Int) ≤ 2 ∧ (2 : Int) < 3) :=
  ⟨by decide,
    C5_held_ids_in_range 3 [.markBlockAvailable 2, .markAllBlocksAvailable,
      .markBlockAvailable 0] (by decide) 2 (by decide)⟩

/-- C5 as stated fails: `MarkBlockAvailable(5)` on a tracker of 2 blocks puts
the id 5 in the held set. -/
theorem C5_counterexample :
    ((NewBlockManager 2).run [.markBlockAvailable 5]).GetAvailableBlocks = [5] ∧
    ¬ (∀ id ∈ ((NewBlockManager 2).run [.markBlockAvailable 5]).GetAvailableBlocks,
      0 ≤ id ∧ id < 2) := by
  decide

/-! ## Lemmas on framing -/

theorem uint32_putUint32 (n : Nat) (h : n < 2 ^ 32) :
    ∃ b0 b1 b2 b3, putUint32 n = [b0, b1, b2, b3] ∧ uint32 b0 b1 b2 b3 = n := by
  refine ⟨_, _, _, _, rfl, ?_⟩
  simp only [uint32, UInt8.ofNat, UInt8.toNat, BitVec.toNat_ofNat]
  omega

theorem binaryReadUint32_cons (conn : Conn) (b0 b1 b2 b3 : UInt8) (rest : List UInt8)
    (hin : conn.input = b0 :: b1 :: b2 :: b3 :: rest) :
    binaryReadUint32 conn = (.ok (uint32 b0 b1 b2 b3), { conn with input := rest }) := by
  simp [binaryReadUint32, Conn.readFull, hin]

/-- C7: on a stream whose first 4 bytes, read as a big-endian unsigned integer,
exceed 16 MiB, `ReceiveMessage` returns the size error and has consumed exactly
those 4 bytes; on a stream whose prefix is at most 16 MiB the result is never
the size error. -/
theorem C7_size_ceiling (lib : Library) (conn : Conn) (b0 b1 b2 b3 : UInt8)
    (rest : List UInt8) (hin : conn.input = b0 :: b1 :: b2 :: b3 :: rest) :
    (uint32 b0 b1 b2 b3 > 16 * 1024 * 1024 ∧
      ReceiveMessage lib conn = (.error errMessageTooLarge, { conn with input := rest })) ∨
    (uint32 b0 b1 b2 b3 ≤ 16 * 1024 * 1024 ∧
      (ReceiveMessage lib conn).1 ≠ .error errMessageTooLarge) := by
  by_cases hsize : uint32 b0 b1 b2 b3 > 16 * 1024 * 1024
  · left
    refine ⟨hsize, ?_⟩
    have hmax : uint32 b0 b1 b2 b3 > maxMessageSize := hsize
    simp only [ReceiveMessage, binaryReadUint32_cons conn b0 b1 b2 b3 rest hin, hmax, if_true]
  · right
    refine ⟨by omega, ?_⟩
    have hmax : ¬ uint32 b0 b1 b2 b3 > maxMessageSize := hsize
    simp only [ReceiveMessage, binaryReadUint32_cons conn b0 b1 b2 b3 rest hin, hmax, if_false]
    cases hr : (Conn.readFull { conn with input := rest } (uint32 b0 b1 b2 b3)) with
    | mk r c =>
      cases r with
      | error e => simp [errMessageTooLarge]
      | ok data =>
        simp only
        cases hu : lib.unmarshalMap data with
        | error e => simp [errMessageTooLarge]
        | ok msg => simp

/-- The payload of `NewRequestInfo()`: the 23 bytes of an object with the one
member `type`. -/
theorem payload_requestInfo :
    (Message.requestInfo NewRequestInfo).payload =
      [123, 34, 116, 121, 112, 101, 34, 58, 34, 82, 69, 81, 85, 69, 83, 84, 95, 73, 78, 70, 79,
        34, 125] := by
  decide

/-- The payload of `sampleBlockData`, member by member. -/
theorem payload_sampleBlockData :
    (Message.blockData sampleBlockData).payload =
      asciiBytes ("\x7b\"type\":\"BLOCK_DATA\",\"block_id\":0,\"data\":\"AQID\"," ++
        "\"checksum\":\"sha256:00\"\x7d") := by
  decide

/-- The payload of a `PeerInfoMsg` with the ids 2, -1, 10 and a total of 12. -/
theorem payload_peerInfo_sample :
    (Message.peerInfo (NewPeerInfo (some [2, -1, 10]) 12)).payload =
      asciiBytes ("\x7b\"type\":\"PEER_INFO\",\"available_blocks\":[2,-1,10]," ++
        "\"total_blocks\":12\x7d") := by
  decide

/-- The payload of a `PeerInfoMsg` with a `nil` id list. -/
theorem payload_peerInfo_nil :
    (Message.peerInfo (NewPeerInfo none 0)).payload =
      asciiBytes ("\x7b\"type\":\"PEER_INFO\",\"available_blocks\":null," ++
        "\"total_blocks\":0\x7d") := by
  decide

/-- A quote, a less-than sign and a line feed are escaped in a string. -/
theorem jsonString_sample :
    jsonString "a\"b<c\n" = asciiBytes "\"a\\\"b\\u003cc\\n\"" := by
  decide

/-- The base64 text of the bytes 1, 2, 3 is `AQID`. -/
theorem base64Encode_sample : base64Encode [1, 2, 3] = [65, 81, 73, 68] := by decide

/-- The number -120 is written `-120`. -/
theorem jsonInt_sample : jsonInt (-120) = [45, 49, 50, 48] := by decide

/-- Witness of C7: the prefix 1, 0, 0, 1 announces 16 MiB + 1 bytes. -/
theorem C7_size_ceiling_witness :
    ReceiveMessage sampleLibrary (Conn.delivering [1, 0, 0, 1, 123, 125]) =
      (.error errMessageTooLarge, Conn.delivering [123, 125]) :=
  ((C7_size_ceiling sampleLibrary (Conn.delivering [1, 0, 0, 1, 123, 125]) 1 0 0 1 [123, 125]
    rfl).resolve_right (fun h => absurd h.1 (by decide))).2

/-! ## Lemmas on `ParseMessage` -/

theorem stringField_of_lookup_string (data : FieldBag) (key s : String)
    (h : data.lookup key = some (.string s)) : data.stringField key = (s, true) := by
  simp [FieldBag.stringField, h]

theorem stringField_false_of_lookup (data : FieldBag) (key : String)
    (h : ∀ s, data.lookup key ≠ some (.string s)) : data.stringField key = ("", false) := by
  unfold FieldBag.stringField
  cases hl : data.lookup key with
  | none => rfl
  | some v =>
    cases v with
    | string s => exact absurd hl (h s)
    | _ => rfl

theorem lookup_of_stringField (data : FieldBag) (key s : String)
    (h : data.stringField key = (s, true)) : data.lookup key = some (.string s) := by
  unfold FieldBag.stringField at h
  cases hl : data.lookup key with
  | none => simp [hl] at h
  | some v =>
    cases v with
    | string t =>
      simp only [hl, Prod.mk.injEq, and_true] at h
      rw [h]
    | _ => simp [hl] at h

/-- Go `ParseMessage` fails when the `type` field is not a string. -/
theorem ParseMessage_no_type (lib : Library) (data : FieldBag)
    (h : ∀ s, data.lookup "type" ≠ some (.string s)) :
    ParseMessage lib data = .error (.errorf "campo 'type' não encontrado ou inválido") := by
  simp [ParseMessage, stringField_false_of_lookup data "type" h]

/-- Go `ParseMessage` on a bag whose `type` field is the string `s`: the encoder
of the bag fails, or the switch on `s` decides. -/
theorem ParseMessage_of_type (lib : Library) (data : FieldBag) (s : String)
    (h : data.lookup "type" = some (.string s)) :
    ParseMessage lib data =
      match lib.marshalMap data with
      | .error err => .error err
      | .ok jsonData =>
        if s = MsgTypeRequestBlock then
          (lib.unmarshalRequestBlock jsonData).map Message.requestBlock
        else if s = MsgTypeRequestInfo then
          (lib.unmarshalRequestInfo jsonData).map Message.requestInfo
        else if s = MsgTypeBlockData then
          (lib.unmarshalBlockData jsonData).map Message.blockData
        else if s = MsgTypePeerInfo then
          (lib.unmarshalPeerInfo jsonData).map Message.peerInfo
        else if s = MsgTypeError then
          (lib.unmarshalError jsonData).map Message.error
        else .error (.errorf "tipo de mensagem desconhecido: %s") := by
  simp only [ParseMessage, stringField_of_lookup_string data "type" s h]
  cases lib.marshalMap data with
  | error err => rfl
  | ok jsonData =>
    simp only
    split_ifs
    · cases lib.unmarshalRequestBlock jsonData <;> rfl
    · cases lib.unmarshalRequestInfo jsonData <;> rfl
    · cases lib.unmarshalBlockData jsonData <;> rfl
    · cases lib.unmarshalPeerInfo jsonData <;> rfl
    · cases lib.unmarshalError jsonData <;> rfl
    · rfl

/-- C8: `ParseMessage` returns an error, and no message, for a field bag whose
`type` field is missing, is not a string, or is a string other than the five
discriminants; and a message it returns has the shape that the `type` string
of the bag names. -/
theorem C8_parse_discriminant (lib : Library) (data : FieldBag) :
    ((data.lookup "type" = none ∨
        (∃ v, data.lookup "type" = some v ∧ ∀ s, v ≠ .string s) ∨
        (∃ s, data.lookup "type" = some (.string s) ∧ s ≠ MsgTypeRequestBlock ∧
          s ≠ MsgTypeRequestInfo ∧ s ≠ MsgTypeBlockData ∧ s ≠ MsgTypePeerInfo ∧
          s ≠ MsgTypeError)) →
      ∃ err, ParseMessage lib data = .error err) ∧
    (∀ msg, ParseMessage lib data = .ok msg →
      ∃ s, data.lookup "type" = some (.string s) ∧
        ((s = MsgTypeRequestBlock ∧ ∃ m, msg = .requestBlock m) ∨
          (s = MsgTypeRequestInfo ∧ ∃ m, msg = .requestInfo m) ∨
          (s = MsgTypeBlockData ∧ ∃ m, msg = .blockData m) ∨
          (s = MsgTypePeerInfo ∧ ∃ m, msg = .peerInfo m) ∨
          (s = MsgTypeError ∧ ∃ m, msg = .error m))) := by
  constructor
  · rintro (h | ⟨v, hv, hs⟩ | ⟨s, hs, h1, h2, h3, h4, h5⟩)
    · exact ⟨_, ParseMessage_no_type lib data (by simp [h])⟩
    · refine ⟨_, ParseMessage_no_type lib data ?_⟩
      intro s hl
      rw [hv] at hl
      exact hs s (Option.some.inj hl)
    · rw [ParseMessage_of_type lib data s hs]
      cases lib.marshalMap data with
      | error err => exact ⟨err, rfl⟩
      | ok jsonData =>
        exact ⟨.errorf "tipo de mensagem desconhecido: %s", by simp [h1, h2, h3, h4, h5]⟩
  · intro msg hmsg
    by_cases hty : ∃ s, data.lookup "type" = some (.string s)
    · obtain ⟨s, hs⟩ := hty
      refine ⟨s, hs, ?_⟩
      rw [ParseMessage_of_type lib data s hs] at hmsg
      cases hm : lib.marshalMap data with
      | error err => simp [hm] at hmsg
      | ok jsonData =>
        simp only [hm] at hmsg
        split_ifs at hmsg with h1 h2 h3 h4 h5
        · cases hd : lib.unmarshalRequestBlock jsonData with
          | error e => simp [hd, Except.map] at hmsg
          | ok m =>
            simp only [hd, Except.map, Except.ok.injEq] at hmsg
            exact Or.inl ⟨h1, m, hmsg.symm⟩
        · cases hd : lib.unmarshalRequestInfo jsonData with
          | error e => simp [hd, Except.map] at hmsg
          | ok m =>
            simp only [hd, Except.map, Except.ok.injEq] at hmsg
            exact Or.inr (Or.inl ⟨h2, m, hmsg.symm⟩)
        · cases hd : lib.unmarshalBlockData jsonData with
          | error e => simp [hd, Except.map] at hmsg
          | ok m =>
            simp only [hd, Except.map, Except.ok.injEq] at hmsg
            exact Or.inr (Or.inr (Or.inl ⟨h3, m, hmsg.symm⟩))
        · cases hd : lib.unmarshalPeerInfo jsonData with
          | error e => simp [hd, Except.map] at hmsg
          | ok m =>
            simp only [hd, Except.map, Except.ok.injEq] at hmsg
            exact Or.inr (Or.inr (Or.inr (Or.inl ⟨h4, m, hmsg.symm⟩)))
        · cases hd : lib.unmarshalError jsonData with
          | error e => simp [hd, Except.map] at hmsg
          | ok m =>
            simp only [hd, Except.map, Except.ok.injEq] at hmsg
            exact Or.inr (Or.inr (Or.inr (Or.inr ⟨h5, m, hmsg.symm⟩)))
    · have hno : ∀ s, data.lookup "type" ≠ some (.string s) := fun s hs => hty ⟨s, hs⟩
      rw [ParseMessage_no_type lib data hno] at hmsg
      cases hmsg

/-- Witness of C8: a bag without a `type` field is refused, and the bag of a
`REQUEST_INFO` document decodes to a `RequestInfoMsg`. -/
theorem C8_parse_discriminant_witness :
    (∃ err, ParseMessage sampleLibrary [("kind", .string MsgTypeError)] = .error err) ∧
    (∃ s, FieldBag.lookup [("type", .string MsgTypeRequestInfo)] "type" = some (.string s) ∧
      ((s = MsgTypeRequestBlock ∧ ∃ m, Message.requestInfo NewRequestInfo = .requestBlock m) ∨
        (s = MsgTypeRequestInfo ∧ ∃ m, Message.requestInfo NewRequestInfo = .requestInfo m) ∨
        (s = MsgTypeBlockData ∧ ∃ m, Message.requestInfo NewRequestInfo = .blockData m) ∨
        (s = MsgTypePeerInfo ∧ ∃ m, Message.requestInfo NewRequestInfo = .peerInfo m) ∨
        (s = MsgTypeError ∧ ∃ m, Message.requestInfo NewRequestInfo = .error m))) :=
  ⟨(C8_parse_discriminant sampleLibrary [("kind", .string MsgTypeError)]).1 (Or.inl (by rfl)),
    (C8_parse_discriminant sampleLibrary [("type", .string MsgTypeRequestInfo)]).2
      (.requestInfo NewRequestInfo) (by rfl)⟩

/-! ## Lemmas on `SendMessage` and `ReceiveMessage` -/

theorem SendMessage_of_writable (conn : Conn) (msg : Message) (hw : conn.writeErr = none) :
    SendMessage conn msg =
      (none, { conn with
        output := conn.output ++ putUint32 (msg.payload.length % 2 ^ 32) ++ msg.payload }) := by
  simp [SendMessage, jsonMarshal, binaryWriteUint32, Conn.write, hw]

/-- Go `ReceiveMessage` on a stream that starts with a frame of at most 16 MiB:
the frame is consumed, and the payload goes to the decoder. -/
theorem ReceiveMessage_frame (lib : Library) (rc : Conn) (payload more : List UInt8)
    (hlen : payload.length ≤ maxMessageSize)
    (hin : rc.input = putUint32 payload.length ++ payload ++ more) :
    ReceiveMessage lib rc =
      (match lib.unmarshalMap payload with
        | .error err => .error (.wrap "erro ao deserializar JSON: %w" err)
        | .ok msg => .ok msg,
        { rc with input := more }) := by
  have h32 : payload.length < 2 ^ 32 := by
    unfold maxMessageSize at hlen
    omega
  obtain ⟨b0, b1, b2, b3, hput, hval⟩ := uint32_putUint32 payload.length h32
  have hin' : rc.input = b0 :: b1 :: b2 :: b3 :: (payload ++ more) := by
    rw [hin, hput]
    simp
  have hmax : ¬ payload.length > maxMessageSize := by omega
  simp only [ReceiveMessage, binaryReadUint32_cons rc b0 b1 b2 b3 _ hin', hval, hmax, if_false]
  have hread : Conn.readFull { rc with input := payload ++ more } payload.length =
      (.ok payload, { rc with input := more }) := by
    simp [Conn.readFull]
  rw [hread]
  dsimp only
  cases hu : lib.unmarshalMap payload <;> rfl

/-- Go `ReceiveMessage` on a stream that starts with the prefix of a size above
16 MiB: only the prefix is consumed. -/
theorem ReceiveMessage_too_large (lib : Library) (rc : Conn) (n : Nat) (rest : List UInt8)
    (hn : n < 2 ^ 32) (hmax : n > maxMessageSize) (hin : rc.input = putUint32 n ++ rest) :
    ReceiveMessage lib rc = (.error errMessageTooLarge, { rc with input := rest }) := by
  obtain ⟨b0, b1, b2, b3, hput, hval⟩ := uint32_putUint32 n hn
  have hin' : rc.input = b0 :: b1 :: b2 :: b3 :: rest := by
    rw [hin, hput]
    simp
  simp only [ReceiveMessage, binaryReadUint32_cons rc b0 b1 b2 b3 _ hin', hval, hmax, if_true]

theorem payload_type_field (msg : Message) :
    ∃ rest, msg.payload = [123] ++ jsonString "type" ++ [58] ++ jsonString msg.GetType ++ rest := by
  cases msg <;>
    simp [Message.payload, Message.fields, jsonObject, jsonMember, Message.GetType,
      List.intercalate]

/-- The encoding of a string of `n` letters `a`. -/
theorem flatMap_jsonEscapeChar_replicate (n : Nat) :
    (List.replicate n 'a').flatMap jsonEscapeChar = List.replicate n 97 := by
  induction n with
  | zero => rfl
  | succ n ih =>
    rw [List.replicate_succ, List.flatMap_cons, ih, List.replicate_succ]
    rfl

/-- The payload of an `ErrorMsg` whose text is `n` letters `a` has `n + 29`
bytes. -/
theorem length_payload_error_replicate (n : Nat) :
    (Message.error (NewError (String.mk (List.replicate n 'a')))).payload.length = n + 29 := by
  have h1 : jsonString "type" = [34, 116, 121, 112, 101, 34] := by decide
  have h2 : jsonString MsgTypeError = [34, 69, 82, 82, 79, 82, 34] := by decide
  have h3 : jsonString "message" = [34, 109, 101, 115, 115, 97, 103, 101, 34] := by decide
  have h4 : jsonString (String.mk (List.replicate n 'a')) =
      [34] ++ List.replicate n 97 ++ [34] := by
    simp only [jsonString, flatMap_jsonEscapeChar_replicate]
  simp only [Message.payload, Message.fields, NewError, jsonObject, jsonMember, h1, h2, h3, h4,
    List.map_cons, List.map_nil, List.intercalate]
  simp

theorem length_base64Encode (data : List UInt8) :
    (base64Encode data).length = 4 * ((data.length + 2) / 3) := by
  induction data using base64Encode.induct with
  | case1 => rfl
  | case2 a => simp [base64Encode]
  | case3 a b => simp [base64Encode]
  | case4 a b c rest ih =>
    simp only [base64Encode, List.length_append, List.length_cons, List.length_nil, ih]
    omega

/-- The payload of a `BlockDataMsg` for block 0 with an empty checksum. -/
theorem length_payload_blockData (data : List UInt8) :
    (Message.blockData (NewBlockData 0 (some data) "")).payload.length =
      4 * ((data.length + 2) / 3) + 58 := by
  have h1 : jsonString "type" = [34, 116, 121, 112, 101, 34] := by decide
  have h2 : jsonString MsgTypeBlockData = [34, 66, 76, 79, 67, 75, 95, 68, 65, 84, 65, 34] := by
    decide
  have h3 : jsonString "block_id" = [34, 98, 108, 111, 99, 107, 95, 105, 100, 34] := by decide
  have h4 : jsonString "data" = [34, 100, 97, 116, 97, 34] := by decide
  have h5 : jsonString "checksum" = [34, 99, 104, 101, 99, 107, 115, 117, 109, 34] := by decide
  have h6 : jsonString "" = [34, 34] := by decide
  have h7 : jsonInt 0 = [48] := by decide
  simp only [Message.payload, Message.fields, NewBlockData, jsonObject, jsonMember, jsonBytes,
    h1, h2, h3, h4, h5, h6, h7, List.map_cons, List.map_nil, List.intercalate]
  simp [length_base64Encode]

theorem length_payload_errorOfLength (n : Nat) : (errorOfLength n).payload.length = n + 29 :=
  length_payload_error_replicate n

theorem length_payload_blockDataOfLength (n : Nat) :
    (blockDataOfLength n).payload.length = 4 * ((n + 2) / 3) + 58 := by
  rw [blockDataOfLength, length_payload_blockData, List.length_replicate]

/-- A message whose payload is above 16 MiB and below 4 GiB does not survive
encode-then-decode, whatever the decoders are. -/
theorem roundTrip_too_large (lib : Library) (msg : Message)
    (h32 : msg.payload.length < 2 ^ 32) (hmax : msg.payload.length > maxMessageSize) :
    roundTrip lib msg = .error errMessageTooLarge := by
  have hsend := SendMessage_of_writable (Conn.delivering []) msg rfl
  have hmod : msg.payload.length % 2 ^ 32 = msg.payload.length := Nat.mod_eq_of_lt h32
  rw [hmod] at hsend
  have hrecv := ReceiveMessage_too_large lib
    (Conn.delivering (putUint32 msg.payload.length ++ msg.payload)) msg.payload.length
    msg.payload h32 hmax rfl
  simp only [roundTrip, hsend]
  simp only [Conn.delivering, List.nil_append] at hrecv ⊢
  rw [hrecv]

/-- A message of at most 16 MiB survives encode-then-decode when the decoders
of the library give the message back. -/
theorem roundTrip_of_decoders (lib : Library) (msg : Message) (data : FieldBag)
    (jsonData : List UInt8) (hbuilt : msg.Built)
    (hsize : msg.payload.length ≤ maxMessageSize)
    (h1 : lib.unmarshalMap msg.payload = .ok data)
    (h2 : data.lookup "type" = some (.string msg.GetType))
    (h3 : lib.marshalMap data = .ok jsonData)
    (h4 : lib.unmarshalLike msg jsonData = .ok msg) :
    roundTrip lib msg = .ok msg := by
  have hsend := SendMessage_of_writable (Conn.delivering []) msg rfl
  have h32 : msg.payload.length < 2 ^ 32 := by
    unfold maxMessageSize at hsize
    omega
  have hmod : msg.payload.length % 2 ^ 32 = msg.payload.length := Nat.mod_eq_of_lt h32
  rw [hmod] at hsend
  have hrecv := ReceiveMessage_frame lib
    (Conn.delivering (putUint32 msg.payload.length ++ msg.payload)) msg.payload [] hsize
    (by simp [Conn.delivering])
  simp only [roundTrip, hsend]
  simp only [Conn.delivering, List.nil_append] at hrecv ⊢
  rw [hrecv, h1]
  simp only
  rw [ParseMessage_of_type lib data _ h2, h3]
  simp only
  cases msg with
  | requestBlock m =>
    have ht : m.MsgType = MsgTypeRequestBlock := hbuilt
    simp only [Message.GetType, ht]
    rw [if_pos trivial]
    exact h4
  | requestInfo m =>
    have ht : m.MsgType = MsgTypeRequestInfo := hbuilt
    simp only [Message.GetType, ht]
    rw [if_pos trivial]
    exact h4
  | blockData m =>
    have ht : m.MsgType = MsgTypeBlockData := hbuilt
    simp only [Message.GetType, ht]
    rw [if_pos trivial]
    exact h4
  | peerInfo m =>
    have ht : m.MsgType = MsgTypePeerInfo := hbuilt
    simp only [Message.GetType, ht]
    rw [if_pos trivial]
    exact h4
  | error m =>
    have ht : m.MsgType = MsgTypeError := hbuilt
    simp only [Message.GetType, ht]
    rw [if_pos trivial]
    exact h4

/-! ## The wire protocol's claims -/

/-- C9, as the code has it: on a connection that accepts writes, `SendMessage`
writes, for a payload below 4 GiB, the 4-byte big-endian encoding of the
payload's length followed by the payload; the payload is an object whose first
member is `type` with the message's discriminant; and for a payload of at most
16 MiB `ReceiveMessage` applied to a stream that starts with those bytes
consumes the frame and nothing after it. -/
theorem C9_frame_layout (conn : Conn) (msg : Message) (hw : conn.writeErr = none) :
    (msg.payload.length < 2 ^ 32 →
      SendMessage conn msg =
        (none, { conn with
          output := conn.output ++ putUint32 msg.payload.length ++ msg.payload }) ∧
      ∃ b0 b1 b2 b3, putUint32 msg.payload.length = [b0, b1, b2, b3] ∧
        uint32 b0 b1 b2 b3 = msg.payload.length) ∧
    (∃ rest,
      msg.payload = [123] ++ jsonString "type" ++ [58] ++ jsonString msg.GetType ++ rest) ∧
    (msg.payload.length ≤ 16 * 1024 * 1024 →
      ∀ (lib : Library) (rc : Conn) (more : List UInt8),
        rc.input = putUint32 msg.payload.length ++ msg.payload ++ more →
        (ReceiveMessage lib rc).2 = { rc with input := more }) := by
  refine ⟨?_, payload_type_field msg, ?_⟩
  · intro h32
    refine ⟨?_, uint32_putUint32 _ h32⟩
    rw [SendMessage_of_writable conn msg hw, Nat.mod_eq_of_lt h32]
  · intro hsize lib rc more hin
    rw [ReceiveMessage_frame lib rc msg.payload more hsize hin]

/-- Witness of C9: `NewRequestInfo()` sent on a fresh connection, and its
frame received from a stream that goes on with the byte 7. -/
theorem C9_frame_layout_witness :
    SendMessage (Conn.delivering []) (.requestInfo NewRequestInfo) =
      (none, Conn.mk [] .eof ([0, 0, 0, 23] ++ (Message.requestInfo NewRequestInfo).payload)
        none) ∧
    (ReceiveMessage sampleLibrary
      (Conn.delivering ([0, 0, 0, 23] ++ (Message.requestInfo NewRequestInfo).payload ++ [7]))).2
      = Conn.delivering [7] :=
  ⟨((C9_frame_layout (Conn.delivering []) (.requestInfo NewRequestInfo) rfl).1
      (by decide)).1,
    (C9_frame_layout (Conn.delivering []) (.requestInfo NewRequestInfo) rfl).2.2 (by decide)
      sampleLibrary _ [7] (by rfl)⟩

/-- C9 as stated fails: the frame of an `ErrorMsg` with a text of 16 MiB is
written, and `ReceiveMessage` consumes its 4-byte prefix only, the 16777245
payload bytes stay in the stream; and the prefix of an `ErrorMsg` with a text
of 4 GiB encodes 29, not the 4294967325 bytes of the payload. -/
theorem C9_counterexample :
    (∀ lib : Library,
      ReceiveMessage lib
          (Conn.delivering (SendMessage (Conn.delivering []) (errorOfLength 16777216)).2.output)
        = (.error errMessageTooLarge, Conn.delivering (errorOfLength 16777216).payload)) ∧
    (errorOfLength 16777216).payload.length = 16777245 ∧
    (SendMessage (Conn.delivering []) (errorOfLength 4294967296)).2.output =
      [0, 0, 0, 29] ++ (errorOfLength 4294967296).payload ∧
    (errorOfLength 4294967296).payload.length = 4294967325 := by
  have hlen1 := length_payload_errorOfLength 16777216
  have hlen2 := length_payload_errorOfLength 4294967296
  refine ⟨?_, hlen1, ?_, hlen2⟩
  · intro lib
    rw [SendMessage_of_writable _ _ rfl, hlen1]
    exact ReceiveMessage_too_large lib _ 16777245 _ (by decide) (by decide) rfl
  · rw [SendMessage_of_writable _ _ rfl, hlen2]
    rfl

/-! ## `downloadBlock` -/

/-- Go `downloadBlock` once the response has been received and parsed as a
`BlockDataMsg`: what is left is the two checks, the write and the mark. -/
theorem downloadBlock_of_blockData (lib : Library) (c : Client) (conn : Conn) (blockID : Int)
    (msgData : FieldBag) (m : BlockDataMsg)
    (hsend : (SendMessage conn (.requestBlock (NewRequestBlock blockID))).1 = none)
    (hrecv : (ReceiveMessage lib (SendMessage conn (.requestBlock (NewRequestBlock blockID))).2).1
      = .ok msgData)
    (hparse : ParseMessage lib msgData = .ok (.blockData m)) :
    c.downloadBlock lib conn blockID =
      if !ValidateBlockChecksum lib m.Data.elems m.Checksum then
        (.err (.errorf "checksum inválido para bloco %d"), c,
          (ReceiveMessage lib (SendMessage conn (.requestBlock (NewRequestBlock blockID))).2).2)
      else
        match c.metadata.GetBlock blockID with
        | .panic reason =>
          (.panic reason, c,
            (ReceiveMessage lib (SendMessage conn (.requestBlock (NewRequestBlock blockID))).2).2)
        | .err err =>
          (.err (.wrap "erro ao obter metadados: %w" err), c,
            (ReceiveMessage lib (SendMessage conn (.requestBlock (NewRequestBlock blockID))).2).2)
        | .ok expectedBlock =>
          if m.Checksum ≠ expectedBlock.Hash then
            (.err (.errorf "checksum não corresponde aos metadados"), c,
              (ReceiveMessage lib
                (SendMessage conn (.requestBlock (NewRequestBlock blockID))).2).2)
          else
            match WriteBlockToFile c.file blockID c.metadata.BlockSize m.Data.elems with
            | (some err, file) =>
              (.err (.wrap "erro ao escrever bloco: %w" err), { c with file := file },
                (ReceiveMessage lib
                  (SendMessage conn (.requestBlock (NewRequestBlock blockID))).2).2)
            | (none, file) =>
              (.ok (),
                { c with
                  file := file
                  blockManager := c.blockManager.MarkBlockAvailable blockID },
                (ReceiveMessage lib
                  (SendMessage conn (.requestBlock (NewRequestBlock blockID))).2).2) := by
  unfold Client.downloadBlock
  cases hs : SendMessage conn (.requestBlock (NewRequestBlock blockID)) with
  | mk e conn1 =>
    rw [hs] at hsend hrecv
    simp only at hsend hrecv
    subst hsend
    cases hr : ReceiveMessage lib conn1 with
    | mk r conn2 =>
      rw [hr] at hrecv
      simp only at hrecv
      subst hrecv
      simp only [hs, hr, hparse]

/-- C10: when the response to the request for a block is a `BlockData` whose
bytes do not have the digest it carries, or whose digest differs from the one
the metadata records at the position of the requested id, `downloadBlock`
returns an error and leaves the file and the tracker as they were, so
`GetNextMissingBlock` and the availability of the block are as before. -/
theorem C10_reject_on_digest_mismatch (lib : Library) (c : Client) (conn : Conn)
    (blockID : Int) (msgData : FieldBag) (m : BlockDataMsg)
    (hsend : (SendMessage conn (.requestBlock (NewRequestBlock blockID))).1 = none)
    (hrecv : (ReceiveMessage lib (SendMessage conn (.requestBlock (NewRequestBlock blockID))).2).1
      = .ok msgData)
    (hparse : ParseMessage lib msgData = .ok (.blockData m))
    (hbad : ValidateBlockChecksum lib m.Data.elems m.Checksum = false ∨
      ∃ block, 0 ≤ blockID ∧ c.metadata.Blocks[blockID.toNat]? = some block ∧
        m.Checksum ≠ block.Hash) :
    (∃ err, (c.downloadBlock lib conn blockID).1 = .err err) ∧
    (c.downloadBlock lib conn blockID).2.1.file = c.file ∧
    (c.downloadBlock lib conn blockID).2.1.blockManager = c.blockManager ∧
    (c.downloadBlock lib conn blockID).2.1.blockManager.GetNextMissingBlock =
      c.blockManager.GetNextMissingBlock ∧
    (c.downloadBlock lib conn blockID).2.1.blockManager.IsBlockAvailable blockID =
      c.blockManager.IsBlockAvailable blockID := by
  have hclient : (∃ err, (c.downloadBlock lib conn blockID).1 = .err err) ∧
      (c.downloadBlock lib conn blockID).2.1 = c := by
    rw [downloadBlock_of_blockData lib c conn blockID msgData m hsend hrecv hparse]
    cases hv : ValidateBlockChecksum lib m.Data.elems m.Checksum with
    | false => exact ⟨⟨_, rfl⟩, rfl⟩
    | true =>
      rcases hbad with hbad | ⟨block, h0, hblock, hne⟩
      · rw [hv] at hbad
        cases hbad
      · simp only [Bool.not_true, Bool.false_eq_true, if_false]
        unfold Metadata.GetBlock
        by_cases hrange : blockID < 0 ∨ blockID ≥ c.metadata.TotalBlocks
        · rw [if_pos hrange]
          exact ⟨⟨_, rfl⟩, rfl⟩
        · rw [if_neg hrange, hblock]
          simp only
          rw [if_pos hne]
          exact ⟨⟨_, rfl⟩, rfl⟩
  obtain ⟨herr, hc⟩ := hclient
  refine ⟨herr, ?_, ?_, ?_, ?_⟩ <;> rw [hc]

/-- Witness of C10: the sample client asks for block 0 and is served
`sampleBlockData`, whose checksum is not the digest of its bytes. -/
theorem C10_reject_on_digest_mismatch_witness :
    (∃ err, (sampleClient.downloadBlock sampleLibrary sampleConn 0).1 = .err err) ∧
    (sampleClient.downloadBlock sampleLibrary sampleConn 0).2.1.file = sampleClient.file ∧
    (sampleClient.downloadBlock sampleLibrary sampleConn 0).2.1.blockManager =
      sampleClient.blockManager ∧
    (sampleClient.downloadBlock sampleLibrary sampleConn 0).2.1.blockManager.GetNextMissingBlock
      = sampleClient.blockManager.GetNextMissingBlock ∧
    (sampleClient.downloadBlock sampleLibrary sampleConn 0).2.1.blockManager.IsBlockAvailable 0
      = sampleClient.blockManager.IsBlockAvailable 0 :=
  C10_reject_on_digest_mismatch sampleLibrary sampleClient sampleConn 0 sampleBlockDataBag
    sampleBlockData (by rfl) (by rfl) (by rfl) (Or.inl (by rfl))

/-- The sample download ends with the checksum error of the first check. -/
theorem downloadBlock_sample :
    (sampleClient.downloadBlock sampleLibrary sampleConn 0).1 =
      .err (.errorf "checksum inválido para bloco %d") := by
  rfl

/-! ## `Metadata.GetBlock` -/

/-- Go `GetBlock` in the three cases of its body. -/
theorem GetBlock_cases (m : Metadata) (blockID : Int) :
    ((blockID < 0 ∨ blockID ≥ m.TotalBlocks) ∧
      m.GetBlock blockID = .err (.errorf "ID de bloco inválido: %d (total: %d)")) ∨
    (0 ≤ blockID ∧ blockID < m.TotalBlocks ∧ ∃ block,
      m.Blocks[blockID.toNat]? = some block ∧ m.GetBlock blockID = .ok block) ∨
    (0 ≤ blockID ∧ blockID < m.TotalBlocks ∧ m.Blocks.length ≤ blockID.toNat ∧
      m.GetBlock blockID = .panic "index out of range") := by
  unfold Metadata.GetBlock
  by_cases hr : blockID < 0 ∨ blockID ≥ m.TotalBlocks
  · left
    exact ⟨hr, by rw [if_pos hr]⟩
  · right
    rw [if_neg hr]
    have h0 : 0 ≤ blockID := by omega
    have h1 : blockID < m.TotalBlocks := by omega
    cases hb : m.Blocks[blockID.toNat]? with
    | some block => exact Or.inl ⟨h0, h1, block, rfl, rfl⟩
    | none =>
      right
      exact ⟨h0, h1, by simpa using hb, rfl⟩

theorem GetBlock_ok_iff (m : Metadata) (blockID : Int) (block : BlockInfo) :
    m.GetBlock blockID = .ok block ↔
      0 ≤ blockID ∧ blockID < m.TotalBlocks ∧ m.Blocks[blockID.toNat]? = some block := by
  rcases GetBlock_cases m blockID with ⟨hr, h⟩ | ⟨h0, h1, b, hb, h⟩ | ⟨h0, h1, hl, h⟩
  · rw [h]
    constructor
    · intro hc
      cases hc
    · rintro ⟨h0, h1, _⟩
      omega
  · rw [h, hb]
    constructor
    · intro hc
      cases hc
      exact ⟨h0, h1, rfl⟩
    · rintro ⟨_, _, hc⟩
      cases hc
      rfl
  · rw [h]
    constructor
    · intro hc
      cases hc
    · rintro ⟨_, _, hc⟩
      have := List.getElem?_eq_none hl
      rw [this] at hc
      cases hc

/-- C18 on the code: on a record that declares 2 blocks and lists none,
`GetBlock` returns the out-of-range error for the ids -1 and 2 and panics for
the ids 0 and 1, which are in `[0, total_blocks)`. -/
theorem C18_GetBlock_panics :
    shortMetadata.GetBlock (-1) = .err (.errorf "ID de bloco inválido: %d (total: %d)") ∧
    shortMetadata.GetBlock 2 = .err (.errorf "ID de bloco inválido: %d (total: %d)") ∧
    shortMetadata.GetBlock 0 = .panic "index out of range" ∧
    shortMetadata.GetBlock 1 = .panic "index out of range" := by
  decide

/-! ## Lemmas on `writeAt` and `WriteBlockToFile` -/

theorem length_writeAt_head (old : List UInt8) (off : Nat) :
    ((old ++ List.replicate (off - old.length) 0).take off).length = off := by
  simp only [List.length_take, List.length_append, List.length_replicate]
  omega

/-- The bytes written are where the write put them. -/
theorem getElem?_writeAt_inside (old data : List UInt8) (off j : Nat) (hj : j < data.length) :
    (writeAt old data off)[off + j]? = data[j]? := by
  have hne : data ≠ [] := by
    intro h
    rw [h] at hj
    simp at hj
  unfold writeAt
  rw [if_neg hne, List.append_assoc, List.getElem?_append_right, length_writeAt_head,
    List.getElem?_append_left]
  · congr 1
    omega
  · omega
  · rw [length_writeAt_head]
    omega

/-- A byte of the old file outside the written range is unchanged. -/
theorem getElem?_writeAt_outside (old data : List UInt8) (off i : Nat) (hi : i < old.length)
    (hout : i < off ∨ off + data.length ≤ i) : (writeAt old data off)[i]? = old[i]? := by
  unfold writeAt
  by_cases hne : data = []
  · rw [if_pos hne]
  · rw [if_neg hne]
    rcases hout with hlt | hge
    · rw [List.append_assoc, List.getElem?_append_left, List.getElem?_take,
        List.getElem?_append_left hi, if_pos hlt]
      rw [length_writeAt_head]
      exact hlt
    · rw [List.getElem?_append_right, List.length_append, length_writeAt_head,
        List.getElem?_drop]
      · congr 1
        omega
      · rw [List.length_append, length_writeAt_head]
        exact hge

theorem WriteBlockToFile_ok (file : File) (blockID blockSize : Int) (data : List UInt8)
    (hopen : file.openErr = none) (hoff : 0 ≤ mulInt64 blockID blockSize) :
    WriteBlockToFile file blockID blockSize data =
      (none, { file with
        content := some (writeAt (file.content.getD []) data
          (mulInt64 blockID blockSize).toNat) }) := by
  unfold WriteBlockToFile
  rw [hopen]
  simp only
  rw [if_neg (by omega)]

/-- C11, as the code has it: when the response to the request for a block is a
`BlockData` that passes both digest checks, the destination file opens and the
offset `blockID * BlockSize` (wrapped to 64 bits) is not negative, then
`downloadBlock` returns no error, the file holds the received bytes from that
offset on, every byte of the old file outside the range of the received bytes
is unchanged, and the id is available in the tracker. The offset and the size
recorded in the descriptor are not consulted. -/
theorem C11_write_and_mark (lib : Library) (c : Client) (conn : Conn) (blockID : Int)
    (msgData : FieldBag) (m : BlockDataMsg) (block : BlockInfo)
    (hsend : (SendMessage conn (.requestBlock (NewRequestBlock blockID))).1 = none)
    (hrecv : (ReceiveMessage lib (SendMessage conn (.requestBlock (NewRequestBlock blockID))).2).1
      = .ok msgData)
    (hparse : ParseMessage lib msgData = .ok (.blockData m))
    (hvalid : ValidateBlockChecksum lib m.Data.elems m.Checksum = true)
    (hblock : c.metadata.GetBlock blockID = .ok block)
    (hhash : m.Checksum = block.Hash)
    (hopen : c.file.openErr = none)
    (hoff : 0 ≤ mulInt64 blockID c.metadata.BlockSize) :
    (c.downloadBlock lib conn blockID).1 = .ok () ∧
    (c.downloadBlock lib conn blockID).2.1.file.content =
      some (writeAt (c.file.content.getD []) m.Data.elems
        (mulInt64 blockID c.metadata.BlockSize).toNat) ∧
    (∀ j, j < m.Data.elems.length →
      (writeAt (c.file.content.getD []) m.Data.elems
        (mulInt64 blockID c.metadata.BlockSize).toNat)[
          (mulInt64 blockID c.metadata.BlockSize).toNat + j]? = m.Data.elems[j]?) ∧
    (∀ i, i < (c.file.content.getD []).length →
      (i < (mulInt64 blockID c.metadata.BlockSize).toNat ∨
        (mulInt64 blockID c.metadata.BlockSize).toNat + m.Data.elems.length ≤ i) →
      (writeAt (c.file.content.getD []) m.Data.elems
        (mulInt64 blockID c.metadata.BlockSize).toNat)[i]? = (c.file.content.getD [])[i]?) ∧
    (c.downloadBlock lib conn blockID).2.1.blockManager.IsBlockAvailable blockID = true := by
  have hd := downloadBlock_of_blockData lib c conn blockID msgData m hsend hrecv hparse
  rw [hvalid, hblock] at hd
  simp only [Bool.not_true, Bool.false_eq_true, if_false] at hd
  rw [if_neg (by simpa using hhash), WriteBlockToFile_ok c.file blockID _ _ hopen hoff] at hd
  simp only at hd
  rw [hd]
  refine ⟨rfl, rfl, ?_, ?_, ?_⟩
  · intro j hj
    exact getElem?_writeAt_inside _ _ _ j hj
  · intro i hi hout
    exact getElem?_writeAt_outside _ _ _ i hi hout
  · simp only [BlockManager.IsBlockAvailable, BlockManager.availableBlocks_MarkBlockAvailable]
    exact BlockMap.get_set_self _ _ _

/-- C11 as stated fails: a client whose metadata records the offset 5 and the
size 2 for block 0 (block size 3) is served the 3 bytes whose digest the
metadata records; `downloadBlock` writes them at offset 0, so the bytes 0 to 2
of the file change and the bytes 5 and 6 do not. -/
theorem C11_counterexample :
    (shiftedClient.downloadBlock (tableLibrary [.blockData goodBlockData])
      (Conn.deliveringFrame (.blockData goodBlockData)) 0).1 = .ok () ∧
    (shiftedClient.downloadBlock (tableLibrary [.blockData goodBlockData])
      (Conn.deliveringFrame (.blockData goodBlockData)) 0).2.1.file.content =
        some [1, 2, 3, 0, 0, 0, 0, 0] := by
  constructor <;> rfl

/-- Witness of C11: the bytes 1, 2, 3 served for block 0 land at offset 0 of a
file of 8 zero bytes, and block 0 is available afterwards. -/
theorem C11_write_and_mark_witness :
    (shiftedClient.downloadBlock (tableLibrary [.blockData goodBlockData])
      (Conn.deliveringFrame (.blockData goodBlockData)) 0).1 = .ok () ∧
    (shiftedClient.downloadBlock (tableLibrary [.blockData goodBlockData])
      (Conn.deliveringFrame (.blockData goodBlockData)) 0).2.1.file.content =
        some (writeAt [0, 0, 0, 0, 0, 0, 0, 0] [1, 2, 3] 0) ∧
    (shiftedClient.downloadBlock (tableLibrary [.blockData goodBlockData])
      (Conn.deliveringFrame (.blockData goodBlockData)) 0).2.1.blockManager.IsBlockAvailable 0
        = true :=
  have h := C11_write_and_mark (tableLibrary [.blockData goodBlockData]) shiftedClient
    (Conn.deliveringFrame (.blockData goodBlockData)) 0
    [("type", .string MsgTypeBlockData),
      ("document", .slice ((Message.blockData goodBlockData).payload.map
        (fun b => GoValue.float64 b.toNat)))]
    goodBlockData { ID := 0, Offset := 5, Size := 2, Hash := "sha256:" ++ toyDigest [1, 2, 3] }
    (by rfl) (by rfl) (by rfl) (by rfl) (by rfl) (by rfl) (by rfl) (by decide)
  ⟨h.1, h.2.1, h.2.2.2.2⟩

/-- The metadata of the bytes 1 to 9 in blocks of 4. -/
theorem GenerateFromFile_nineBytes :
    GenerateFromFile (tableLibrary []) nineBytes "nine.bin" 4 10 =
      some (.ok
        { FileName := "nine.bin", FileSize := 9, BlockSize := 4, TotalBlocks := 3,
          FileHash := "sha256:2d",
          Blocks := [{ ID := 0, Offset := 0, Size := 4, Hash := "sha256:0a" },
            { ID := 1, Offset := 4, Size := 4, Hash := "sha256:1a" },
            { ID := 2, Offset := 8, Size := 1, Hash := "sha256:09" }] }) := by
  decide

/-! ## Lemmas on the generator -/

theorem mulInt64_of_bounds (a b : Int) (h0 : 0 ≤ a * b) (h1 : a * b < 2 ^ 63) :
    mulInt64 a b = a * b := by
  unfold mulInt64
  rw [Int.emod_eq_of_lt (by omega) (by omega)]
  omega

theorem blockCount_mul_lt (n b i : Nat) (hb : 0 < b) (hi : i < blockCount n b) : i * b < n := by
  unfold blockCount at hi
  have hdm := Nat.div_add_mod n b
  have hmod := Nat.mod_lt n hb
  by_cases hr : n % b = 0
  · rw [if_pos hr] at hi
    have h1 : (i + 1) * b ≤ n / b * b := Nat.mul_le_mul_right b (by omega)
    have h2 : n / b * b = n := by
      rw [Nat.mul_comm]
      omega
    rw [Nat.add_mul] at h1
    omega
  · rw [if_neg hr] at hi
    have h1 : i * b ≤ n / b * b := Nat.mul_le_mul_right b (by omega)
    have h2 : n / b * b + n % b = n := by
      rw [Nat.mul_comm]
      exact hdm
    omega

theorem lt_blockCount_of_mul_lt (n b i : Nat) (hb : 0 < b) (hi : i * b < n) :
    i < blockCount n b := by
  unfold blockCount
  have hdm := Nat.div_add_mod n b
  have hmod := Nat.mod_lt n hb
  by_contra hge
  by_cases hr : n % b = 0
  · rw [if_pos hr] at hge
    have h1 : n / b * b ≤ i * b := Nat.mul_le_mul_right b (by omega)
    have h2 : n / b * b = n := by
      rw [Nat.mul_comm]
      omega
    omega
  · rw [if_neg hr] at hge
    have h1 : (n / b + 1) * b ≤ i * b := Nat.mul_le_mul_right b (by omega)
    rw [Nat.add_mul] at h1
    have h2 : n / b * b + n % b = n := by
      rw [Nat.mul_comm]
      exact hdm
    omega

/-- The last block ends at the end of the file, and is not empty. -/
theorem blockCount_last (n b i : Nat) (hb : 0 < b) (hi : i + 1 = blockCount n b) :
    i * b < n ∧ n ≤ (i + 1) * b := by
  refine ⟨blockCount_mul_lt n b i hb (by omega), ?_⟩
  by_contra hlt
  have := lt_blockCount_of_mul_lt n b (i + 1) hb (by omega)
  omega

theorem blockCount_eq_ceil (n b : Nat) (hb : 0 < b) : blockCount n b = (n + b - 1) / b := by
  symm
  apply Nat.div_eq_of_lt_le
  · by_cases h0 : blockCount n b = 0
    · rw [h0]
      omega
    · have := (blockCount_last n b (blockCount n b - 1) hb (by omega)).1
      have h2 : (blockCount n b - 1) * b + b = blockCount n b * b := by
        rw [← Nat.succ_mul]
        congr 1
        omega
      omega
  · by_cases h0 : blockCount n b = 0
    · have : ¬ 0 * b < n := fun h => by
        have := lt_blockCount_of_mul_lt n b 0 hb h
        omega
      rw [h0]
      omega
    · have := (blockCount_last n b (blockCount n b - 1) hb (by omega)).2
      have h1 : blockCount n b - 1 + 1 = blockCount n b := by omega
      rw [h1] at this
      rw [Nat.succ_mul]
      omega

theorem CalculateTotalBlocks_nat (n b : Nat) (hb : 0 < b) :
    CalculateTotalBlocks n b = .ok (blockCount n b : Int) := by
  unfold CalculateTotalBlocks blockCount
  have hb0 : (b : Int) ≠ 0 := by omega
  rw [if_neg hb0]
  have hdiv : (n : Int).tdiv b = ((n / b : Nat) : Int) := by
    rw [Int.tdiv_eq_ediv (by omega) (by omega)]
    norm_cast
  have hmod : (n : Int).tmod b = ((n % b : Nat) : Int) := by
    rw [Int.tmod_eq_emod (by omega) (by omega)]
    norm_cast
  simp only [hdiv, hmod]
  by_cases hr : n % b = 0
  · have : ¬ ((n % b : Nat) : Int) ≠ 0 := by omega
    rw [if_neg this, if_pos hr]
    rfl
  · have : ((n % b : Nat) : Int) ≠ 0 := by omega
    rw [if_pos this, if_neg hr]
    rfl

theorem blockCount_zero (b : Nat) : blockCount 0 b = 0 := by
  simp [blockCount]

theorem blockCount_step (n b : Nat) (hb : 0 < b) (hn : 0 < n) :
    blockCount n b = blockCount (n - b) b + 1 := by
  by_cases hle : b ≤ n
  · unfold blockCount
    rw [Nat.div_eq_sub_div hb hle, Nat.mod_eq_sub_mod hle]
    omega
  · have h0 : n - b = 0 := by omega
    rw [h0, blockCount_zero]
    unfold blockCount
    rw [Nat.div_eq_of_lt (by omega), Nat.mod_eq_of_lt (by omega), if_neg (by omega)]

theorem readBlocksChecksums_eq (lib : Library) (b : Nat) (hb : 0 < b) (fuel : Nat) :
    ∀ rest : List UInt8, rest.length < fuel →
      readBlocksChecksums lib b fuel rest =
        some ((List.range (blockCount rest.length b)).map
          (fun i => CalculateBlockChecksum lib (blockBytes rest b i))) := by
  induction fuel with
  | zero =>
    intro rest h
    omega
  | succ fuel ih =>
    intro rest h
    unfold readBlocksChecksums
    rw [if_neg (by omega)]
    by_cases hrest : rest = []
    · rw [if_pos hrest, hrest]
      simp [blockCount_zero]
    · rw [if_neg hrest]
      have hpos : 0 < rest.length := List.length_pos.mpr hrest
      rw [ih (rest.drop b) (by rw [List.length_drop]; omega), List.length_drop,
        blockCount_step rest.length b hb hpos, List.range_succ_eq_map]
      simp only [Option.map_some', List.map_cons, List.map_map]
      congr 2
      · simp [blockBytes]
      · apply List.map_congr_left
        intro i _
        simp only [Function.comp, blockBytes, List.drop_drop]
        congr 3
        rw [Nat.succ_mul]
        omega

theorem generateBlocks_eq (fileSize blockSize totalBlocks : Int) (blockChecksums : List String)
    (g : Nat → BlockInfo) (l : List Nat)
    (h : ∀ i ∈ l, generateBlock fileSize blockSize totalBlocks blockChecksums i = .ok (g i)) :
    generateBlocks fileSize blockSize totalBlocks blockChecksums l = .ok (l.map g) := by
  induction l with
  | nil => rfl
  | cons i rest ih =>
    unfold generateBlocks
    rw [h i (List.mem_cons_self _ _), ih (fun j hj => h j (List.mem_cons_of_mem _ hj))]
    rfl

theorem generateBlock_eq (n b : Nat) (hb : 0 < b) (hn : n < 2 ^ 63) (blockChecksums : List String)
    (i : Nat) (hi : i < blockCount n b) (hash : String) (hh : blockChecksums[i]? = some hash) :
    generateBlock n b (blockCount n b) blockChecksums i = .ok (generatedBlock n b hash i) := by
  have hlt := blockCount_mul_lt n b i hb hi
  have hmul : mulInt64 i b = (i : Int) * b := by
    apply mulInt64_of_bounds
    · positivity
    · have : ((i * b : Nat) : Int) < 2 ^ 63 := by omega
      push_cast at this
      exact this
  unfold generateBlock generatedBlock
  rw [hh, hmul]
  simp only
  by_cases hlast : i + 1 = blockCount n b
  · have hl := blockCount_last n b i hb hlast
    have h1 : (i : Int) = (blockCount n b : Int) - 1 := by omega
    rw [if_pos h1, if_pos hlast]
    have h2 : ((n : Int) - (i : Int) * b) ≤ b := by
      have : ((n : Nat) : Int) ≤ (((i + 1) * b : Nat) : Int) := by exact_mod_cast hl.2
      push_cast at this
      linarith
    by_cases h3 : (n : Int) - (i : Int) * b < b
    · rw [if_pos h3]
    · rw [if_neg h3]
      have : (n : Int) - (i : Int) * b = b := by omega
      rw [this]
  · have h1 : ¬ (i : Int) = (blockCount n b : Int) - 1 := by omega
    rw [if_neg h1, if_neg hlast]

/-- Go `GenerateFromFile` returns, on a readable file and for a positive block
size, once the fuel exceeds the length of the file. -/
theorem GenerateFromFile_eq (lib : Library) (bytes : List UInt8) (fileName : String) (b : Nat)
    (fuel : Nat) (hb : 0 < b) (hn : bytes.length < 2 ^ 63) (hfuel : bytes.length < fuel) :
    GenerateFromFile lib { content := some bytes, openErr := none } fileName b fuel =
      some (.ok (generatedMetadata lib bytes fileName b)) := by
  unfold GenerateFromFile
  simp only [GetFileSize, CalculateTotalBlocks_nat bytes.length b hb, CalculateFileChecksum,
    File.openRead, CalculateFileBlocksChecksums]
  have hneg : ¬ (b : Int) < 0 := by omega
  rw [if_neg hneg, Int.toNat_ofNat, readBlocksChecksums_eq lib b hb fuel bytes hfuel]
  simp only [Option.map_some']
  have hneg2 : ¬ (blockCount bytes.length b : Int) < 0 := by omega
  rw [if_neg hneg2, Int.toNat_ofNat]
  rw [generateBlocks_eq _ _ _ _
    (fun i => generatedBlock bytes.length b (CalculateBlockChecksum lib (blockBytes bytes b i)) i)]
  · rfl
  · intro i hi
    rw [List.mem_range] at hi
    apply generateBlock_eq bytes.length b hb hn _ i hi
    rw [List.getElem?_map, List.getElem?_range hi]
    rfl

theorem getElem?_generatedMetadata (lib : Library) (bytes : List UInt8) (fileName : String)
    (b i : Nat) (hi : i < blockCount bytes.length b) :
    (generatedMetadata lib bytes fileName b).Blocks[i]? =
      some (generatedBlock bytes.length b (CalculateBlockChecksum lib (blockBytes bytes b i)) i)
    := by
  simp only [generatedMetadata]
  rw [List.getElem?_map, List.getElem?_range hi]
  rfl

theorem sum_sizes_generated (n b : Nat) (hb : 0 < b) (hash : Nat → String) (k : Nat)
    (hk : k ≤ blockCount n b) :
    (((List.range k).map (fun i => generatedBlock n b (hash i) i)).map (fun x => x.Size)).sum =
      if k = blockCount n b then (n : Int) else (k : Int) * b := by
  induction k with
  | zero =>
    by_cases h0 : 0 = blockCount n b
    · rw [if_pos h0]
      have hn : n = 0 := by
        by_contra hne
        have := lt_blockCount_of_mul_lt n b 0 hb (by omega)
        omega
      simp [hn]
    · rw [if_neg h0]
      simp
  | succ k ih =>
    have ihk := ih (by omega)
    rw [if_neg (by omega)] at ihk
    rw [List.range_succ, List.map_append, List.map_append, List.sum_append, ihk]
    simp only [List.map_cons, List.map_nil, List.sum_cons, List.sum_nil, generatedBlock]
    by_cases hlast : k + 1 = blockCount n b
    · rw [if_pos hlast, if_pos hlast]
      omega
    · rw [if_neg hlast, if_neg hlast]
      push_cast
      ring

/-- C20: for a readable file of any size and a positive block size,
`GenerateFromFile` returns metadata in which the block count is
`ceil(file_size / block_size)` and the length of the block list, block `i` has
id `i` and offset `i * block_size`, each block starts where the one before it
ends, every size is positive and at most the block size, only the last block
is smaller, and the sizes sum to the file size. -/
theorem C20_generated_metadata_invariant (lib : Library) (bytes : List UInt8)
    (fileName : String) (blockSize : Int) (fuel : Nat) (hbs : 0 < blockSize)
    (hn : bytes.length < 2 ^ 63) (hfuel : bytes.length < fuel) :
    ∃ meta : Metadata,
      GenerateFromFile lib { content := some bytes, openErr := none } fileName blockSize fuel =
        some (.ok meta) ∧
      meta.FileSize = bytes.length ∧
      meta.BlockSize = blockSize ∧
      meta.TotalBlocks = (meta.FileSize + blockSize - 1) / blockSize ∧
      (meta.Blocks.length : Int) = meta.TotalBlocks ∧
      (∀ (i : Nat) (block : BlockInfo), meta.Blocks[i]? = some block →
        block.ID = i ∧ block.Offset = i * blockSize ∧ 0 < block.Size ∧
        block.Size ≤ blockSize ∧
        (block.Size < blockSize → (i : Int) + 1 = meta.TotalBlocks) ∧
        (∀ next : BlockInfo, meta.Blocks[i + 1]? = some next →
          next.Offset = block.Offset + block.Size)) ∧
      (meta.Blocks.map (fun block => block.Size)).sum = meta.FileSize := by
  obtain ⟨b, rfl⟩ : ∃ b : Nat, blockSize = (b : Int) := ⟨blockSize.toNat, by omega⟩
  have hb : 0 < b := by omega
  refine ⟨generatedMetadata lib bytes fileName b,
    GenerateFromFile_eq lib bytes fileName b fuel hb hn hfuel, rfl, rfl, ?_, ?_, ?_, ?_⟩
  · simp only [generatedMetadata]
    rw [blockCount_eq_ceil bytes.length b hb]
    have h1 : ((bytes.length + b - 1 : Nat) : Int) = (bytes.length : Int) + b - 1 := by omega
    rw [← h1]
    norm_cast
  · simp [generatedMetadata]
  · intro i block hblock
    have hi : i < blockCount bytes.length b := by
      have := (List.getElem?_eq_some.mp hblock).1
      simpa [generatedMetadata] using this
    rw [getElem?_generatedMetadata lib bytes fileName b i hi] at hblock
    cases hblock
    have hlt := blockCount_mul_lt bytes.length b i hb hi
    have hlt' : ((i * b : Nat) : Int) < bytes.length := by exact_mod_cast hlt
    push_cast at hlt'
    refine ⟨rfl, rfl, ?_, ?_, ?_, ?_⟩
    · simp only [generatedBlock]
      split_ifs <;> omega
    · simp only [generatedBlock]
      split_ifs with hlast
      · have hl := (blockCount_last bytes.length b i hb hlast).2
        have hl' : ((bytes.length : Nat) : Int) ≤ (((i + 1) * b : Nat) : Int) := by
          exact_mod_cast hl
        push_cast at hl'
        linarith
      · exact le_refl _
    · simp only [generatedBlock, generatedMetadata]
      split_ifs with hlast
      · intro _
        exact_mod_cast hlast
      · intro h
        omega
    · intro next hnext
      have hi1 : i + 1 < blockCount bytes.length b := by
        have := (List.getElem?_eq_some.mp hnext).1
        simpa [generatedMetadata] using this
      rw [getElem?_generatedMetadata lib bytes fileName b (i + 1) hi1] at hnext
      cases hnext
      simp only [generatedBlock]
      rw [if_neg (by omega)]
      push_cast
      ring
  · have := sum_sizes_generated bytes.length b hb
      (fun i => CalculateBlockChecksum lib (blockBytes bytes b i)) (blockCount bytes.length b)
      (le_refl _)
    rw [if_pos rfl] at this
    exact this

/-- Witness of C20: the bytes 1 to 9 in blocks of 4 give 3 blocks at the
offsets 0, 4, 8 with the sizes 4, 4, 1. -/
theorem C20_generated_metadata_invariant_witness :
    ∃ meta : Metadata,
      GenerateFromFile (tableLibrary []) nineBytes "nine.bin" 4 10 = some (.ok meta) ∧
      meta.FileSize = ([1, 2, 3, 4, 5, 6, 7, 8, 9] : List UInt8).length ∧
      meta.BlockSize = 4 ∧
      meta.TotalBlocks = (meta.FileSize + 4 - 1) / 4 ∧
      (meta.Blocks.length : Int) = meta.TotalBlocks ∧
      (∀ (i : Nat) (block : BlockInfo), meta.Blocks[i]? = some block →
        block.ID = i ∧ block.Offset = i * 4 ∧ 0 < block.Size ∧
        block.Size ≤ 4 ∧
        (block.Size < 4 → (i : Int) + 1 = meta.TotalBlocks) ∧
        (∀ next : BlockInfo, meta.Blocks[i + 1]? = some next →
          next.Offset = block.Offset + block.Size)) ∧
      (meta.Blocks.map (fun block => block.Size)).sum = meta.FileSize :=
  C20_generated_metadata_invariant (tableLibrary []) [1, 2, 3, 4, 5, 6, 7, 8, 9] "nine.bin" 4 10
    (by decide) (by decide) (by decide)

/-! ## The server's handlers -/

theorem readFull_output (c : Conn) (n : Nat) : (c.readFull n).2.output = c.output := by
  unfold Conn.readFull
  split_ifs <;> rfl

theorem binaryReadUint32_output (c : Conn) : (binaryReadUint32 c).2.output = c.output := by
  unfold binaryReadUint32
  have h := readFull_output c 4
  split <;> simp_all

/-- Go `ReceiveMessage` writes nothing. -/
theorem ReceiveMessage_output (lib : Library) (conn : Conn) :
    (ReceiveMessage lib conn).2.output = conn.output := by
  unfold ReceiveMessage
  have h1 := binaryReadUint32_output conn
  split
  · next err c heq =>
    rw [heq] at h1
    exact h1
  · next size c heq =>
    rw [heq] at h1
    split_ifs
    · exact h1
    · have h2 := readFull_output c size
      split
      · next err c2 heq2 =>
        rw [heq2] at h2
        simp only at h2 ⊢
        rw [h2]
        exact h1
      · next data c2 heq2 =>
        rw [heq2] at h2
        split <;> simp only <;> rw [h2] <;> exact h1

/-- C12: for a block id that is not available, whatever the id and the state,
`handleRequestBlock` leaves the connection as one `SendMessage` of an
`ErrorMsg` leaves it (on a connection that accepts writes, the frame of that
message is what is added to the output), the file plays no part in the result,
and the loop of `handleConnection` goes on to its next iteration. -/
theorem C12_unavailable_block (lib : Library) (s : Server) (conn : Conn) (blockID : Int)
    (havail : s.blockManager.IsBlockAvailable blockID = false) :
    s.handleRequestBlock lib conn blockID =
      .ok (SendMessage conn
        (.error (NewError ("Bloco " ++ formatInt blockID ++ " não disponível")))).2 ∧
    (conn.writeErr = none →
      ∃ out, s.handleRequestBlock lib conn blockID = .ok out ∧
        out.output = conn.output ++
          putUint32 ((Message.error
            (NewError ("Bloco " ++ formatInt blockID ++ " não disponível"))).payload.length
              % 2 ^ 32) ++
          (Message.error
            (NewError ("Bloco " ++ formatInt blockID ++ " não disponível"))).payload) ∧
    (∀ file : File,
      ({ s with file := file } : Server).handleRequestBlock lib conn blockID =
        s.handleRequestBlock lib conn blockID) ∧
    (∀ (conn0 : Conn) (msgData : FieldBag) (m : RequestBlockMsg),
      ReceiveMessage lib conn0 = (.ok msgData, conn) →
      ParseMessage lib msgData = .ok (.requestBlock m) → m.BlockID = blockID →
      s.handleConnectionStep lib conn0 =
        .ok (.next (SendMessage conn
          (.error (NewError ("Bloco " ++ formatInt blockID ++ " não disponível")))).2)) := by
  have h1 : ∀ file : File, ({ s with file := file } : Server).handleRequestBlock lib conn blockID =
      .ok (SendMessage conn
        (.error (NewError ("Bloco " ++ formatInt blockID ++ " não disponível")))).2 := by
    intro file
    unfold Server.handleRequestBlock
    simp only [havail, Bool.not_false, if_true]
  have h2 := h1 s.file
  refine ⟨h2, ?_, ?_, ?_⟩
  · intro hw
    refine ⟨_, h2, ?_⟩
    rw [SendMessage_of_writable conn _ hw]
  · intro file
    rw [h1 file, h2]
  · intro conn0 msgData m hrecv hparse hid
    unfold Server.handleConnectionStep
    rw [hrecv]
    simp only [hparse, hid]
    rw [h2]

/-- Witness of C12: a server that holds no block is asked for block 0 on a
fresh connection. -/
theorem C12_unavailable_block_witness :
    emptyServer.handleRequestBlock (tableLibrary []) (Conn.delivering []) 0 =
      .ok (SendMessage (Conn.delivering [])
        (.error (NewError ("Bloco " ++ formatInt 0 ++ " não disponível")))).2 :=
  (C12_unavailable_block (tableLibrary []) emptyServer (Conn.delivering []) 0 (by decide)).1

/-- The text of the error message for block 0. -/
theorem unavailable_text_sample :
    "Bloco " ++ formatInt 0 ++ " não disponível" = "Bloco 0 não disponível" := by
  decide

theorem ReadBlockFromFile_ok (file : File) (bytes : List UInt8) (blockID blockSize : Int)
    (hread : file.openRead = .ok bytes) (hoff : 0 ≤ mulInt64 blockID blockSize)
    (hsize : 0 ≤ blockSize) :
    ReadBlockFromFile file blockID blockSize =
      .ok ((bytes.drop (mulInt64 blockID blockSize).toNat).take blockSize.toNat) := by
  unfold ReadBlockFromFile
  rw [hread]
  simp only
  rw [if_neg (by omega), if_neg (by omega)]

/-- C13, as the code has it: for an available block id in the range of the
metadata, with a readable file, a block size and an offset
`blockID * BlockSize` that are not negative, the server's response is
`BlockData(id, bytes, digest)` where `bytes` are the up to `BlockSize` bytes of
the file from that offset on and `digest` is their digest, whatever digest the
metadata records; those bytes are the recorded range when the descriptor
records that offset and the size `min(BlockSize, file length - offset)`. -/
theorem C13_block_response (lib : Library) (s : Server) (conn : Conn) (blockID : Int)
    (bytes : List UInt8) (block : BlockInfo)
    (havail : s.blockManager.IsBlockAvailable blockID = true)
    (hread : s.file.openRead = .ok bytes)
    (hoff : 0 ≤ mulInt64 blockID s.metadata.BlockSize)
    (hsize : 0 ≤ s.metadata.BlockSize)
    (hblock : s.metadata.GetBlock blockID = .ok block) :
    s.handleRequestBlock lib conn blockID =
      .ok (SendMessage conn (.blockData (NewBlockData blockID
        (some ((bytes.drop (mulInt64 blockID s.metadata.BlockSize).toNat).take
          s.metadata.BlockSize.toNat))
        (CalculateBlockChecksum lib
          ((bytes.drop (mulInt64 blockID s.metadata.BlockSize).toNat).take
            s.metadata.BlockSize.toNat))))).2 ∧
    (block.Offset = mulInt64 blockID s.metadata.BlockSize →
      block.Size = min s.metadata.BlockSize ((bytes.length : Int) - block.Offset) →
      (bytes.drop (mulInt64 blockID s.metadata.BlockSize).toNat).take s.metadata.BlockSize.toNat
        = (bytes.drop block.Offset.toNat).take block.Size.toNat) := by
  constructor
  · unfold Server.handleRequestBlock
    simp only [havail, Bool.not_true, Bool.false_eq_true, if_false]
    rw [ReadBlockFromFile_ok s.file bytes blockID _ hread hoff hsize]
    simp only [hblock]
  · intro hO hS
    rw [← hO]
    by_cases hle : s.metadata.BlockSize ≤ (bytes.length : Int) - block.Offset
    · rw [min_eq_left hle] at hS
      rw [hS]
    · rw [min_eq_right (by omega)] at hS
      rw [hS]
      apply List.ext_getElem?
      intro i
      rw [List.getElem?_take, List.getElem?_take]
      by_cases hi : i < ((bytes.length : Int) - block.Offset).toNat
      · rw [if_pos hi, if_pos (by omega)]
      · rw [if_neg hi]
        split_ifs
        · rw [List.getElem?_drop]
          apply List.getElem?_eq_none
          omega
        · rfl

/-- Witness of C13: the server whose file grew is asked for block 0. -/
theorem C13_block_response_witness :
    grownServer.handleRequestBlock (tableLibrary []) (Conn.delivering []) 0 =
      .ok (SendMessage (Conn.delivering []) (.blockData (NewBlockData 0
        (some ((([1, 2, 3, 4] : List UInt8).drop
          (mulInt64 0 grownServer.metadata.BlockSize).toNat).take
            grownServer.metadata.BlockSize.toNat))
        (CalculateBlockChecksum (tableLibrary [])
          ((([1, 2, 3, 4] : List UInt8).drop
            (mulInt64 0 grownServer.metadata.BlockSize).toNat).take
              grownServer.metadata.BlockSize.toNat))))).2 :=
  (C13_block_response (tableLibrary []) grownServer (Conn.delivering []) 0 [1, 2, 3, 4]
    { ID := 0, Offset := 0, Size := 2, Hash := "sha256:03" } (by decide) (by rfl) (by decide)
    (by decide) (by decide)).1

/-- C13 as stated fails: metadata generated from the 2 bytes 1, 2 records the
range `[0, 2)` for block 0; with a file that now holds 1, 2, 3, 4 the server
answers with the 4 bytes 1, 2, 3, 4 and their digest. -/
theorem C13_counterexample :
    grownServer.metadata.Blocks = [{ ID := 0, Offset := 0, Size := 2, Hash := "sha256:03" }] ∧
    grownServer.handleRequestBlock (tableLibrary []) (Conn.delivering []) 0 =
      .ok (SendMessage (Conn.delivering [])
        (.blockData (NewBlockData 0 (some [1, 2, 3, 4]) "sha256:0a"))).2 := by
  decide

theorem BlockMap.isMap_set (m : BlockMap) (k : Int) (h : m.IsMap) : (m.set k true).IsMap :=
  ⟨BlockMap.nodup_keys_set m k true h.1, BlockMap.allTrue_set m k h.2⟩

theorem BlockMap.isMap_foldl_set (l : List Int) (m : BlockMap) (h : m.IsMap) :
    (l.foldl (fun m i => m.set i true) m).IsMap := by
  induction l generalizing m with
  | nil => exact h
  | cons a l ih => exact ih _ (BlockMap.isMap_set m a h)

theorem BlockManager.isMap_apply (bm : BlockManager) (op : TrackerOp)
    (h : bm.availableBlocks.IsMap) : (bm.apply op).availableBlocks.IsMap := by
  cases op with
  | markBlockAvailable id =>
    simp only [BlockManager.apply, BlockManager.availableBlocks_MarkBlockAvailable]
    exact BlockMap.isMap_set _ _ h
  | markAllBlocksAvailable => exact BlockMap.isMap_foldl_set _ _ h
  | _ => exact h

theorem BlockManager.isMap_run (bm : BlockManager) (ops : List TrackerOp)
    (h : bm.availableBlocks.IsMap) : (bm.run ops).availableBlocks.IsMap := by
  induction ops generalizing bm with
  | nil => exact h
  | cons a l ih =>
    simp only [BlockManager.run, List.foldl_cons] at ih ⊢
    exact ih _ (BlockManager.isMap_apply bm a h)

theorem BlockManager.isMap_new (total : Int) : (NewBlockManager total).availableBlocks.IsMap :=
  ⟨by simp [NewBlockManager, BlockMap.keys], by simp [NewBlockManager, BlockMap.AllTrue]⟩

/-- C14: in every state the tracker's operations reach, the server's response
to `RequestInfo` is one `PeerInfo` message whose id list holds no id twice and
holds exactly the available ids, and whose total is the tracker's total; the
two accessors the handler calls leave the tracker as it is. -/
theorem C14_info_response (total : Int) (ops : List TrackerOp) (metadata : Metadata)
    (file : File) (conn : Conn) :
    ∃ ids : List Int,
      ({ blockManager := (NewBlockManager total).run ops, metadata := metadata, file := file }
        : Server).handleRequestInfo conn =
        (SendMessage conn (.peerInfo (NewPeerInfo (some ids)
          ((NewBlockManager total).run ops).GetTotalBlocks))).2 ∧
      ids.Nodup ∧
      (∀ id : Int, id ∈ ids ↔ ((NewBlockManager total).run ops).IsBlockAvailable id = true) ∧
      ((NewBlockManager total).run ops).GetTotalBlocks = total ∧
      ((NewBlockManager total).run ops).run [.getAvailableBlocks, .getTotalBlocks] =
        (NewBlockManager total).run ops := by
  have hmap := BlockManager.isMap_run (NewBlockManager total) ops (BlockManager.isMap_new total)
  refine ⟨((NewBlockManager total).run ops).GetAvailableBlocks, rfl, hmap.1, ?_, ?_, rfl⟩
  · intro id
    constructor
    · intro hid
      exact BlockMap.get_of_mem_keys _ _ hmap.2 hid
    · intro hid
      exact BlockMap.mem_keys_of_get _ _ hid
  · exact BlockManager.totalBlocks_run _ _

/-- The response to `RequestInfo` of a tracker of 3 blocks that holds 2 and 0. -/
theorem handleRequestInfo_sample :
    (({ blockManager := (NewBlockManager 3).markAll [2, 0, 2],
        metadata := shortMetadata, file := nineBytes } : Server).handleRequestInfo
      (Conn.delivering [])).output =
      putUint32 62 ++ asciiBytes ("\x7b\"type\":\"PEER_INFO\",\"available_blocks\":[2,0]," ++
        "\"total_blocks\":3\x7d") := by
  decide

/-- C15, as the code has it: when `ReceiveMessage` returns a field bag that
`ParseMessage` rejects, or that parses to a `BlockData`, `PeerInfo` or `Error`
message, the body of the loop sends one `ErrorMsg` and goes on to the next
iteration; when `ReceiveMessage` returns an error, whichever it is, the handler
returns and has written nothing. -/
theorem C15_decode_failures (lib : Library) (s : Server) (conn : Conn) :
    (∀ (msgData : FieldBag) (conn1 : Conn) (err : GoError),
      ReceiveMessage lib conn = (.ok msgData, conn1) → ParseMessage lib msgData = .error err →
      s.handleConnectionStep lib conn =
        .ok (.next (SendMessage conn1
          (.error (NewError ("Erro ao parsear mensagem: " ++ err.Error)))).2)) ∧
    (∀ (msgData : FieldBag) (conn1 : Conn) (msg : Message),
      ReceiveMessage lib conn = (.ok msgData, conn1) → ParseMessage lib msgData = .ok msg →
      ((∃ m, msg = .blockData m) ∨ (∃ m, msg = .peerInfo m) ∨ (∃ m, msg = .error m)) →
      s.handleConnectionStep lib conn =
        .ok (.next (SendMessage conn1
          (.error (NewError "Tipo de mensagem não suportado"))).2)) ∧
    (∀ (err : GoError) (conn1 : Conn),
      ReceiveMessage lib conn = (.error err, conn1) →
      s.handleConnectionStep lib conn = .ok (.done conn1) ∧ conn1.output = conn.output) := by
  refine ⟨?_, ?_, ?_⟩
  · intro msgData conn1 err hrecv hparse
    unfold Server.handleConnectionStep
    rw [hrecv]
    simp only [hparse]
  · intro msgData conn1 msg hrecv hparse hshape
    unfold Server.handleConnectionStep
    rw [hrecv]
    rcases hshape with ⟨m, rfl⟩ | ⟨m, rfl⟩ | ⟨m, rfl⟩ <;> simp only [hparse]
  · intro err conn1 hrecv
    have hout := ReceiveMessage_output lib conn
    rw [hrecv] at hout
    refine ⟨?_, hout⟩
    unfold Server.handleConnectionStep
    rw [hrecv]

/-- Witness of C15: a frame with the discriminant `PING` is answered with an
`ErrorMsg`, and so is a `BlockData` frame; the loop goes on after both. -/
theorem C15_decode_failures_witness :
    emptyServer.handleConnectionStep (tableLibrary [pingMessage])
      (Conn.deliveringFrame pingMessage) =
        .ok (.next (SendMessage (Conn.delivering [])
          (.error (NewError ("Erro ao parsear mensagem: " ++
            (GoError.errorf "tipo de mensagem desconhecido: %s").Error)))).2) ∧
    emptyServer.handleConnectionStep (tableLibrary [.blockData goodBlockData])
      (Conn.deliveringFrame (.blockData goodBlockData)) =
        .ok (.next (SendMessage (Conn.delivering [])
          (.error (NewError "Tipo de mensagem não suportado"))).2) :=
  ⟨(C15_decode_failures (tableLibrary [pingMessage]) emptyServer
      (Conn.deliveringFrame pingMessage)).1
      [("type", .string "PING"),
        ("document", .slice (pingMessage.payload.map (fun b => GoValue.float64 b.toNat)))]
      (Conn.delivering []) (.errorf "tipo de mensagem desconhecido: %s") (by rfl) (by rfl),
    (C15_decode_failures (tableLibrary [.blockData goodBlockData]) emptyServer
      (Conn.deliveringFrame (.blockData goodBlockData))).2.1
      [("type", .string MsgTypeBlockData),
        ("document", .slice ((Message.blockData goodBlockData).payload.map
          (fun b => GoValue.float64 b.toNat)))]
      (Conn.delivering []) (.blockData goodBlockData) (by rfl) (by rfl)
      (Or.inl ⟨goodBlockData, rfl⟩)⟩

/-- C15 as stated fails: a frame that is received in full and whose payload is
the text `not json` ends the handler, and no `ErrorMsg` is written; so does the
4-byte prefix of a size above 16 MiB, with any decoder. -/
theorem C15_counterexample :
    emptyServer.handleConnectionStep (tableLibrary [])
      (Conn.delivering ([0, 0, 0, 8] ++ asciiBytes "not json")) =
        .ok (.done (Conn.delivering [])) ∧
    (∀ lib : Library,
      emptyServer.handleConnectionStep lib (Conn.delivering [1, 0, 0, 1, 123, 125]) =
        .ok (.done (Conn.delivering [123, 125]))) := by
  constructor
  · rfl
  · intro lib
    unfold Server.handleConnectionStep
    rw [ReceiveMessage_too_large lib (Conn.delivering [1, 0, 0, 1, 123, 125]) 16777217
      [123, 125] (by decide) (by decide) rfl]
    rfl

/-! ## The peer's mode -/

/-- An event leaves the mode as it is, or it is the run of
`waitForDownloadCompletion` with no task running and a file that validates. -/
theorem Peer.mode_apply_cases (lib : Library) (p : Peer) (e : PeerEvent) :
    (p.apply lib e).Mode = p.Mode ∨
      (p.running = 0 ∧ p.validateFile lib = none ∧
        p.apply lib e = { p with Mode := ModeSeeder, watchers := p.watchers - 1 }) := by
  cases e with
  | start listenErr =>
    left
    by_cases hc : p.crashed = true
    · simp [Peer.apply, hc]
    · cases listenErr with
      | some err => simp [Peer.apply, hc]
      | none =>
        by_cases hm : p.Mode = ModeLeecher ∧ p.hasClient = true
        · simp [Peer.apply, hc, hm]
        · simp only [Peer.apply, hc, Bool.false_eq_true, if_false]
          rw [if_neg hm]
  | task nb fuel =>
    left
    by_cases hc : p.crashed = true ∨ p.running = 0
    · simp only [Peer.apply]
      rw [if_pos hc]
    · simp only [Peer.apply]
      rw [if_neg hc]
      cases p.shared.downloadFromNeighbor lib nb fuel with
      | none => rfl
      | some r =>
        cases r <;> rfl
  | waitForDownloadCompletion =>
    by_cases hc : p.crashed = true ∨ p.watchers = 0 ∨ p.running ≠ 0
    · left
      simp only [Peer.apply]
      rw [if_pos hc]
    · simp only [Peer.apply]
      rw [if_neg hc]
      cases hv : p.validateFile lib with
      | some err => exact Or.inl rfl
      | none =>
        right
        exact ⟨by omega, rfl, rfl⟩
  | stop =>
    left
    by_cases hc : p.crashed = true
    · simp [Peer.apply, hc]
    · by_cases hs : p.stopped = true
      · simp [Peer.apply, hc, hs]
      · simp [Peer.apply, hc, hs]
  | wait => exact Or.inl rfl
  | getProgress => exact Or.inl rfl
  | isDownloadComplete => exact Or.inl rfl
  | getStats => exact Or.inl rfl

/-- An event leaves the mode as it is or makes it `seeder`. -/
theorem Peer.mode_apply (lib : Library) (p : Peer) (e : PeerEvent) :
    (p.apply lib e).Mode = p.Mode ∨ (p.apply lib e).Mode = ModeSeeder := by
  rcases Peer.mode_apply_cases lib p e with h | ⟨_, _, h⟩
  · exact Or.inl h
  · right
    rw [h]

theorem Peer.seeder_apply (lib : Library) (p : Peer) (e : PeerEvent)
    (h : p.Mode = ModeSeeder) : (p.apply lib e).Mode = ModeSeeder := by
  rcases Peer.mode_apply lib p e with h1 | h1
  · rw [h1, h]
  · exact h1

theorem Peer.seeder_states (lib : Library) (events : List PeerEvent) (p : Peer)
    (h : p.Mode = ModeSeeder) : ∀ q ∈ p.states lib events, q.Mode = ModeSeeder := by
  induction events generalizing p with
  | nil =>
    intro q hq
    simp only [Peer.states, List.mem_singleton] at hq
    rw [hq, h]
  | cons e rest ih =>
    intro q hq
    simp only [Peer.states, List.mem_cons] at hq
    rcases hq with hq | hq
    · rw [hq, h]
    · exact ih _ (Peer.seeder_apply lib p e h) q hq

theorem Peer.states_eq_cons (lib : Library) (events : List PeerEvent) (p : Peer) :
    ∃ tail, p.states lib events = p :: tail := by
  cases events with
  | nil => exact ⟨[], rfl⟩
  | cons e rest => exact ⟨_, rfl⟩

theorem Peer.modeChanges_seeder (lib : Library) (events : List PeerEvent) (p : Peer)
    (h : p.Mode = ModeSeeder) :
    modeChanges ((p.states lib events).map (fun q => q.Mode)) = 0 := by
  induction events generalizing p with
  | nil => rfl
  | cons e rest ih =>
    have h' := Peer.seeder_apply lib p e h
    obtain ⟨tail, ht⟩ := Peer.states_eq_cons lib rest (p.apply lib e)
    have := ih _ h'
    simp only [Peer.states, List.map_cons, ht, modeChanges] at this ⊢
    rw [this, h, h']
    simp

theorem Peer.modeChanges_le_one (lib : Library) (events : List PeerEvent) (p : Peer) :
    modeChanges ((p.states lib events).map (fun q => q.Mode)) ≤ 1 := by
  induction events generalizing p with
  | nil => simp [Peer.states, modeChanges]
  | cons e rest ih =>
    obtain ⟨tail, ht⟩ := Peer.states_eq_cons lib rest (p.apply lib e)
    have hle := ih (p.apply lib e)
    rcases Peer.mode_apply lib p e with h1 | h1
    · simp only [Peer.states, List.map_cons, ht, modeChanges] at hle ⊢
      rw [h1] at hle ⊢
      rw [if_pos rfl]
      omega
    · have h0 := Peer.modeChanges_seeder lib rest _ h1
      simp only [Peer.states, List.map_cons, ht, modeChanges] at h0 ⊢
      rw [h0]
      split_ifs <;> omega

theorem Peer.seeder_stays (lib : Library) (events : List PeerEvent) (p : Peer) (i j : Nat)
    (q1 q2 : Peer) (hij : i ≤ j) (h1 : (p.states lib events)[i]? = some q1)
    (h2 : (p.states lib events)[j]? = some q2) (hs : q1.Mode = ModeSeeder) :
    q2.Mode = ModeSeeder := by
  induction events generalizing p i j with
  | nil =>
    simp only [Peer.states] at h1 h2
    have hi : i = 0 := by
      by_contra hne
      rw [List.getElem?_eq_none (by simp; omega)] at h1
      cases h1
    have hj : j = 0 := by
      by_contra hne
      rw [List.getElem?_eq_none (by simp; omega)] at h2
      cases h2
    subst hi hj
    rw [h1] at h2
    cases h2
    exact hs
  | cons e rest ih =>
    simp only [Peer.states] at h1 h2
    cases i with
    | zero =>
      simp only [List.getElem?_cons_zero, Option.some.injEq] at h1
      subst h1
      have hall := Peer.seeder_states lib (e :: rest) p hs
      apply hall
      simp only [Peer.states]
      exact (List.getElem?_eq_some.mp h2).2 ▸ List.getElem_mem _
    | succ i =>
      cases j with
      | zero => omega
      | succ j =>
        simp only [List.getElem?_cons_succ] at h1 h2
        exact ih _ i j (by omega) h1 h2

/-- C16: along every list of lifecycle events, from every peer, the mode
changes at most once, and a state in which the mode is `seeder` is followed by
states in which it is `seeder` only; `NewPeer` gives the peer the mode of its
configuration. -/
theorem C16_mode_changes_once (lib : Library) (p : Peer) (events : List PeerEvent) :
    modeChanges ((p.states lib events).map (fun q => q.Mode)) ≤ 1 ∧
    (∀ (i j : Nat) (q1 q2 : Peer), i ≤ j → (p.states lib events)[i]? = some q1 →
      (p.states lib events)[j]? = some q2 → q1.Mode = ModeSeeder → q2.Mode = ModeSeeder) ∧
    (∀ (config : PeerConfig) (q : Peer), NewPeer config = .ok q → q.Mode = config.Mode) := by
  refine ⟨Peer.modeChanges_le_one lib events p, ?_, ?_⟩
  · intro i j q1 q2 hij h1 h2 hs
    exact Peer.seeder_stays lib events p i j q1 q2 hij h1 h2 hs
  · intro config q hq
    unfold NewPeer at hq
    cases hl : config.loaded with
    | error err =>
      rw [hl] at hq
      cases hq
    | ok meta =>
      rw [hl] at hq
      simp only at hq
      split_ifs at hq
      · cases hc : config.file.content with
        | none =>
          rw [hc] at hq
          cases hq
        | some bytes =>
          rw [hc] at hq
          cases hq
          rfl
      · cases hc : createEmptyFile meta.FileSize with
        | error err =>
          rw [hc] at hq
          cases hq
        | ok file =>
          rw [hc] at hq
          cases hq
          rfl

/-- C17, as the code has it: an event that takes a peer from `leecher` to
`seeder` is the run of `waitForDownloadCompletion`, no downloader task is
running then, and `validateFile` has returned no error; and when
`validateFile` returns an error no event changes the mode. The tracker is not
consulted. -/
theorem C17_flip_conditions (lib : Library) (p : Peer) (e : PeerEvent) :
    (p.Mode = ModeLeecher → (p.apply lib e).Mode = ModeSeeder →
      p.running = 0 ∧ p.validateFile lib = none ∧
      p.apply lib e = { p with Mode := ModeSeeder, watchers := p.watchers - 1 }) ∧
    (p.validateFile lib ≠ none → (p.apply lib e).Mode = p.Mode) := by
  have hne : ModeLeecher ≠ ModeSeeder := by decide
  constructor
  · intro hl hs
    rcases Peer.mode_apply_cases lib p e with h | h
    · rw [h, hl] at hs
      exact absurd hs hne
    · exact h
  · intro hv
    rcases Peer.mode_apply_cases lib p e with h | ⟨_, h, _⟩
    · exact h
    · exact absurd h hv

/-- A downloader task whose neighbor cannot be reached dials 3 times, requests
nothing and returns with the client as it was. -/
theorem downloadFromNeighbor_unreachable (lib : Library) (fuel : Nat) (c : Client) :
    c.downloadFromNeighbor lib unreachableNeighbor fuel =
      some (.ok { client := c, dialed := 3, requested := [] }) := by
  rfl

/-- Witness of C17: the leecher of a file of zero bytes, after `Start` and the
return of its one task, is made a seeder by `waitForDownloadCompletion`, with
no task running and no validation error. -/
theorem C17_flip_conditions_witness :
    ((zeroFilePeer.apply (tableLibrary []) (.start none)).apply (tableLibrary [])
      (.task unreachableNeighbor 1)).running = 0 ∧
    ((zeroFilePeer.apply (tableLibrary []) (.start none)).apply (tableLibrary [])
      (.task unreachableNeighbor 1)).validateFile (tableLibrary []) = none :=
  have h := (C17_flip_conditions (tableLibrary [])
    ((zeroFilePeer.apply (tableLibrary []) (.start none)).apply (tableLibrary [])
      (.task unreachableNeighbor 1)) .waitForDownloadCompletion).1 (by rfl) (by rfl)
  ⟨h.1, h.2.1⟩

/-- C17 as stated fails: the leecher of a file of 6 zero bytes whose one
neighbor cannot be reached downloads nothing; its task returns, the file
`NewPeer` filled with zeros has the size and the digest of the metadata, and
`waitForDownloadCompletion` makes the peer a seeder while the tracker holds 0
of 2 blocks and does not report completion. -/
theorem C17_counterexample :
    NewPeer zeroFileConfig = .ok zeroFilePeer ∧
    zeroFilePeer.Mode = ModeLeecher ∧
    (((zeroFilePeer.apply (tableLibrary []) (.start none)).apply (tableLibrary [])
      (.task unreachableNeighbor 1)).apply (tableLibrary []) .waitForDownloadCompletion).Mode
        = ModeSeeder ∧
    (((zeroFilePeer.apply (tableLibrary []) (.start none)).apply (tableLibrary [])
      (.task unreachableNeighbor 1)).apply (tableLibrary [])
        .waitForDownloadCompletion).shared.blockManager.IsDownloadComplete = false ∧
    (((zeroFilePeer.apply (tableLibrary []) (.start none)).apply (tableLibrary [])
      (.task unreachableNeighbor 1)).apply (tableLibrary [])
        .waitForDownloadCompletion).shared.blockManager.GetAvailableBlocksCount = 0 := by
  refine ⟨by rfl, by rfl, by rfl, by rfl, by rfl⟩

/-- The modes of the leecher of the file of zero bytes through `Start`, the
return of its task, the completion watcher, a second `Start` and `Stop`: one
change. -/
theorem modeChanges_sample :
    (zeroFilePeer.states (tableLibrary [])
      [.start none, .task unreachableNeighbor 1, .waitForDownloadCompletion, .start none,
        .stop]).map (fun q => q.Mode) =
      ["leecher", "leecher", "leecher", "seeder", "seeder", "seeder"] := by
  rfl

/-! ## One exchange between a leecher and a seeder -/

theorem ParseMessage_of_decoders (lib : Library) (msg : Message) (data : FieldBag)
    (jsonData : List UInt8) (hbuilt : msg.Built)
    (h2 : data.lookup "type" = some (.string msg.GetType))
    (h3 : lib.marshalMap data = .ok jsonData)
    (h4 : lib.unmarshalLike msg jsonData = .ok msg) :
    ParseMessage lib data = .ok msg := by
  rw [ParseMessage_of_type lib data _ h2, h3]
  simp only
  cases msg with
  | requestBlock m =>
    have ht : m.MsgType = MsgTypeRequestBlock := hbuilt
    simp only [Message.GetType, ht]
    rw [if_pos trivial]
    exact h4
  | requestInfo m =>
    have ht : m.MsgType = MsgTypeRequestInfo := hbuilt
    simp only [Message.GetType, ht]
    rw [if_pos trivial]
    exact h4
  | blockData m =>
    have ht : m.MsgType = MsgTypeBlockData := hbuilt
    simp only [Message.GetType, ht]
    rw [if_pos trivial]
    exact h4
  | peerInfo m =>
    have ht : m.MsgType = MsgTypePeerInfo := hbuilt
    simp only [Message.GetType, ht]
    rw [if_pos trivial]
    exact h4
  | error m =>
    have ht : m.MsgType = MsgTypeError := hbuilt
    simp only [Message.GetType, ht]
    rw [if_pos trivial]
    exact h4

/-- A message the library carries is received and parsed from a stream that
starts with its frame. -/
theorem receive_of_conveys (lib : Library) (msg : Message) (hbuilt : msg.Built)
    (hc : lib.Conveys msg) (conn : Conn) (more : List UInt8)
    (hin : conn.input = msg.frame ++ more) :
    ∃ data, ReceiveMessage lib conn = (.ok data, { conn with input := more }) ∧
      ParseMessage lib data = .ok msg := by
  obtain ⟨hsize, data, jsonData, h1, h2, h3, h4⟩ := hc
  refine ⟨data, ?_, ParseMessage_of_decoders lib msg data jsonData hbuilt h2 h3 h4⟩
  rw [ReceiveMessage_frame lib conn msg.payload more hsize (by rw [hin]; rfl), h1]

theorem length_lt_of_conveys (lib : Library) (msg : Message) (hc : lib.Conveys msg) :
    msg.payload.length % 2 ^ 32 = msg.payload.length := by
  apply Nat.mod_eq_of_lt
  have := hc.1
  unfold maxMessageSize at this
  omega

/-- What `SendMessage` adds to the output of a connection that accepts
writes. -/
theorem SendMessage_frame (lib : Library) (conn : Conn) (msg : Message)
    (hw : conn.writeErr = none) (hc : lib.Conveys msg) :
    SendMessage conn msg = (none, { conn with output := conn.output ++ msg.frame }) := by
  rw [SendMessage_of_writable conn msg hw, length_lt_of_conveys lib msg hc]
  simp [Message.frame]

/-! ## The tracker and the destination file along a download in order -/

theorem BlockMap.set_of_not_mem_keys (m : BlockMap) (k : Int) (v : Bool)
    (h : k ∉ m.keys) : m.set k v = m ++ [(k, v)] := by
  induction m with
  | nil => rfl
  | cons e rest ih =>
    obtain ⟨k', v'⟩ := e
    simp only [BlockMap.keys, List.map_cons, List.mem_cons, not_or] at h
    have hne : ¬ k' = k := fun hc => h.1 hc.symm
    simp only [BlockMap.set, if_neg hne, List.cons_append]
    rw [ih h.2]

theorem keys_trackerAfter (total : Int) (k : Nat) :
    (trackerAfter total k).availableBlocks.keys =
      (List.range k).map (fun (i : Nat) => (i : Int)) := by
  simp only [trackerAfter, BlockMap.keys, List.map_map]
  rfl

theorem mem_keys_trackerAfter (total : Int) (k : Nat) (j : Int) :
    j ∈ (trackerAfter total k).availableBlocks.keys ↔ 0 ≤ j ∧ j < k := by
  rw [keys_trackerAfter]
  simp only [List.mem_map, List.mem_range]
  constructor
  · rintro ⟨n, hn, rfl⟩
    omega
  · rintro ⟨h0, h1⟩
    exact ⟨j.toNat, by omega, by omega⟩

theorem allTrue_trackerAfter (total : Int) (k : Nat) :
    BlockMap.AllTrue (trackerAfter total k).availableBlocks := by
  intro e he
  simp only [trackerAfter, List.mem_map] at he
  obtain ⟨n, _, rfl⟩ := he
  rfl

theorem IsBlockAvailable_trackerAfter (total : Int) (k : Nat) (j : Int) :
    (trackerAfter total k).IsBlockAvailable j = true ↔ 0 ≤ j ∧ j < k := by
  unfold BlockManager.IsBlockAvailable
  rw [← mem_keys_trackerAfter total k j]
  constructor
  · exact BlockMap.mem_keys_of_get _ _
  · exact BlockMap.get_of_mem_keys _ _ (allTrue_trackerAfter total k)

theorem trackerAfter_zero (total : Int) : NewBlockManager total = trackerAfter total 0 := by
  simp [NewBlockManager, trackerAfter]

theorem MarkBlockAvailable_trackerAfter (total : Int) (k : Nat) (hk : (k : Int) < total) :
    (trackerAfter total k).MarkBlockAvailable k = trackerAfter total (k + 1) := by
  have hnot : (k : Int) ∉ (trackerAfter total k).availableBlocks.keys := by
    rw [mem_keys_trackerAfter]
    omega
  have hset : (trackerAfter total k).availableBlocks.set k true =
      (trackerAfter total (k + 1)).availableBlocks := by
    rw [BlockMap.set_of_not_mem_keys _ _ _ hnot]
    simp only [trackerAfter, List.range_succ, List.map_append, List.map_cons, List.map_nil]
  have hlen : (trackerAfter total (k + 1)).availableBlocks.len = k + 1 := by
    simp [trackerAfter, BlockMap.len]
  apply BlockManager.eq_of_fields
  · rw [BlockManager.totalBlocks_MarkBlockAvailable]
    rfl
  · rw [BlockManager.availableBlocks_MarkBlockAvailable, hset]
  · rw [BlockManager.downloadComplete_MarkBlockAvailable, hset, hlen]
    have hold : (trackerAfter total k).downloadComplete = false := by
      simp only [trackerAfter, decide_eq_false_iff_not]
      omega
    rw [hold]
    simp only [trackerAfter, Bool.or_false]
    congr 1
    apply propext
    constructor
    · intro h
      exact ⟨by exact_mod_cast h, by omega⟩
    · intro h
      exact_mod_cast h.1

theorem IsDownloadComplete_trackerAfter_lt (total : Int) (k : Nat) (hk : (k : Int) < total) :
    (trackerAfter total k).IsDownloadComplete = false := by
  simp only [BlockManager.IsDownloadComplete, trackerAfter, decide_eq_false_iff_not]
  omega

theorem IsDownloadComplete_trackerAfter_total (k : Nat) (hk : 0 < k) :
    (trackerAfter (k : Int) k).IsDownloadComplete = true := by
  simp only [BlockManager.IsDownloadComplete, trackerAfter, decide_eq_true_eq]
  exact ⟨trivial, hk⟩

theorem GetNextMissingBlock_trackerAfter (total : Int) (k : Nat) (hk : (k : Int) < total) :
    (trackerAfter total k).GetNextMissingBlock = k := by
  have htot : (trackerAfter total k).totalBlocks = total := rfl
  rcases BlockManager.GetNextMissingBlock_spec (trackerAfter total k) with
    ⟨_, hall⟩ | ⟨h0, h1, h2, h3⟩
  · have := (IsBlockAvailable_trackerAfter total k k).mp
      (hall k (by omega) (by rw [htot]; exact hk))
    omega
  · by_contra hne
    rcases lt_or_gt_of_ne hne with hlt | hgt
    · have := (IsBlockAvailable_trackerAfter total k _).mpr ⟨h0, hlt⟩
      rw [h2] at this
      cases this
    · have := (IsBlockAvailable_trackerAfter total k k).mp (h3 k (by omega) hgt)
      omega

theorem length_fileAfter (bytes : List UInt8) (b k : Nat) :
    (fileAfter bytes b k).length = bytes.length := by
  simp only [fileAfter, List.length_append, List.length_take, List.length_replicate]
  omega

theorem fileAfter_zero (bytes : List UInt8) (b : Nat) :
    fileAfter bytes b 0 = List.replicate bytes.length 0 := by
  simp [fileAfter]

theorem fileAfter_of_le (bytes : List UInt8) (b k : Nat) (h : bytes.length ≤ k * b) :
    fileAfter bytes b k = bytes := by
  unfold fileAfter
  rw [List.take_of_length_le h, Nat.sub_eq_zero_of_le h]
  simp

theorem length_blockBytes (bytes : List UInt8) (b i : Nat) :
    (blockBytes bytes b i).length = min b (bytes.length - i * b) := by
  simp [blockBytes]

/-- Writing block `k` of the source at its offset, after the blocks before
it. -/
theorem writeAt_fileAfter (bytes : List UInt8) (b k : Nat) (hb : 0 < b)
    (hk : k * b < bytes.length) :
    writeAt (fileAfter bytes b k) (blockBytes bytes b k) (k * b) = fileAfter bytes b (k + 1) := by
  have hlen := length_blockBytes bytes b k
  have hne : blockBytes bytes b k ≠ [] := by
    intro h
    rw [h] at hlen
    simp only [List.length_nil] at hlen
    omega
  have hsucc : (k + 1) * b = k * b + b := Nat.succ_mul k b
  unfold writeAt
  rw [if_neg hne, length_fileAfter]
  have h1 : (fileAfter bytes b k ++ List.replicate (k * b - bytes.length) 0).take (k * b) =
      bytes.take (k * b) := by
    unfold fileAfter
    rw [List.append_assoc, List.take_append_of_le_length, List.take_take, min_self]
    rw [List.length_take]
    omega
  have h2 : (fileAfter bytes b k).drop (k * b + (blockBytes bytes b k).length) =
      List.replicate (bytes.length - (k + 1) * b) 0 := by
    unfold fileAfter
    rw [List.drop_append_eq_append_drop, List.drop_eq_nil_of_le, List.nil_append,
      List.drop_replicate, List.length_take]
    · congr 1
      omega
    · rw [List.length_take]
      omega
  rw [h1, h2]
  unfold fileAfter blockBytes
  rw [hsucc, List.take_add]

/-! ## A seeder answers, a leecher stores -/

theorem handleRequestBlock_of_available (lib : Library) (s : Server) (conn : Conn)
    (blockID : Int) (bytes : List UInt8) (block : BlockInfo)
    (havail : s.blockManager.IsBlockAvailable blockID = true)
    (hread : s.file.openRead = .ok bytes)
    (hoff : 0 ≤ mulInt64 blockID s.metadata.BlockSize)
    (hsize : 0 ≤ s.metadata.BlockSize)
    (hblock : s.metadata.GetBlock blockID = .ok block) :
    s.handleRequestBlock lib conn blockID =
      .ok (SendMessage conn (.blockData (NewBlockData blockID
        (some ((bytes.drop (mulInt64 blockID s.metadata.BlockSize).toNat).take
          s.metadata.BlockSize.toNat))
        (CalculateBlockChecksum lib
          ((bytes.drop (mulInt64 blockID s.metadata.BlockSize).toNat).take
            s.metadata.BlockSize.toNat))))).2 := by
  unfold Server.handleRequestBlock
  simp only [havail, Bool.not_true, Bool.false_eq_true, if_false]
  rw [ReadBlockFromFile_ok s.file bytes blockID _ hread hoff hsize]
  simp only [hblock]

theorem mulInt64_block (n b i : Nat) (hn : n < 2 ^ 63) (hi : i * b < n) :
    mulInt64 (i : Int) (b : Int) = ((i * b : Nat) : Int) := by
  rw [mulInt64_of_bounds]
  · push_cast
    rfl
  · positivity
  · have : ((i * b : Nat) : Int) < 2 ^ 63 := by
      have : i * b < 2 ^ 63 := by omega
      exact_mod_cast this
    push_cast at this
    exact this

theorem GetBlock_generatedMetadata (lib : Library) (bytes : List UInt8) (fileName : String)
    (b i : Nat) (hi : i < blockCount bytes.length b) :
    (generatedMetadata lib bytes fileName b).GetBlock (i : Int) =
      .ok (generatedBlock bytes.length b (CalculateBlockChecksum lib (blockBytes bytes b i)) i)
    := by
  rw [GetBlock_ok_iff]
  refine ⟨by omega, ?_, ?_⟩
  · show (i : Int) < ((blockCount bytes.length b : Nat) : Int)
    exact_mod_cast hi
  · rw [Int.toNat_ofNat]
    exact getElem?_generatedMetadata lib bytes fileName b i hi

/-- The seeder of a file answers the request for block `i` with the frame of
`BlockData(i, bytes of block i, their digest)`. -/
theorem answer_of_seeder (lib : Library) (bytes : List UInt8) (fileName : String) (b i : Nat)
    (s : Server)
    (htracker : s.blockManager =
      (NewBlockManager (blockCount bytes.length b : Int)).MarkAllBlocksAvailable)
    (hmeta : s.metadata = generatedMetadata lib bytes fileName b)
    (hfile : s.file = { content := some bytes, openErr := none })
    (hn : bytes.length < 2 ^ 63) (hb : 0 < b) (hi : i < blockCount bytes.length b)
    (hreq : lib.Conveys (requestFor i)) (hresp : lib.Conveys (responseFor lib bytes b i)) :
    s.answer lib (requestFor i).frame = (responseFor lib bytes b i).frame := by
  have hib := blockCount_mul_lt bytes.length b i hb hi
  obtain ⟨data, hrecv, hparse⟩ := receive_of_conveys lib (requestFor i) rfl hreq
    (Conn.delivering (requestFor i).frame) [] (by simp [Conn.delivering])
  unfold requestFor at hparse
  have havail : s.blockManager.IsBlockAvailable (i : Int) = true := by
    rw [htracker]
    unfold BlockManager.IsBlockAvailable BlockManager.MarkAllBlocksAvailable
    apply BlockManager.get_foldl_set
    left
    rw [BlockManager.mem_blockRange]
    refine ⟨by omega, ?_⟩
    show (i : Int) < ((blockCount bytes.length b : Nat) : Int)
    exact_mod_cast hi
  have hread : s.file.openRead = .ok bytes := by
    rw [hfile]
    rfl
  have hsize : s.metadata.BlockSize = (b : Int) := by
    rw [hmeta]
    rfl
  have hmul := mulInt64_block bytes.length b i hn hib
  have hstep := handleRequestBlock_of_available lib s
    { Conn.delivering (requestFor i).frame with input := [] } (i : Int) bytes _ havail hread
    (by rw [hsize, hmul]; omega) (by rw [hsize]; omega)
    (by rw [hmeta]; exact GetBlock_generatedMetadata lib bytes fileName b i hi)
  rw [hsize, hmul, Int.toNat_ofNat, Int.toNat_ofNat] at hstep
  have hsend := SendMessage_frame lib
    { Conn.delivering (requestFor i).frame with input := [] } (responseFor lib bytes b i) rfl hresp
  unfold responseFor blockBytes at hsend
  unfold Server.answer Server.handleConnectionStep
  rw [hrecv]
  simp only [hparse]
  have hid : (NewRequestBlock (i : Int)).BlockID = (i : Int) := rfl
  rw [hid, hstep, hsend]
  simp [Conn.delivering, responseFor, blockBytes]

/-- One iteration against a neighbor that answers as the seeder does: the
leecher stores block `k` and marks it. -/
theorem downloadBlock_of_answer (lib : Library) (bytes : List UInt8) (fileName : String)
    (b k : Nat) (nb : Neighbor) (conn : Conn)
    (hanswer : nb.answer (requestFor k).frame = (responseFor lib bytes b k).frame)
    (hin : conn.input = []) (hw : conn.writeErr = none)
    (hn : bytes.length < 2 ^ 63) (hb : 0 < b) (hk : k < blockCount bytes.length b)
    (hreq : lib.Conveys (requestFor k)) (hresp : lib.Conveys (responseFor lib bytes b k)) :
    ∃ conn2,
      (clientAfter lib bytes fileName b k).downloadBlock lib
          (nb.deliver conn (.requestBlock (NewRequestBlock (k : Int)))) (k : Int) =
        (.ok (), clientAfter lib bytes fileName b (k + 1), conn2) ∧
      conn2.input = [] ∧ conn2.writeErr = none := by
  have hkb := blockCount_mul_lt bytes.length b k hb hk
  have hktotal : (k : Int) < ((blockCount bytes.length b : Nat) : Int) := by exact_mod_cast hk
  have hs0 := SendMessage_frame lib conn (requestFor k) hw hreq
  have hdeliver : nb.deliver conn (.requestBlock (NewRequestBlock (k : Int))) =
      { conn with input := (responseFor lib bytes b k).frame } := by
    unfold Neighbor.deliver
    unfold requestFor at hs0 hanswer
    rw [hs0]
    simp only [List.drop_left, hanswer, hin, List.nil_append]
  rw [hdeliver]
  have hs1 := SendMessage_frame lib { conn with input := (responseFor lib bytes b k).frame }
    (requestFor k) hw hreq
  obtain ⟨data, hrecv, hparse⟩ := receive_of_conveys lib (responseFor lib bytes b k) rfl hresp
    (SendMessage { conn with input := (responseFor lib bytes b k).frame } (requestFor k)).2 []
    (by rw [hs1]; simp)
  unfold requestFor at hs1 hrecv
  unfold responseFor at hparse
  have hmain := downloadBlock_of_blockData lib (clientAfter lib bytes fileName b k)
    { conn with input := (responseFor lib bytes b k).frame } (k : Int) data _
    (by rw [hs1]) (by rw [hrecv]) hparse
  refine ⟨(ReceiveMessage lib (SendMessage
    { conn with input := (responseFor lib bytes b k).frame }
    (.requestBlock (NewRequestBlock (k : Int)))).2).2, ?_, ?_, ?_⟩
  · rw [hmain]
    have hval : ValidateBlockChecksum lib (blockBytes bytes b k)
        (CalculateBlockChecksum lib (blockBytes bytes b k)) = true := by
      simp [ValidateBlockChecksum]
    have hget : (clientAfter lib bytes fileName b k).metadata.GetBlock (k : Int) = _ :=
      GetBlock_generatedMetadata lib bytes fileName b k hk
    have hmul := mulInt64_block bytes.length b k hn hkb
    have hwrite := WriteBlockToFile_ok (clientAfter lib bytes fileName b k).file (k : Int)
      (clientAfter lib bytes fileName b k).metadata.BlockSize (blockBytes bytes b k) rfl
      (by show 0 ≤ mulInt64 (k : Int) (b : Int); rw [hmul]; omega)
    have hval2 : ValidateBlockChecksum lib
        (NewBlockData (k : Int) (some (blockBytes bytes b k))
          (CalculateBlockChecksum lib (blockBytes bytes b k))).Data.elems
        (NewBlockData (k : Int) (some (blockBytes bytes b k))
          (CalculateBlockChecksum lib (blockBytes bytes b k))).Checksum = true := hval
    rw [hval2]
    simp only [Bool.not_true, Bool.false_eq_true, if_false]
    rw [hget]
    simp only
    rw [if_neg (fun h => h rfl)]
    have hwrite2 : WriteBlockToFile (clientAfter lib bytes fileName b k).file (k : Int)
        (clientAfter lib bytes fileName b k).metadata.BlockSize
        (NewBlockData (k : Int) (some (blockBytes bytes b k))
          (CalculateBlockChecksum lib (blockBytes bytes b k))).Data.elems = _ := hwrite
    rw [hwrite2]
    simp only
    have hmul2 : mulInt64 (k : Int) (clientAfter lib bytes fileName b k).metadata.BlockSize =
        ((k * b : Nat) : Int) := hmul
    rw [hmul2, Int.toNat_ofNat]
    have hold : (clientAfter lib bytes fileName b k).file.content.getD [] =
        fileAfter bytes b k := rfl
    rw [hold, writeAt_fileAfter bytes b k hb hkb]
    have hmark : (clientAfter lib bytes fileName b k).blockManager.MarkBlockAvailable (k : Int) =
        trackerAfter (blockCount bytes.length b : Int) (k + 1) :=
      MarkBlockAvailable_trackerAfter _ k hktotal
    rw [hmark]
    rfl
  · rw [hrecv]
  · rw [hrecv, hs1]
    exact hw

theorem blockCount_pos (n b : Nat) (hb : 0 < b) (hn : 0 < n) : 0 < blockCount n b :=
  lt_blockCount_of_mul_lt n b 0 hb (by omega)

/-- The loop of the downloader task against a neighbor that is never stopped
and answers as the seeder does: from the state after `k` blocks it exits, with
enough fuel, in the state after all of them. -/
theorem downloadLoop_of_answers (lib : Library) (bytes : List UInt8) (fileName : String)
    (b : Nat) (nb : Neighbor) (hstopped : ∀ k, nb.stopped k = false)
    (hanswer : ∀ i, i < blockCount bytes.length b →
      nb.answer (requestFor i).frame = (responseFor lib bytes b i).frame)
    (hne : bytes ≠ []) (hn : bytes.length < 2 ^ 63) (hb : 0 < b)
    (hconv : ∀ i, i < blockCount bytes.length b →
      lib.Conveys (requestFor i) ∧ lib.Conveys (responseFor lib bytes b i)) :
    ∀ (fuel k : Nat) (st : TaskState), k ≤ blockCount bytes.length b →
      st.After lib bytes fileName b k → blockCount bytes.length b - k < fuel →
      Client.downloadLoop lib nb fuel k st =
        some (.ok
          { client := clientAfter lib bytes fileName b (blockCount bytes.length b)
            dialed := st.dialed
            requested := (List.range (blockCount bytes.length b)).map
              (fun (i : Nat) => (i : Int)) }) := by
  have hpos : 0 < blockCount bytes.length b :=
    blockCount_pos bytes.length b hb (List.length_pos.mpr hne)
  intro fuel
  induction fuel with
  | zero =>
    intro k st _ _ hfuel
    omega
  | succ fuel ih =>
    intro k st hk hst hfuel
    obtain ⟨hclient, hin, hw, hrequested⟩ := hst
    simp only [Client.downloadLoop]
    rw [hstopped k]
    simp only [Bool.false_eq_true, if_false]
    rw [hclient]
    rcases Nat.lt_or_ge k (blockCount bytes.length b) with hlt | hge
    · have hktotal : (k : Int) < ((blockCount bytes.length b : Nat) : Int) := by
        exact_mod_cast hlt
      have hflag : (clientAfter lib bytes fileName b k).blockManager.IsDownloadComplete = false :=
        IsDownloadComplete_trackerAfter_lt _ k hktotal
      have hnext : (clientAfter lib bytes fileName b k).blockManager.GetNextMissingBlock =
          (k : Int) := GetNextMissingBlock_trackerAfter _ k hktotal
      rw [hflag, hnext]
      simp only [Bool.false_eq_true, if_false]
      rw [if_neg (by omega)]
      obtain ⟨conn2, hdl, hin2, hw2⟩ := downloadBlock_of_answer lib bytes fileName b k nb st.conn
        (hanswer k hlt) hin hw hn hb hlt (hconv k hlt).1 (hconv k hlt).2
      rw [hdl]
      simp only
      apply ih (k + 1) _ hlt
      · refine ⟨rfl, hin2, hw2, ?_⟩
        simp only [hrequested, List.range_succ, List.map_append, List.map_cons, List.map_nil]
      · omega
    · have hkeq : k = blockCount bytes.length b := by omega
      have hflag : (clientAfter lib bytes fileName b k).blockManager.IsDownloadComplete = true := by
        rw [hkeq]
        exact IsDownloadComplete_trackerAfter_total _ hpos
      rw [hflag]
      simp only [if_true]
      rw [hrequested, hkeq]

/-- A leecher that starts from the zero-filled file and the empty tracker, with
the seeder of the file as its one neighbor: the task requests the blocks in
ascending order and leaves the source bytes and a complete tracker. -/
theorem download_of_conveys (lib : Library) (bytes : List UInt8) (fileName : String)
    (b fuel : Nat) (hne : bytes ≠ []) (hn : bytes.length < 2 ^ 63) (hb : 0 < b)
    (hconv : ∀ i, i < blockCount bytes.length b →
      lib.Conveys (requestFor i) ∧ lib.Conveys (responseFor lib bytes b i))
    (hfuel : blockCount bytes.length b < fuel) :
    ∃ seeder leecher result,
      NewPeer (seederConfig lib bytes fileName b) = .ok seeder ∧
      NewPeer (leecherConfig lib bytes fileName b) = .ok leecher ∧
      (∀ i : Int, 0 ≤ i → i < seeder.shared.metadata.TotalBlocks →
        seeder.shared.blockManager.IsBlockAvailable i = true) ∧
      leecher.shared.file.content = some (List.replicate bytes.length 0) ∧
      leecher.shared.blockManager.GetAvailableBlocksCount = 0 ∧
      leecher.shared.downloadFromNeighbor lib (seeder.server.asNeighbor lib) fuel =
        some (.ok result) ∧
      result.requested =
        (List.range (blockCount bytes.length b)).map (fun (i : Nat) => (i : Int)) ∧
      result.client.file.content = some bytes ∧
      result.client.blockManager.IsDownloadComplete = true := by
  have hpos : 0 < blockCount bytes.length b :=
    blockCount_pos bytes.length b hb (List.length_pos.mpr hne)
  have hseeder : NewPeer (seederConfig lib bytes fileName b) = .ok
      { Mode := ModeSeeder
        shared :=
          { blockManager :=
              (NewBlockManager (blockCount bytes.length b : Int)).MarkAllBlocksAvailable
            metadata := generatedMetadata lib bytes fileName b
            file := { content := some bytes, openErr := none } }
        hasClient := false, neighbors := 0, running := 0, watchers := 0,
        stopped := false, crashed := false } := rfl
  have hleecher : NewPeer (leecherConfig lib bytes fileName b) = .ok
      { Mode := ModeLeecher
        shared := clientAfter lib bytes fileName b 0
        hasClient := true, neighbors := 1, running := 0, watchers := 0,
        stopped := false, crashed := false } := by
    have hmode : ¬ ModeLeecher = ModeSeeder := by decide
    have hsize : ¬ ((bytes.length : Nat) : Int) < 0 := by omega
    simp only [NewPeer, leecherConfig, createEmptyFile, generatedMetadata, if_neg hmode,
      if_neg hsize, Int.toNat_ofNat, clientAfter, fileAfter_zero, ← trackerAfter_zero]
    rfl
  refine ⟨_, _,
    { client := clientAfter lib bytes fileName b (blockCount bytes.length b)
      dialed := 1
      requested := (List.range (blockCount bytes.length b)).map (fun (i : Nat) => (i : Int)) },
    hseeder, hleecher, ?_, ?_, ?_, ?_, rfl, ?_, ?_⟩
  · intro i h0 h1
    unfold BlockManager.IsBlockAvailable BlockManager.MarkAllBlocksAvailable
    apply BlockManager.get_foldl_set
    left
    rw [BlockManager.mem_blockRange]
    exact ⟨h0, h1⟩
  · simp only [clientAfter, fileAfter_zero]
  · rfl
  · have hdial : (connectWithRetry
        (Server.asNeighbor lib (Peer.server
          { Mode := ModeSeeder
            shared :=
              { blockManager :=
                  (NewBlockManager (blockCount bytes.length b : Int)).MarkAllBlocksAvailable
                metadata := generatedMetadata lib bytes fileName b
                file := { content := some bytes, openErr := none } }
            hasClient := false, neighbors := 0, running := 0, watchers := 0,
            stopped := false, crashed := false })).dial 0 3) =
        { result := .ok (Conn.delivering []), attempts := 1, sleeps := 0 } := rfl
    unfold Client.downloadFromNeighbor
    rw [hdial]
    simp only
    rw [downloadLoop_of_answers lib bytes fileName b _ (fun _ => rfl) ?_ hne hn hb hconv fuel 0 _
      (Nat.zero_le _) ⟨rfl, rfl, rfl, rfl⟩ (by omega)]
    intro i hi
    exact answer_of_seeder lib bytes fileName b i _ rfl rfl rfl hn hb hi (hconv i hi).1
      (hconv i hi).2
  · have hle : bytes.length ≤ blockCount bytes.length b * b := by
      have := (blockCount_last bytes.length b (blockCount bytes.length b - 1) hb (by omega)).2
      have h2 : blockCount bytes.length b - 1 + 1 = blockCount bytes.length b := by omega
      rw [h2] at this
      exact this
    simp only [clientAfter, fileAfter_of_le bytes b _ hle]
  · exact IsDownloadComplete_trackerAfter_total _ hpos

/-- The ids the task of the witness requests. -/
theorem requested_sample :
    (List.range (blockCount nineByteList.length 4)).map (fun (i : Nat) => (i : Int)) =
      [0, 1, 2] := by
  decide

/-- The shape of the end-to-end example of the specification: a file of 9216
bytes in blocks of 4096 bytes (blocks of 4096, 4096 and 1024 bytes). The task
requests the ids 0, 1, 2 in that order and reconstructs the file. -/
theorem download_4096_4096_1024 (lib : Library) (bytes : List UInt8) (fileName : String)
    (fuel : Nat) (hlen : bytes.length = 9216)
    (hconv : ∀ i, i < 3 →
      lib.Conveys (requestFor i) ∧ lib.Conveys (responseFor lib bytes 4096 i))
    (hfuel : 3 < fuel) :
    ∃ seeder leecher result,
      NewPeer (seederConfig lib bytes fileName 4096) = .ok seeder ∧
      NewPeer (leecherConfig lib bytes fileName 4096) = .ok leecher ∧
      leecher.shared.downloadFromNeighbor lib (seeder.server.asNeighbor lib) fuel =
        some (.ok result) ∧
      result.requested = [0, 1, 2] ∧
      result.client.file.content = some bytes ∧
      result.client.blockManager.IsDownloadComplete = true := by
  have h3 : blockCount bytes.length 4096 = 3 := by
    rw [hlen]
    decide
  have hne : bytes ≠ [] := by
    intro h
    rw [h] at hlen
    cases hlen
  obtain ⟨seeder, leecher, result, h1, h2, _, _, _, h6, h7, h8, h9⟩ :=
    download_of_conveys lib bytes fileName 4096 fuel hne (by rw [hlen]; decide) (by decide)
      (by rw [h3]; exact hconv) (by rw [h3]; exact hfuel)
  refine ⟨seeder, leecher, result, h1, h2, h6, ?_, h8, h9⟩
  rw [h7, h3]
  decide

/-! ## Errors of `downloadBlock` and `isConnectionError` -/

/-- An error `downloadBlock` returns is built by `fmt.Errorf`: the value
itself is never an error of the network. -/
theorem isConnectionError_downloadBlock (lib : Library) (c : Client) (conn : Conn)
    (blockID : Int) :
    isConnectionError (c.downloadBlock lib conn blockID).1.errorValue = false := by
  unfold Client.downloadBlock
  simp only
  cases hs : SendMessage conn (.requestBlock (NewRequestBlock blockID)) with
  | mk e conn1 =>
    cases e with
    | some err => rfl
    | none =>
      simp only
      cases hr : ReceiveMessage lib conn1 with
      | mk r conn2 =>
        cases r with
        | error err => rfl
        | ok msgData =>
          simp only
          cases hp : ParseMessage lib msgData with
          | error err => rfl
          | ok msg =>
            cases msg with
            | requestBlock m => rfl
            | requestInfo m => rfl
            | peerInfo m => rfl
            | error m => rfl
            | blockData m =>
              simp only
              by_cases hv : (!ValidateBlockChecksum lib m.Data.elems m.Checksum) = true
              · rw [if_pos hv]
                rfl
              · rw [if_neg hv]
                cases hg : c.metadata.GetBlock blockID with
                | panic reason => rfl
                | err e => rfl
                | ok expectedBlock =>
                  simp only
                  by_cases hh : m.Checksum ≠ expectedBlock.Hash
                  · rw [if_pos hh]
                    rfl
                  · rw [if_neg hh]
                    cases hw : WriteBlockToFile c.file blockID c.metadata.BlockSize
                        m.Data.elems with
                    | mk e file =>
                      cases e with
                      | some err => rfl
                      | none => rfl

theorem ReceiveMessage_of_no_input (lib : Library) (conn : Conn) (hin : conn.input = []) :
    ReceiveMessage lib conn =
      (.error (.wrap "erro ao ler tamanho: %w" conn.readErr), { conn with input := [] }) := by
  unfold ReceiveMessage binaryReadUint32 Conn.readFull
  rw [hin]
  simp

theorem downloadBlock_of_receive_error (lib : Library) (c : Client) (conn conn1 conn2 : Conn)
    (blockID : Int) (e : GoError)
    (hsend : SendMessage conn (.requestBlock (NewRequestBlock blockID)) = (none, conn1))
    (hrecv : ReceiveMessage lib conn1 = (.error e, conn2)) :
    c.downloadBlock lib conn blockID =
      (.err (.wrap "erro ao receber resposta: %w" e), c, conn2) := by
  unfold Client.downloadBlock
  simp only [hsend, hrecv]

theorem downloadBlock_of_send_error (lib : Library) (c : Client) (conn conn1 : Conn)
    (blockID : Int) (e : GoError)
    (hsend : SendMessage conn (.requestBlock (NewRequestBlock blockID)) = (some e, conn1)) :
    c.downloadBlock lib conn blockID =
      (.err (.wrap "erro ao enviar REQUEST_BLOCK: %w" e), c, conn1) := by
  unfold Client.downloadBlock
  simp only [hsend]

/-- The task on a connection that accepts writes and on which every read
fails, with a neighbor that sends nothing: each iteration fails in
`downloadBlock` and the next one runs on the same connection, so the loop is
still running after any number of iterations, whatever a dial would give. -/
theorem downloadLoop_of_reset (lib : Library) (nb : Neighbor) (c : Client)
    (hstopped : ∀ k, nb.stopped k = false) (hanswer : ∀ sent, nb.answer sent = [])
    (hflag : c.blockManager.IsDownloadComplete = false)
    (hnext : c.blockManager.GetNextMissingBlock ≠ -1) :
    ∀ (fuel k : Nat) (st : TaskState), st.client = c → st.conn.input = [] →
      st.conn.writeErr = none → Client.downloadLoop lib nb fuel k st = none := by
  intro fuel
  induction fuel with
  | zero =>
    intro k st _ _ _
    rfl
  | succ fuel ih =>
    intro k st hc hin hw
    simp only [Client.downloadLoop]
    rw [hstopped k, hc, hflag]
    simp only [Bool.false_eq_true, if_false]
    rw [if_neg hnext]
    have hdeliver : nb.deliver st.conn
        (.requestBlock (NewRequestBlock c.blockManager.GetNextMissingBlock)) = st.conn := by
      unfold Neighbor.deliver
      simp only [hanswer, List.append_nil]
    rw [hdeliver]
    have hsend := SendMessage_of_writable st.conn
      (.requestBlock (NewRequestBlock c.blockManager.GetNextMissingBlock)) hw
    have hrecv := ReceiveMessage_of_no_input lib
      (SendMessage st.conn
        (.requestBlock (NewRequestBlock c.blockManager.GetNextMissingBlock))).2
      (by rw [hsend]; exact hin)
    rw [downloadBlock_of_receive_error lib c st.conn _ _ _ _ (by rw [hsend]) hrecv]
    simp only [isConnectionError, Bool.false_eq_true, if_false]
    apply ih
    · rfl
    · rfl
    · simp only [hsend]
      exact hw

/-- C21, where the code departs from it: the error `downloadBlock` returns is
always a value built by `fmt.Errorf`, so `isConnectionError`, which tests the
value itself for `net.Error`, is false for it, for every client, connection
and block id. On a connection whose writes fail with an error of the network
the send fails, on one whose reads fail with an error of the network the
receive fails, and in both cases the error of the network is wrapped twice.
The task whose connection was reset never reconnects and never returns: after
any number of iterations its loop is still running on the same connection,
whatever a new dial would give. -/
theorem C21_reconnect_never_runs :
    (∀ (lib : Library) (c : Client) (conn : Conn) (blockID : Int),
      isConnectionError (c.downloadBlock lib conn blockID).1.errorValue = false) ∧
    (∀ lib : Library, (sampleClient.downloadBlock lib brokenConn 0).1 =
      .err (.wrap "erro ao enviar REQUEST_BLOCK: %w"
        (.wrap "erro ao enviar tamanho: %w" (.net "write: broken pipe")))) ∧
    (∀ lib : Library, (sampleClient.downloadBlock lib resetConn 0).1 =
      .err (.wrap "erro ao receber resposta: %w"
        (.wrap "erro ao ler tamanho: %w" (.net "read: connection reset by peer")))) ∧
    isConnectionError (some (.net "write: broken pipe")) = true ∧
    isConnectionError (some (.net "read: connection reset by peer")) = true ∧
    (∀ (lib : Library) (later : Nat → Except GoError Conn) (fuel : Nat),
      sampleClient.downloadFromNeighbor lib (resetNeighbor later) fuel = none) := by
  refine ⟨isConnectionError_downloadBlock, ?_, ?_, rfl, rfl, ?_⟩
  · intro lib
    rw [downloadBlock_of_send_error lib sampleClient brokenConn brokenConn 0 _ rfl]
  · intro lib
    have hsend := SendMessage_of_writable resetConn (.requestBlock (NewRequestBlock 0)) rfl
    have hrecv := ReceiveMessage_of_no_input lib
      (SendMessage resetConn (.requestBlock (NewRequestBlock 0))).2 (by rw [hsend]; rfl)
    rw [downloadBlock_of_receive_error lib sampleClient resetConn _ _ 0 _ (by rw [hsend]) hrecv]
    simp only [hsend]
    rfl
  · intro lib later fuel
    have hdial : connectWithRetry (resetNeighbor later).dial 0 3 =
        { result := .ok resetConn, attempts := 1, sleeps := 0 } := rfl
    unfold Client.downloadFromNeighbor
    rw [hdial]
    simp only
    exact downloadLoop_of_reset lib (resetNeighbor later) sampleClient (fun _ => rfl)
      (fun _ => rfl) rfl (by decide) fuel 0 _ rfl rfl rfl

/-! ## `connectWithRetry` -/

/-- The loop of `connectWithRetry` from its iteration `i`, after `i` failed
dials with a wait after each but the last possible one: the dial at index
`attempts - 1` is the last one made, every dial before it failed, and it
either succeeded or was the last of the budget. -/
theorem connectWithRetryLoop_spec (dial : Nat → Except GoError Conn) (first M : Nat)
    (hM : 1 ≤ M) :
    ∀ (remaining i sleeps : Nat) (err : Option GoError), remaining + i = M →
      sleeps = min i (M - 1) →
      (∀ j, j < i → ∃ e, dial (first + j) = .error e) →
      (i = 0 ∨ ∃ e, err = some e ∧ dial (first + (i - 1)) = .error e) →
      (connectWithRetryLoop dial first (M : Int) remaining i sleeps err).attempts ≤ M ∧
      1 ≤ (connectWithRetryLoop dial first (M : Int) remaining i sleeps err).attempts ∧
      (connectWithRetryLoop dial first (M : Int) remaining i sleeps err).sleeps =
        (connectWithRetryLoop dial first (M : Int) remaining i sleeps err).attempts - 1 ∧
      (∀ j, j + 1 < (connectWithRetryLoop dial first (M : Int) remaining i sleeps err).attempts →
        ∃ e, dial (first + j) = .error e) ∧
      ((∃ conn,
          (connectWithRetryLoop dial first (M : Int) remaining i sleeps err).result = .ok conn ∧
          dial (first +
            ((connectWithRetryLoop dial first (M : Int) remaining i sleeps err).attempts - 1)) =
            .ok conn) ∨
        (∃ e,
          (connectWithRetryLoop dial first (M : Int) remaining i sleeps err).result =
            .error (.wrap "falha após %d tentativas: %w" e) ∧
          dial (first +
            ((connectWithRetryLoop dial first (M : Int) remaining i sleeps err).attempts - 1)) =
            .error e ∧
          (connectWithRetryLoop dial first (M : Int) remaining i sleeps err).attempts = M)) := by
  intro remaining
  induction remaining with
  | zero =>
    intro i sleeps err hsum hsleeps hfailed herr
    have hi : i = M := by omega
    rcases herr with h0 | ⟨e, he, hlast⟩
    · omega
    · subst he
      simp only [connectWithRetryLoop]
      refine ⟨by omega, by omega, by omega, ?_, Or.inr ⟨e, rfl, hlast, hi⟩⟩
      intro j hj
      exact hfailed j (by omega)
  | succ remaining ih =>
    intro i sleeps err hsum hsleeps hfailed herr
    simp only [connectWithRetryLoop]
    cases hd : dial (first + i) with
    | ok conn =>
      simp only
      refine ⟨by omega, by omega, by omega, ?_, Or.inl ⟨conn, rfl, ?_⟩⟩
      · intro j hj
        exact hfailed j (by omega)
      · rw [Nat.add_sub_cancel]
        exact hd
    | error e =>
      simp only
      have hfailed2 : ∀ j, j < i + 1 → ∃ e, dial (first + j) = .error e := by
        intro j hj
        rcases Nat.lt_or_ge j i with hlt | hge
        · exact hfailed j hlt
        · have hji : j = i := by omega
          rw [hji]
          exact ⟨e, hd⟩
      by_cases hlt : (i : Int) < (M : Int) - 1
      · rw [if_pos hlt]
        exact ih (i + 1) (sleeps + 1) (some e) (by omega) (by omega) hfailed2
          (Or.inr ⟨e, rfl, by rw [Nat.add_sub_cancel]; exact hd⟩)
      · rw [if_neg hlt]
        exact ih (i + 1) sleeps (some e) (by omega) (by omega) hfailed2
          (Or.inr ⟨e, rfl, by rw [Nat.add_sub_cancel]; exact hd⟩)

theorem connectWithRetry_spec (dial : Nat → Except GoError Conn) (first : Nat)
    (maxRetries : Int) (hmax : 1 ≤ maxRetries) :
    ((connectWithRetry dial first maxRetries).attempts : Int) ≤ maxRetries ∧
    1 ≤ (connectWithRetry dial first maxRetries).attempts ∧
    (connectWithRetry dial first maxRetries).sleeps =
      (connectWithRetry dial first maxRetries).attempts - 1 ∧
    (∀ j, j + 1 < (connectWithRetry dial first maxRetries).attempts →
      ∃ e, dial (first + j) = .error e) ∧
    ((∃ conn, (connectWithRetry dial first maxRetries).result = .ok conn ∧
        dial (first + ((connectWithRetry dial first maxRetries).attempts - 1)) = .ok conn) ∨
      (∃ e, (connectWithRetry dial first maxRetries).result =
          .error (.wrap "falha após %d tentativas: %w" e) ∧
        dial (first + ((connectWithRetry dial first maxRetries).attempts - 1)) = .error e ∧
        ((connectWithRetry dial first maxRetries).attempts : Int) = maxRetries)) := by
  obtain ⟨M, rfl⟩ : ∃ M : Nat, maxRetries = (M : Int) := ⟨maxRetries.toNat, by omega⟩
  have hM : 1 ≤ M := by omega
  unfold connectWithRetry
  rw [Int.toNat_ofNat]
  obtain ⟨h1, h2, h3, h4, h5⟩ := connectWithRetryLoop_spec dial first M hM M 0 0 none rfl
    (by omega) (fun j hj => absurd hj (Nat.not_lt_zero j)) (Or.inl rfl)
  refine ⟨by exact_mod_cast h1, h2, h3, h4, ?_⟩
  rcases h5 with h5 | ⟨e, h5, h6, h7⟩
  · exact Or.inl h5
  · exact Or.inr ⟨e, h5, h6, by exact_mod_cast h7⟩

/-- C22: for every sequence of dial outcomes and every `maxRetries >= 1`,
`connectWithRetry` makes at least one and at most `maxRetries` attempts; when
the dial at index `j < maxRetries` is the first to succeed, it makes exactly
the attempts `0, ..., j`, returns the connection of that dial, and has waited
the retry delay `j` times (after each failed attempt); when every dial of the
budget fails, it makes exactly `maxRetries` attempts, returns the error that
wraps the last dial's error, and has waited `maxRetries - 1` times (not after
the last attempt). `downloadFromNeighbor` calls it with `maxRetries = 3`, and
when the three dials of the initial connect fail the task returns with no
request issued and the client unchanged. -/
theorem C22_connect_with_retry (dial : Nat → Except GoError Conn) (first : Nat)
    (maxRetries : Int) (hmax : 1 ≤ maxRetries) :
    1 ≤ (connectWithRetry dial first maxRetries).attempts ∧
    ((connectWithRetry dial first maxRetries).attempts : Int) ≤ maxRetries ∧
    (∀ (j : Nat) (conn : Conn), (j : Int) < maxRetries → dial (first + j) = .ok conn →
      (∀ i, i < j → ∃ e, dial (first + i) = .error e) →
      (connectWithRetry dial first maxRetries).result = .ok conn ∧
      (connectWithRetry dial first maxRetries).attempts = j + 1 ∧
      (connectWithRetry dial first maxRetries).sleeps = j) ∧
    ((∀ i : Nat, (i : Int) < maxRetries → ∃ e, dial (first + i) = .error e) →
      (∃ e, dial (first + (maxRetries.toNat - 1)) = .error e ∧
        (connectWithRetry dial first maxRetries).result =
          .error (.wrap "falha após %d tentativas: %w" e)) ∧
      ((connectWithRetry dial first maxRetries).attempts : Int) = maxRetries ∧
      ((connectWithRetry dial first maxRetries).sleeps : Int) = maxRetries - 1) ∧
    (∀ (lib : Library) (nb : Neighbor) (fuel : Nat) (c : Client),
      (∀ i, i < 3 → ∃ e, nb.dial i = .error e) →
      c.downloadFromNeighbor lib nb fuel =
        some (.ok { client := c, dialed := 3, requested := [] })) := by
  obtain ⟨h1, h2, h3, h4, h5⟩ := connectWithRetry_spec dial first maxRetries hmax
  refine ⟨h2, h1, ?_, ?_, ?_⟩
  · intro j conn hj hok hbefore
    have hidx : (connectWithRetry dial first maxRetries).attempts - 1 = j := by
      rcases Nat.lt_trichotomy ((connectWithRetry dial first maxRetries).attempts - 1) j with
        hlt | heq | hgt
      · obtain ⟨e, he⟩ := hbefore _ hlt
        rcases h5 with ⟨conn2, _, hd⟩ | ⟨e2, _, _, hall⟩
        · rw [he] at hd
          cases hd
        · omega
      · exact heq
      · obtain ⟨e, he⟩ := h4 j (by omega)
        rw [he] at hok
        cases hok
    rcases h5 with ⟨conn2, hres, hd⟩ | ⟨e2, _, hd, _⟩
    · rw [hidx, hok] at hd
      cases hd
      exact ⟨hres, by omega, by omega⟩
    · rw [hidx, hok] at hd
      cases hd
  · intro hall
    rcases h5 with ⟨conn2, _, hd⟩ | ⟨e2, hres, hd, hatt⟩
    · obtain ⟨e, he⟩ := hall ((connectWithRetry dial first maxRetries).attempts - 1) (by omega)
      rw [he] at hd
      cases hd
    · refine ⟨⟨e2, ?_, hres⟩, hatt, by omega⟩
      have hidx : maxRetries.toNat - 1 = (connectWithRetry dial first maxRetries).attempts - 1 := by
        omega
      rw [hidx]
      exact hd
  · intro lib nb fuel c hall
    obtain ⟨_, g2, _, _, g5⟩ := connectWithRetry_spec nb.dial 0 3 (by omega)
    rcases g5 with ⟨conn2, _, hd⟩ | ⟨e2, hres, _, hatt⟩
    · obtain ⟨e, he⟩ := hall ((connectWithRetry nb.dial 0 3).attempts - 1) (by omega)
      rw [Nat.zero_add, he] at hd
      cases hd
    · have hatt3 : (connectWithRetry nb.dial 0 3).attempts = 3 := by exact_mod_cast hatt
      simp only [Client.downloadFromNeighbor, hres, hatt3]

/-- Witness of C22: the first two dials are refused and the third succeeds;
`connectWithRetry` with `maxRetries = 3` returns that connection after 3
attempts and 2 waits. -/
theorem C22_connect_with_retry_witness :
    (1 : Int) ≤ 3 ∧
    (connectWithRetry thirdDial 0 3).result = .ok (Conn.delivering []) ∧
    (connectWithRetry thirdDial 0 3).attempts = 2 + 1 ∧
    (connectWithRetry thirdDial 0 3).sleeps = 2 :=
  ⟨by decide,
    (C22_connect_with_retry thirdDial 0 3 (by decide)).2.2.1 2 (Conn.delivering []) (by decide)
      rfl (fun i hi => by
        interval_cases i
        · exact ⟨_, rfl⟩
        · exact ⟨_, rfl⟩)⟩

/-- The outcome of `connectWithRetry` with `maxRetries = 3` when every dial is
refused: 3 attempts, 2 waits, and the error that wraps the last refusal. -/
theorem connectWithRetry_unreachable_sample :
    (connectWithRetry unreachableNeighbor.dial 0 3).result =
      .error (.wrap "falha após %d tentativas: %w" (.net "connection refused")) ∧
    (connectWithRetry unreachableNeighbor.dial 0 3).attempts = 3 ∧
    (connectWithRetry unreachableNeighbor.dial 0 3).sleeps = 2 :=
  ⟨rfl, rfl, rfl⟩

/-! ## The block id of a `BlockData` response -/

/-- What `downloadBlock` returns and the client it leaves, once a `BlockData`
was received: a function of the requested id, the bytes and the checksum of
the response. -/
theorem downloadBlock_result_of_blockData (lib : Library) (c : Client) (conn : Conn)
    (blockID : Int) (msgData : FieldBag) (m : BlockDataMsg)
    (hsend : (SendMessage conn (.requestBlock (NewRequestBlock blockID))).1 = none)
    (hrecv : (ReceiveMessage lib (SendMessage conn (.requestBlock (NewRequestBlock blockID))).2).1
      = .ok msgData)
    (hparse : ParseMessage lib msgData = .ok (.blockData m)) :
    ((c.downloadBlock lib conn blockID).1, (c.downloadBlock lib conn blockID).2.1) =
      if !ValidateBlockChecksum lib m.Data.elems m.Checksum then
        (.err (.errorf "checksum inválido para bloco %d"), c)
      else
        match c.metadata.GetBlock blockID with
        | .panic reason => (.panic reason, c)
        | .err err => (.err (.wrap "erro ao obter metadados: %w" err), c)
        | .ok expectedBlock =>
          if m.Checksum ≠ expectedBlock.Hash then
            (.err (.errorf "checksum não corresponde aos metadados"), c)
          else
            match WriteBlockToFile c.file blockID c.metadata.BlockSize m.Data.elems with
            | (some err, file) =>
              (.err (.wrap "erro ao escrever bloco: %w" err), { c with file := file })
            | (none, file) =>
              (.ok (),
                { c with
                  file := file
                  blockManager := c.blockManager.MarkBlockAvailable blockID }) := by
  rw [downloadBlock_of_blockData lib c conn blockID msgData m hsend hrecv hparse]
  by_cases hv : (!ValidateBlockChecksum lib m.Data.elems m.Checksum) = true
  · rw [if_pos hv, if_pos hv]
  · rw [if_neg hv, if_neg hv]
    cases hg : c.metadata.GetBlock blockID with
    | panic reason => rfl
    | err e => rfl
    | ok expectedBlock =>
      simp only
      by_cases hh : m.Checksum ≠ expectedBlock.Hash
      · rw [if_pos hh, if_pos hh]
      · rw [if_neg hh, if_neg hh]
        cases hw : WriteBlockToFile c.file blockID c.metadata.BlockSize m.Data.elems with
        | mk e file =>
          cases e with
          | some err => rfl
          | none => rfl

/-- C23: for every client, requested id and `BlockData` response, the response
with any other value in its `block_id` field gives the same result of
`downloadBlock` and the same client afterwards (tracker, metadata and file).
When the response carries the digest of its bytes and that digest is the one
recorded for the requested block (and the file opens, at a non-negative
offset), the response labelled with the other id is accepted: its bytes are
written at `blockID * BlockSize` of the requested id, the requested id is
marked, and the availability of the id of the label, when it differs, is what
it was. -/
theorem C23_block_id_not_consulted (lib : Library) (c : Client) (conn1 conn2 : Conn)
    (blockID otherID : Int) (data1 data2 : FieldBag) (m : BlockDataMsg)
    (hsend1 : (SendMessage conn1 (.requestBlock (NewRequestBlock blockID))).1 = none)
    (hrecv1 : (ReceiveMessage lib
      (SendMessage conn1 (.requestBlock (NewRequestBlock blockID))).2).1 = .ok data1)
    (hparse1 : ParseMessage lib data1 = .ok (.blockData m))
    (hsend2 : (SendMessage conn2 (.requestBlock (NewRequestBlock blockID))).1 = none)
    (hrecv2 : (ReceiveMessage lib
      (SendMessage conn2 (.requestBlock (NewRequestBlock blockID))).2).1 = .ok data2)
    (hparse2 : ParseMessage lib data2 = .ok (.blockData { m with BlockID := otherID })) :
    (c.downloadBlock lib conn1 blockID).1 = (c.downloadBlock lib conn2 blockID).1 ∧
    (c.downloadBlock lib conn1 blockID).2.1 = (c.downloadBlock lib conn2 blockID).2.1 ∧
    (∀ block : BlockInfo, CalculateBlockChecksum lib m.Data.elems = m.Checksum →
      c.metadata.GetBlock blockID = .ok block → m.Checksum = block.Hash →
      c.file.openErr = none → 0 ≤ mulInt64 blockID c.metadata.BlockSize →
      (c.downloadBlock lib conn2 blockID).1 = .ok () ∧
      (c.downloadBlock lib conn2 blockID).2.1.file.content =
        some (writeAt (c.file.content.getD []) m.Data.elems
          (mulInt64 blockID c.metadata.BlockSize).toNat) ∧
      (c.downloadBlock lib conn2 blockID).2.1.blockManager =
        c.blockManager.MarkBlockAvailable blockID ∧
      (c.downloadBlock lib conn2 blockID).2.1.blockManager.IsBlockAvailable blockID = true ∧
      (otherID ≠ blockID →
        (c.downloadBlock lib conn2 blockID).2.1.blockManager.IsBlockAvailable otherID =
          c.blockManager.IsBlockAvailable otherID)) := by
  have h1 := downloadBlock_result_of_blockData lib c conn1 blockID data1 m hsend1 hrecv1 hparse1
  have h2 := downloadBlock_result_of_blockData lib c conn2 blockID data2
    { m with BlockID := otherID } hsend2 hrecv2 hparse2
  have heq := h1.trans h2.symm
  refine ⟨(Prod.mk.inj heq).1, (Prod.mk.inj heq).2, ?_⟩
  intro block hdigest hblock hhash hopen hoff
  have hvalid : ValidateBlockChecksum lib m.Data.elems m.Checksum = true := by
    simp [ValidateBlockChecksum, hdigest]
  have hd := h2
  simp only [hvalid, hblock, Bool.not_true, Bool.false_eq_true, if_false] at hd
  rw [if_neg (by simpa using hhash), WriteBlockToFile_ok c.file blockID _ _ hopen hoff] at hd
  simp only at hd
  have hres := (Prod.mk.inj hd).1
  have hcl := (Prod.mk.inj hd).2
  rw [hres, hcl]
  refine ⟨rfl, rfl, rfl, ?_, ?_⟩
  · simp only [BlockManager.IsBlockAvailable, BlockManager.availableBlocks_MarkBlockAvailable]
    exact BlockMap.get_set_self _ _ _
  · intro hne
    simp only [BlockManager.IsBlockAvailable, BlockManager.availableBlocks_MarkBlockAvailable]
    exact BlockMap.get_set_of_ne _ _ _ _ (fun h => hne h.symm)

/-- Witness of C23: block 0 is requested and the response carries the bytes
1, 2, 3 of block 0 under the label 7. It is treated as the response labelled
0: accepted, written at offset 0, block 0 marked and block 7 not. -/
theorem C23_block_id_not_consulted_witness :
    (shiftedClient.downloadBlock relabelLibrary
        (Conn.deliveringFrame (.blockData goodBlockData)) 0).1 =
      (shiftedClient.downloadBlock relabelLibrary
        (Conn.deliveringFrame (.blockData mislabelledBlockData)) 0).1 ∧
    (shiftedClient.downloadBlock relabelLibrary
        (Conn.deliveringFrame (.blockData goodBlockData)) 0).2.1 =
      (shiftedClient.downloadBlock relabelLibrary
        (Conn.deliveringFrame (.blockData mislabelledBlockData)) 0).2.1 ∧
    (shiftedClient.downloadBlock relabelLibrary
      (Conn.deliveringFrame (.blockData mislabelledBlockData)) 0).1 = .ok () ∧
    (shiftedClient.downloadBlock relabelLibrary
      (Conn.deliveringFrame (.blockData mislabelledBlockData)) 0).2.1.file.content =
        some (writeAt [0, 0, 0, 0, 0, 0, 0, 0] [1, 2, 3] 0) ∧
    (shiftedClient.downloadBlock relabelLibrary
      (Conn.deliveringFrame (.blockData mislabelledBlockData))
        0).2.1.blockManager.IsBlockAvailable 0 = true ∧
    (shiftedClient.downloadBlock relabelLibrary
      (Conn.deliveringFrame (.blockData mislabelledBlockData))
        0).2.1.blockManager.IsBlockAvailable 7 = false := by
  have h := C23_block_id_not_consulted relabelLibrary shiftedClient
    (Conn.deliveringFrame (.blockData goodBlockData))
    (Conn.deliveringFrame (.blockData mislabelledBlockData)) 0 7 _ _ goodBlockData
    rfl rfl rfl rfl rfl rfl
  have h3 := h.2.2 _ rfl rfl rfl rfl (by decide)
  exact ⟨h.1, h.2.1, h3.1, h3.2.1, h3.2.2.2.1, h3.2.2.2.2 (by decide)⟩

/-- The file after the mislabelled response of the witness. -/
theorem relabelled_file_sample :
    (shiftedClient.downloadBlock relabelLibrary
      (Conn.deliveringFrame (.blockData mislabelledBlockData)) 0).2.1.file.content =
        some [1, 2, 3, 0, 0, 0, 0, 0] := by
  rfl

/-! ## Decimal digits -/

theorem toDigitsCore_append (fuel n : Nat) (ds : List Char) :
    Nat.toDigitsCore 10 fuel n ds = Nat.toDigitsCore 10 fuel n [] ++ ds := by
  induction fuel generalizing n ds with
  | zero => simp [Nat.toDigitsCore]
  | succ fuel ih =>
    simp only [Nat.toDigitsCore]
    by_cases h : n / 10 = 0
    · simp [h]
    · rw [if_neg h, if_neg h, ih (n / 10) (_ :: ds), ih (n / 10) [_]]
      simp

theorem toDigitsCore_fuel (fuel1 fuel2 n : Nat) (h1 : n < fuel1) (h2 : n < fuel2) :
    Nat.toDigitsCore 10 fuel1 n [] = Nat.toDigitsCore 10 fuel2 n [] := by
  induction fuel1 generalizing n fuel2 with
  | zero => omega
  | succ fuel1 ih =>
    cases fuel2 with
    | zero => omega
    | succ fuel2 =>
      simp only [Nat.toDigitsCore]
      by_cases h : n / 10 = 0
      · simp [h]
      · rw [if_neg h, if_neg h, toDigitsCore_append fuel1, toDigitsCore_append fuel2,
          ih fuel2 (n / 10) (by omega) (by omega)]

theorem toDigits_of_lt (n : Nat) (h : n < 10) : Nat.toDigits 10 n = [Nat.digitChar n] := by
  unfold Nat.toDigits
  simp only [Nat.toDigitsCore]
  have h0 : n / 10 = 0 := by omega
  have h1 : n % 10 = n := by omega
  simp [h0, h1]

theorem toDigits_of_ge (n : Nat) (h : 10 ≤ n) :
    Nat.toDigits 10 n = Nat.toDigits 10 (n / 10) ++ [Nat.digitChar (n % 10)] := by
  have h0 : ¬ n / 10 = 0 := by omega
  have hstep : Nat.toDigitsCore 10 (n + 1) n [] =
      Nat.toDigitsCore 10 n (n / 10) [Nat.digitChar (n % 10)] := by
    simp only [Nat.toDigitsCore]
    rw [if_neg h0]
  show Nat.toDigitsCore 10 (n + 1) n [] =
    Nat.toDigitsCore 10 (n / 10 + 1) (n / 10) [] ++ [Nat.digitChar (n % 10)]
  rw [hstep, toDigitsCore_append,
    toDigitsCore_fuel n (n / 10 + 1) (n / 10) (by omega) (by omega)]

theorem toNat_digitChar : ∀ d : Nat, d < 10 → (Nat.digitChar d).toNat = 48 + d := by decide

theorem decimal_of_lt (n : Nat) (h : n < 10) : decimal n = [UInt8.ofNat (48 + n)] := by
  unfold decimal
  rw [toDigits_of_lt n h]
  simp [toNat_digitChar n h]

theorem decimal_of_ge (n : Nat) (h : 10 ≤ n) :
    decimal n = decimal (n / 10) ++ [UInt8.ofNat (48 + n % 10)] := by
  unfold decimal
  rw [toDigits_of_ge n h]
  simp [toNat_digitChar (n % 10) (by omega)]

theorem toNat_ofNat_of_lt (n : Nat) (h : n < 256) : (UInt8.ofNat n).toNat = n := by
  show (UInt8.ofNat n).toBitVec.toNat = n
  simp [UInt8.ofNat, Nat.mod_eq_of_lt h]

theorem isDigit_ofNat (d : Nat) (h : d < 10) : isDigit (UInt8.ofNat (48 + d)) = true := by
  unfold isDigit
  rw [toNat_ofNat_of_lt _ (by omega)]
  simp
  omega

/-- Every byte of a decimal is a digit. -/
theorem isDigit_of_mem_decimal (n : Nat) : ∀ b ∈ decimal n, isDigit b = true := by
  induction n using Nat.strong_induction_on with
  | _ n ih =>
    by_cases h : n < 10
    · rw [decimal_of_lt n h]
      intro b hb
      simp only [List.mem_singleton] at hb
      rw [hb]
      exact isDigit_ofNat n h
    · rw [decimal_of_ge n (by omega)]
      intro b hb
      rcases List.mem_append.mp hb with hb | hb
      · exact ih (n / 10) (by omega) b hb
      · simp only [List.mem_singleton] at hb
        rw [hb]
        exact isDigit_ofNat _ (by omega)

theorem digitsValue_append (acc : Nat) (ds : List UInt8) (b : UInt8) :
    digitsValue acc (ds ++ [b]) = digitsValue acc ds * 10 + (b.toNat - 48) := by
  simp [digitsValue, List.foldl_append]

/-- The digits of a decimal write the number. -/
theorem digitsValue_decimal (n : Nat) : digitsValue 0 (decimal n) = n := by
  induction n using Nat.strong_induction_on with
  | _ n ih =>
    by_cases h : n < 10
    · rw [decimal_of_lt n h]
      simp only [digitsValue, List.foldl_cons, List.foldl_nil]
      rw [toNat_ofNat_of_lt _ (by omega)]
      omega
    · rw [decimal_of_ge n (by omega), digitsValue_append, ih (n / 10) (by omega),
        toNat_ofNat_of_lt _ (by omega)]
      omega

theorem decimal_ne_nil (n : Nat) : decimal n ≠ [] := by
  by_cases h : n < 10
  · rw [decimal_of_lt n h]
    simp
  · rw [decimal_of_ge n (by omega)]
    simp

/-- A decimal of more than one digit does not start with a zero. -/
theorem head_decimal (n : Nat) (h : 1 < (decimal n).length) : (decimal n).head? ≠ some 48 := by
  induction n using Nat.strong_induction_on with
  | _ n ih =>
    by_cases hlt : n < 10
    · rw [decimal_of_lt n hlt] at h
      simp at h
    · rw [decimal_of_ge n (by omega)]
      by_cases h10 : n / 10 < 10
      · rw [decimal_of_lt _ h10]
        simp only [List.singleton_append, List.head?_cons, ne_eq, Option.some.injEq]
        intro hc
        have := congrArg UInt8.toNat hc
        rw [toNat_ofNat_of_lt _ (by omega)] at this
        have h48 : (48 : UInt8).toNat = 48 := rfl
        rw [h48] at this
        omega
      · have hlen : 1 < (decimal (n / 10)).length := by
          rw [decimal_of_ge _ (by omega)]
          have := decimal_ne_nil (n / 10 / 10)
          have hpos := List.length_pos.mpr this
          simp only [List.length_append, List.length_singleton]
          omega
        have := ih (n / 10) (by omega) hlen
        cases hd : decimal (n / 10) with
        | nil => exact absurd hd (decimal_ne_nil _)
        | cons b rest =>
          rw [hd] at this
          simpa using this

theorem length_decimal_le (n e : Nat) (h : n < 10 ^ e) (he : 0 < e) : (decimal n).length ≤ e := by
  unfold decimal Nat.toDigits
  rw [List.length_map]
  exact Nat.toDigitsCore_length 10 (by decide) (n + 1) n e h he

/-! ## Scanning a number -/

theorem takeDigits_append (ds rest : List UInt8) (hds : ∀ b ∈ ds, isDigit b = true)
    (hrest : ∀ b, rest.head? = some b → isDigit b = false) :
    takeDigits (ds ++ rest) = (ds, rest) := by
  induction ds with
  | nil =>
    cases rest with
    | nil => rfl
    | cons b tail =>
      simp only [List.nil_append, takeDigits]
      rw [hrest b rfl]
      simp
  | cons d ds ih =>
    have hrec := ih (fun b hb => hds b (List.mem_cons_of_mem _ hb))
    show takeDigits (d :: (ds ++ rest)) = (d :: ds, rest)
    simp only [takeDigits]
    rw [hds d (List.mem_cons_self _ _), hrec]
    simp

theorem scanFraction_of_end (rest : List UInt8) (h : NumberEnd rest) :
    scanFraction rest = some (none, rest) := by
  cases rest with
  | nil => rfl
  | cons b tail =>
    have := (h b rfl).2.1
    simp [scanFraction, this]

theorem scanExponent_of_end (rest : List UInt8) (h : NumberEnd rest) :
    scanExponent rest = some (none, rest) := by
  cases rest with
  | nil => rfl
  | cons b tail =>
    have h1 := (h b rfl).2.2.1
    have h2 := (h b rfl).2.2.2
    simp [scanExponent, h1, h2]

theorem scanUnsigned_decimal (negative : Bool) (n : Nat) (rest : List UInt8)
    (h : NumberEnd rest) :
    scanUnsigned negative (decimal n ++ rest) = some (.number negative n 0 true, rest) := by
  have htake := takeDigits_append (decimal n) rest (isDigit_of_mem_decimal n)
    (fun b hb => (h b hb).1)
  unfold scanUnsigned
  simp only [htake]
  rw [if_neg (decimal_ne_nil n)]
  have hzero : ¬ ((decimal n).length > 1 ∧ (decimal n).head? = some 48) := by
    rintro ⟨h1, h2⟩
    exact head_decimal n h1 h2
  rw [if_neg hzero, scanFraction_of_end rest h]
  simp only
  rw [scanExponent_of_end rest h]
  have hv : digitsValue (digitsValue 0 (decimal n)) [] = n := by
    rw [digitsValue_decimal]
    rfl
  simp [hv]

theorem decimal_cons (n : Nat) : ∃ d ds, decimal n = d :: ds ∧ isDigit d = true := by
  cases hd : decimal n with
  | nil => exact absurd hd (decimal_ne_nil n)
  | cons d ds =>
    refine ⟨d, ds, rfl, ?_⟩
    apply isDigit_of_mem_decimal n
    rw [hd]
    exact List.mem_cons_self _ _

theorem toNat_eq_of_eq (b : UInt8) (k : Nat) (h : b = UInt8.ofNat k) (hk : k < 256) :
    b.toNat = k := by
  rw [h]
  exact toNat_ofNat_of_lt k hk

/-- What a digit is not. -/
theorem digit_facts (d : UInt8) (h : isDigit d = true) :
    isJsonSpace d = false ∧ d ≠ 34 ∧ d ≠ 123 ∧ d ≠ 91 ∧ d ≠ 116 ∧ d ≠ 102 ∧ d ≠ 110 ∧ d ≠ 45 := by
  unfold isDigit at h
  simp only [Bool.and_eq_true, decide_eq_true_eq] at h
  have hne : ∀ k : Nat, k < 256 → (k < 48 ∨ 57 < k) → d ≠ UInt8.ofNat k := by
    intro k hk hout hc
    have := toNat_eq_of_eq d k hc hk
    omega
  refine ⟨?_, hne 34 (by omega) (by omega), hne 123 (by omega) (by omega),
    hne 91 (by omega) (by omega), hne 116 (by omega) (by omega), hne 102 (by omega) (by omega),
    hne 110 (by omega) (by omega), hne 45 (by omega) (by omega)⟩
  unfold isJsonSpace
  have h1 := hne 32 (by omega) (by omega)
  have h2 := hne 9 (by omega) (by omega)
  have h3 := hne 10 (by omega) (by omega)
  have h4 := hne 13 (by omega) (by omega)
  simp only [Bool.or_eq_false_iff, decide_eq_false_iff_not]
  exact ⟨⟨⟨h1, h2⟩, h3⟩, h4⟩

/-- The scanner reads back the literal of an `int`. -/
theorem reads_jsonInt (v : Int) : Reads (jsonInt v) (Json.ofInt v) := by
  intro fuel rest hfuel hend
  cases fuel with
  | zero => omega
  | succ fuel =>
    cases v with
    | ofNat n =>
      obtain ⟨d, ds, hd, hdig⟩ := decimal_cons n
      obtain ⟨hs, h34, h123, h91, h116, h102, h110, h45⟩ := digit_facts d hdig
      have hscan := scanUnsigned_decimal false n rest hend
      simp only [jsonInt]
      rw [hd] at hscan ⊢
      simp only [List.cons_append] at hscan ⊢
      simp only [scanValue, skipSpace, hs, Bool.false_eq_true, if_false, h34, h123, h91, h116,
        h102, h110, scanNumber, h45]
      rw [hscan]
      simp [Json.ofInt]
    | negSucc n =>
      have hscan := scanUnsigned_decimal true (n + 1) rest hend
      simp only [jsonInt, List.cons_append]
      have hs : isJsonSpace 45 = false := by decide
      simp only [scanValue, skipSpace, hs, Bool.false_eq_true, if_false, scanNumber]
      simp only [show ¬ ((45 : UInt8) = 34) by decide, show ¬ ((45 : UInt8) = 123) by decide,
        show ¬ ((45 : UInt8) = 91) by decide, show ¬ ((45 : UInt8) = 116) by decide,
        show ¬ ((45 : UInt8) = 102) by decide, show ¬ ((45 : UInt8) = 110) by decide, if_false,
        if_true]
      rw [hscan]
      simp [Json.ofInt, Int.negSucc_lt_zero, Int.natAbs_negSucc]

/-! ## UTF-8 -/

theorem or192 : ∀ x : Nat, x < 32 → x ||| 192 = 192 + x := by decide
theorem or128 : ∀ x : Nat, x < 64 → x ||| 128 = 128 + x := by decide
theorem or224 : ∀ x : Nat, x < 16 → x ||| 224 = 224 + x := by decide
theorem or240 : ∀ x : Nat, x < 8 → x ||| 240 = 240 + x := by decide

theorem toNat_and_or (a m o : UInt8) :
    (a &&& m ||| o).toNat = (a.toNat &&& m.toNat) ||| o.toNat := by
  show ((a.toBitVec &&& m.toBitVec) ||| o.toBitVec).toNat = _
  rw [BitVec.toNat_or, BitVec.toNat_and]
  rfl

theorem toNat_toUInt8 (v : UInt32) : v.toUInt8.toNat = v.toNat % 256 := by
  show (BitVec.ofNat 8 v.toNat).toNat = _
  rw [BitVec.toNat_ofNat]

theorem toNat_shift6 (v : UInt32) : (v >>> 6).toNat = v.toNat / 64 := by
  show (v.toBitVec >>> ((6 : UInt32).mod 32).toBitVec).toNat = _
  have h : ((6 : UInt32).mod 32).toBitVec = 6#32 := by decide
  rw [h]
  show (v.toBitVec >>> (6#32).toNat).toNat = _
  rw [BitVec.toNat_ushiftRight]
  simp [Nat.shiftRight_eq_div_pow]
  rfl

theorem toNat_shift12 (v : UInt32) : (v >>> 12).toNat = v.toNat / 4096 := by
  show (v.toBitVec >>> ((12 : UInt32).mod 32).toBitVec).toNat = _
  have h : ((12 : UInt32).mod 32).toBitVec = 12#32 := by decide
  rw [h]
  show (v.toBitVec >>> (12#32).toNat).toNat = _
  rw [BitVec.toNat_ushiftRight]
  simp [Nat.shiftRight_eq_div_pow]
  rfl

theorem toNat_shift18 (v : UInt32) : (v >>> 18).toNat = v.toNat / 262144 := by
  show (v.toBitVec >>> ((18 : UInt32).mod 32).toBitVec).toNat = _
  have h : ((18 : UInt32).mod 32).toBitVec = 18#32 := by decide
  rw [h]
  show (v.toBitVec >>> (18#32).toNat).toNat = _
  rw [BitVec.toNat_ushiftRight]
  simp [Nat.shiftRight_eq_div_pow]
  rfl

/-- A continuation byte of `utf8EncodeChar`: the six bits of `x` under the
mark 0x80. -/
theorem continuation_byte (v : UInt32) :
    v.toUInt8 &&& 0x3f ||| 0x80 = UInt8.ofNat (128 + v.toNat % 64) := by
  apply UInt8.ext
  rw [toNat_and_or, toNat_toUInt8]
  have e1 : (0x3f : UInt8).toNat = 2 ^ 6 - 1 := rfl
  have e2 : (0x80 : UInt8).toNat = 128 := rfl
  rw [e1, e2, Nat.and_pow_two_sub_one_eq_mod, or128 _ (Nat.mod_lt _ (by norm_num))]
  show _ = (BitVec.ofNat 8 _).toNat
  rw [BitVec.toNat_ofNat]
  omega

theorem utf8EncodeChar_two (c : Char) (h1 : 128 ≤ c.toNat) (h2 : c.toNat < 2048) :
    String.utf8EncodeChar c =
      [UInt8.ofNat (192 + c.toNat / 64), UInt8.ofNat (128 + c.toNat % 64)] := by
  have hv : c.val.toNat = c.toNat := rfl
  have hn1 : ¬ c.val ≤ 0x7f := by
    intro h
    have : c.val.toNat ≤ 127 := h
    omega
  have hn2 : c.val ≤ 0x7ff := by
    show c.val.toNat ≤ 2047
    omega
  unfold String.utf8EncodeChar
  simp only [hn1, hn2, if_false, if_true]
  rw [continuation_byte, hv]
  congr 1
  apply UInt8.ext
  rw [toNat_and_or, toNat_toUInt8, toNat_shift6, hv]
  have e1 : (0x1f : UInt8).toNat = 2 ^ 5 - 1 := rfl
  have e2 : (0xc0 : UInt8).toNat = 192 := rfl
  rw [e1, e2, Nat.and_pow_two_sub_one_eq_mod, or192 _ (Nat.mod_lt _ (by norm_num))]
  show _ = (BitVec.ofNat 8 _).toNat
  rw [BitVec.toNat_ofNat]
  omega

theorem utf8EncodeChar_three (c : Char) (h1 : 2048 ≤ c.toNat) (h2 : c.toNat < 65536) :
    String.utf8EncodeChar c =
      [UInt8.ofNat (224 + c.toNat / 4096), UInt8.ofNat (128 + c.toNat / 64 % 64),
        UInt8.ofNat (128 + c.toNat % 64)] := by
  have hv : c.val.toNat = c.toNat := rfl
  have hn1 : ¬ c.val ≤ 0x7f := by
    intro h
    have : c.val.toNat ≤ 127 := h
    omega
  have hn2 : ¬ c.val ≤ 0x7ff := by
    intro h
    have : c.val.toNat ≤ 2047 := h
    omega
  have hn3 : c.val ≤ 0xffff := by
    show c.val.toNat ≤ 65535
    omega
  unfold String.utf8EncodeChar
  simp only [hn1, hn2, hn3, if_false, if_true]
  rw [continuation_byte, continuation_byte, hv, toNat_shift6, hv]
  congr 1
  apply UInt8.ext
  rw [toNat_and_or, toNat_toUInt8, toNat_shift12, hv]
  have e1 : (0x0f : UInt8).toNat = 2 ^ 4 - 1 := rfl
  have e2 : (0xe0 : UInt8).toNat = 224 := rfl
  rw [e1, e2, Nat.and_pow_two_sub_one_eq_mod, or224 _ (Nat.mod_lt _ (by norm_num))]
  show _ = (BitVec.ofNat 8 _).toNat
  rw [BitVec.toNat_ofNat]
  omega

theorem utf8EncodeChar_four (c : Char) (h1 : 65536 ≤ c.toNat) :
    String.utf8EncodeChar c =
      [UInt8.ofNat (240 + c.toNat / 262144), UInt8.ofNat (128 + c.toNat / 4096 % 64),
        UInt8.ofNat (128 + c.toNat / 64 % 64), UInt8.ofNat (128 + c.toNat % 64)] := by
  have hv : c.val.toNat = c.toNat := rfl
  have hvalid : c.toNat < 1114112 := by
    have := c.valid
    unfold UInt32.isValidChar Nat.isValidChar at this
    rw [hv] at this
    omega
  have hn1 : ¬ c.val ≤ 0x7f := by
    intro h
    have : c.val.toNat ≤ 127 := h
    omega
  have hn2 : ¬ c.val ≤ 0x7ff := by
    intro h
    have : c.val.toNat ≤ 2047 := h
    omega
  have hn3 : ¬ c.val ≤ 0xffff := by
    intro h
    have : c.val.toNat ≤ 65535 := h
    omega
  unfold String.utf8EncodeChar
  simp only [hn1, hn2, hn3, if_false]
  rw [continuation_byte, continuation_byte, continuation_byte, hv, toNat_shift6, hv,
    toNat_shift12, hv]
  congr 1
  apply UInt8.ext
  rw [toNat_and_or, toNat_toUInt8, toNat_shift18, hv]
  have e1 : (0x07 : UInt8).toNat = 2 ^ 3 - 1 := rfl
  have e2 : (0xf0 : UInt8).toNat = 240 := rfl
  rw [e1, e2, Nat.and_pow_two_sub_one_eq_mod, or240 _ (Nat.mod_lt _ (by norm_num))]
  show _ = (BitVec.ofNat 8 _).toNat
  rw [BitVec.toNat_ofNat]
  omega

theorem char_valid (c : Char) :
    c.toNat < 55296 ∨ (57343 < c.toNat ∧ c.toNat < 1114112) := by
  have := c.valid
  unfold UInt32.isValidChar Nat.isValidChar at this
  exact this

/-- The encoding of a character that is not ASCII starts with a byte from 128
on, and `decodeRune` reads the character back. -/
theorem decodeRune_utf8EncodeChar (c : Char) (h : 128 ≤ c.toNat) (tail : List UInt8) :
    ∃ b0 more, String.utf8EncodeChar c = b0 :: more ∧ 128 ≤ b0.toNat ∧
      decodeRune b0 (more ++ tail) = (c, tail) := by
  have hvalid := char_valid c
  have hback : Char.ofNat c.toNat = c := Char.ofNat_toNat c
  by_cases h2 : c.toNat < 2048
  · refine ⟨_, _, utf8EncodeChar_two c h h2, ?_, ?_⟩
    · rw [toNat_ofNat_of_lt _ (by omega)]
      omega
    · unfold decodeRune isContinuation
      simp only [List.cons_append, List.nil_append]
      rw [toNat_ofNat_of_lt _ (by omega), toNat_ofNat_of_lt _ (by omega)]
      rw [if_pos (by omega)]
      simp only [Bool.and_eq_true, decide_eq_true_eq]
      rw [if_pos (by omega)]
      have hcode : (192 + c.toNat / 64 - 192) * 64 + (128 + c.toNat % 64 - 128) = c.toNat := by
        omega
      rw [hcode, hback]
  · by_cases h3 : c.toNat < 65536
    · refine ⟨_, _, utf8EncodeChar_three c (by omega) h3, ?_, ?_⟩
      · rw [toNat_ofNat_of_lt _ (by omega)]
        omega
      · unfold decodeRune isContinuation
        simp only [List.cons_append, List.nil_append]
        rw [toNat_ofNat_of_lt _ (by omega), toNat_ofNat_of_lt _ (by omega),
          toNat_ofNat_of_lt _ (by omega)]
        rw [if_neg (by omega), if_pos (by omega)]
        have hcode : (224 + c.toNat / 4096 - 224) * 4096 + (128 + c.toNat / 64 % 64 - 128) * 64 +
            (128 + c.toNat % 64 - 128) = c.toNat := by omega
        simp only [hcode, Bool.and_eq_true, decide_eq_true_eq]
        rw [if_pos (by omega), hback]
    · refine ⟨_, _, utf8EncodeChar_four c (by omega), ?_, ?_⟩
      · rw [toNat_ofNat_of_lt _ (by omega)]
        omega
      · unfold decodeRune isContinuation
        simp only [List.cons_append, List.nil_append]
        rw [toNat_ofNat_of_lt _ (by omega), toNat_ofNat_of_lt _ (by omega),
          toNat_ofNat_of_lt _ (by omega), toNat_ofNat_of_lt _ (by omega)]
        rw [if_neg (by omega), if_neg (by omega), if_pos (by omega)]
        have hcode : (240 + c.toNat / 262144 - 240) * 262144 +
            (128 + c.toNat / 4096 % 64 - 128) * 4096 + (128 + c.toNat / 64 % 64 - 128) * 64 +
            (128 + c.toNat % 64 - 128) = c.toNat := by omega
        simp only [hcode, Bool.and_eq_true, decide_eq_true_eq]
        rw [if_pos (by omega), hback]

/-! ## Scanning a string -/

theorem ne_of_toNat_ne (a b : UInt8) (h : a.toNat ≠ b.toNat) : a ≠ b := by
  intro hc
  rw [hc] at h
  exact h rfl

theorem scanChars_plain (fuel : Nat) (b : UInt8) (tail : List UInt8) (h34 : b.toNat ≠ 34)
    (h32 : 32 ≤ b.toNat) (h92 : b.toNat ≠ 92) (h128 : b.toNat < 128) :
    scanChars (fuel + 1) (b :: tail) = consChar (Char.ofNat b.toNat) (scanChars fuel tail) := by
  have e34 : b ≠ 34 := ne_of_toNat_ne b 34 h34
  have e92 : b ≠ 92 := ne_of_toNat_ne b 92 h92
  simp only [scanChars]
  rw [if_neg e34, if_neg (by omega), if_neg e92, if_pos h128]

theorem scanChars_rune (fuel : Nat) (b : UInt8) (tail : List UInt8) (h128 : 128 ≤ b.toNat) :
    scanChars (fuel + 1) (b :: tail) =
      consChar (decodeRune b tail).1 (scanChars fuel (decodeRune b tail).2) := by
  have e34 : b ≠ 34 := ne_of_toNat_ne b 34 (by
    have : (34 : UInt8).toNat = 34 := rfl
    omega)
  have e92 : b ≠ 92 := ne_of_toNat_ne b 92 (by
    have : (92 : UInt8).toNat = 92 := rfl
    omega)
  simp only [scanChars]
  rw [if_neg e34, if_neg (by omega), if_neg e92, if_neg (by omega)]

theorem scanChars_quoted (fuel : Nat) (e : UInt8) (tail : List UInt8)
    (h : e = 34 ∨ e = 92 ∨ e = 47) :
    scanChars (fuel + 1) (92 :: e :: tail) =
      consChar (Char.ofNat e.toNat) (scanChars fuel tail) := by
  simp only [scanChars]
  rw [if_neg (by decide), if_neg (by decide), if_pos trivial, if_pos h]

theorem scanChars_short (fuel : Nat) (e : UInt8) (tail : List UInt8) :
    (e = 98 → scanChars (fuel + 1) (92 :: e :: tail) =
      consChar (Char.ofNat 8) (scanChars fuel tail)) ∧
    (e = 102 → scanChars (fuel + 1) (92 :: e :: tail) =
      consChar (Char.ofNat 12) (scanChars fuel tail)) ∧
    (e = 110 → scanChars (fuel + 1) (92 :: e :: tail) =
      consChar (Char.ofNat 10) (scanChars fuel tail)) ∧
    (e = 114 → scanChars (fuel + 1) (92 :: e :: tail) =
      consChar (Char.ofNat 13) (scanChars fuel tail)) ∧
    (e = 116 → scanChars (fuel + 1) (92 :: e :: tail) =
      consChar (Char.ofNat 9) (scanChars fuel tail)) := by
  refine ⟨?_, ?_, ?_, ?_, ?_⟩ <;>
  · intro he
    subst he
    simp only [scanChars]
    rw [if_neg (by decide), if_neg (by decide), if_pos trivial]
    simp only [show ¬ ((98 : UInt8) = 34 ∨ (98 : UInt8) = 92 ∨ (98 : UInt8) = 47) by decide,
      show ¬ ((102 : UInt8) = 34 ∨ (102 : UInt8) = 92 ∨ (102 : UInt8) = 47) by decide,
      show ¬ ((110 : UInt8) = 34 ∨ (110 : UInt8) = 92 ∨ (110 : UInt8) = 47) by decide,
      show ¬ ((114 : UInt8) = 34 ∨ (114 : UInt8) = 92 ∨ (114 : UInt8) = 47) by decide,
      show ¬ ((116 : UInt8) = 34 ∨ (116 : UInt8) = 92 ∨ (116 : UInt8) = 47) by decide,
      show ¬ ((102 : UInt8) = 98) by decide, show ¬ ((110 : UInt8) = 98) by decide,
      show ¬ ((114 : UInt8) = 98) by decide, show ¬ ((116 : UInt8) = 98) by decide,
      show ¬ ((110 : UInt8) = 102) by decide, show ¬ ((114 : UInt8) = 102) by decide,
      show ¬ ((116 : UInt8) = 102) by decide, show ¬ ((114 : UInt8) = 110) by decide,
      show ¬ ((116 : UInt8) = 110) by decide, show ¬ ((116 : UInt8) = 114) by decide,
      if_false, if_true]

theorem scanChars_unicode (fuel : Nat) (a b c d : UInt8) (tail : List UInt8) (code : Nat)
    (h : hexValue4 a b c d = some code) :
    scanChars (fuel + 1) (92 :: 117 :: a :: b :: c :: d :: tail) =
      consChar (unescapeUnicode code tail).1 (scanChars fuel (unescapeUnicode code tail).2) := by
  simp only [scanChars]
  rw [if_neg (by decide), if_neg (by decide), if_pos trivial, if_neg (by decide),
    if_neg (by decide), if_neg (by decide), if_neg (by decide), if_neg (by decide),
    if_neg (by decide), if_pos trivial]
  simp only [h]

theorem hexValue_hexDigit : ∀ k : Nat, k < 16 → hexValue (hexDigit k) = some k := by decide

theorem unescapeUnicode_plain (code : Nat) (tail : List UInt8) (h : code < 55296) :
    unescapeUnicode code tail = (Char.ofNat code, tail) := by
  unfold unescapeUnicode
  rw [if_neg (by omega), if_neg (by omega)]

/-- The scanner reads one escaped character back. -/
theorem scanChars_jsonEscapeChar (fuel : Nat) (c : Char) (tail : List UInt8) :
    scanChars (fuel + 1) (jsonEscapeChar c ++ tail) = consChar c (scanChars fuel tail) := by
  have hback : Char.ofNat c.toNat = c := Char.ofNat_toNat c
  unfold jsonEscapeChar
  simp only
  by_cases hascii : c.toNat < 128
  · rw [if_pos hascii]
    by_cases hplain : 32 ≤ c.toNat ∧ c.toNat ≠ 34 ∧ c.toNat ≠ 38 ∧ c.toNat ≠ 60 ∧ c.toNat ≠ 62 ∧
        c.toNat ≠ 92
    · rw [if_pos hplain]
      have hn := toNat_ofNat_of_lt c.toNat (by omega)
      rw [List.singleton_append, scanChars_plain fuel _ tail (by omega) (by omega) (by omega)
        (by omega), hn, hback]
    · rw [if_neg hplain]
      by_cases hq : c.toNat = 92 ∨ c.toNat = 34
      · rw [if_pos hq]
        have hn := toNat_ofNat_of_lt c.toNat (by omega)
        have he : UInt8.ofNat c.toNat = 34 ∨ UInt8.ofNat c.toNat = 92 ∨
            UInt8.ofNat c.toNat = 47 := by
          rcases hq with hq | hq
          · right
            left
            rw [hq]
            rfl
          · left
            rw [hq]
            rfl
        show scanChars (fuel + 1) (92 :: UInt8.ofNat c.toNat :: tail) = _
        rw [scanChars_quoted fuel _ tail he, hn, hback]
      · rw [if_neg hq]
        by_cases h8 : c.toNat = 8
        · rw [if_pos h8]
          show scanChars (fuel + 1) (92 :: 98 :: tail) = _
          rw [(scanChars_short fuel 98 tail).1 rfl, ← h8, hback]
        · rw [if_neg h8]
          by_cases h12 : c.toNat = 12
          · rw [if_pos h12]
            show scanChars (fuel + 1) (92 :: 102 :: tail) = _
            rw [(scanChars_short fuel 102 tail).2.1 rfl, ← h12, hback]
          · rw [if_neg h12]
            by_cases h10 : c.toNat = 10
            · rw [if_pos h10]
              show scanChars (fuel + 1) (92 :: 110 :: tail) = _
              rw [(scanChars_short fuel 110 tail).2.2.1 rfl, ← h10, hback]
            · rw [if_neg h10]
              by_cases h13 : c.toNat = 13
              · rw [if_pos h13]
                show scanChars (fuel + 1) (92 :: 114 :: tail) = _
                rw [(scanChars_short fuel 114 tail).2.2.2.1 rfl, ← h13, hback]
              · rw [if_neg h13]
                by_cases h9 : c.toNat = 9
                · rw [if_pos h9]
                  show scanChars (fuel + 1) (92 :: 116 :: tail) = _
                  rw [(scanChars_short fuel 116 tail).2.2.2.2 rfl, ← h9, hback]
                · rw [if_neg h9]
                  have hhex : hexValue4 48 48 (hexDigit (c.toNat / 16))
                      (hexDigit (c.toNat % 16)) = some c.toNat := by
                    unfold hexValue4
                    rw [hexValue_hexDigit _ (by omega), hexValue_hexDigit _ (by omega)]
                    have h0 : hexValue 48 = some 0 := by decide
                    rw [h0]
                    simp only [Option.some.injEq]
                    omega
                  show scanChars (fuel + 1)
                    (92 :: 117 :: 48 :: 48 :: hexDigit (c.toNat / 16) ::
                      hexDigit (c.toNat % 16) :: tail) = _
                  rw [scanChars_unicode fuel _ _ _ _ tail _ hhex,
                    unescapeUnicode_plain _ _ (by omega), hback]
  · rw [if_neg hascii]
    by_cases hsep : c.toNat = 8232 ∨ c.toNat = 8233
    · rw [if_pos hsep]
      have hhex : hexValue4 50 48 50 (hexDigit (c.toNat % 16)) = some c.toNat := by
        unfold hexValue4
        rw [hexValue_hexDigit _ (by omega)]
        have h0 : hexValue 48 = some 0 := by decide
        have h2 : hexValue 50 = some 2 := by decide
        rw [h0, h2]
        simp only [Option.some.injEq]
        omega
      show scanChars (fuel + 1) (92 :: 117 :: 50 :: 48 :: 50 :: hexDigit (c.toNat % 16) :: tail)
        = _
      rw [scanChars_unicode fuel _ _ _ _ tail _ hhex, unescapeUnicode_plain _ _ (by omega),
        hback]
    · rw [if_neg hsep]
      obtain ⟨b0, more, henc, h128, hdec⟩ := decodeRune_utf8EncodeChar c (by omega) tail
      rw [henc, List.cons_append, scanChars_rune fuel b0 _ h128, hdec]

/-- The scanner reads the characters of an escaped string back, up to the
closing quote. -/
theorem scanChars_escaped (cs : List Char) (tail : List UInt8) :
    ∀ fuel, cs.length < fuel →
      scanChars fuel (cs.flatMap jsonEscapeChar ++ 34 :: tail) = some (cs, tail) := by
  induction cs with
  | nil =>
    intro fuel hfuel
    cases fuel with
    | zero => omega
    | succ fuel =>
      simp only [List.flatMap_nil, List.nil_append, scanChars]
      rw [if_pos trivial]
  | cons c cs ih =>
    intro fuel hfuel
    cases fuel with
    | zero => omega
    | succ fuel =>
      simp only [List.length_cons] at hfuel
      rw [List.flatMap_cons, List.append_assoc, scanChars_jsonEscapeChar,
        ih fuel (by omega)]
      rfl

theorem length_jsonEscapeChar_pos (c : Char) : 0 < (jsonEscapeChar c).length := by
  unfold jsonEscapeChar
  simp only
  split_ifs <;> simp
  have := String.length_utf8EncodeChar c
  have hpos : 0 < c.utf8Size := Char.utf8Size_pos c
  omega

theorem length_le_flatMap_escape (cs : List Char) :
    cs.length ≤ (cs.flatMap jsonEscapeChar).length := by
  induction cs with
  | nil => simp
  | cons c cs ih =>
    rw [List.flatMap_cons, List.length_append, List.length_cons]
    have := length_jsonEscapeChar_pos c
    omega

/-- The scanner reads a string literal back, after its opening quote. -/
theorem scanString_jsonString (s : String) (tail : List UInt8) :
    scanString (s.data.flatMap jsonEscapeChar ++ 34 :: tail) = some (s, tail) := by
  unfold scanString
  rw [scanChars_escaped s.data tail _ (by
    have := length_le_flatMap_escape s.data
    simp only [List.length_append, List.length_cons]
    omega)]

/-! ## Scanning what the encoder writes -/

theorem numberEnd_cons (d : UInt8) (tail : List UInt8) (h : d = 44 ∨ d = 93 ∨ d = 125) :
    NumberEnd (d :: tail) := by
  intro b hb
  simp only [List.head?_cons, Option.some.injEq] at hb
  subst hb
  rcases h with h | h | h <;> subst h <;> decide

theorem numberEnd_nil : NumberEnd [] := by
  intro b hb
  cases hb

theorem reads_jsonString (s : String) : Reads (jsonString s) (.string s) := by
  intro fuel rest hfuel _
  cases fuel with
  | zero => omega
  | succ fuel =>
    have hs : isJsonSpace 34 = false := by decide
    show scanValue (fuel + 1) (34 :: (s.data.flatMap jsonEscapeChar ++ [34] ++ rest)) = _
    simp only [scanValue, skipSpace, hs, Bool.false_eq_true, if_false, if_true]
    rw [List.append_assoc, List.singleton_append, scanString_jsonString]

theorem reads_jsonNull : Reads jsonNull .null := by
  intro fuel rest hfuel _
  cases fuel with
  | zero => omega
  | succ fuel =>
    have hs : isJsonSpace 110 = false := by decide
    show scanValue (fuel + 1) (110 :: 117 :: 108 :: 108 :: rest) = _
    simp only [scanValue, skipSpace, hs, Bool.false_eq_true, if_false]
    rw [if_neg (by decide), if_neg (by decide), if_neg (by decide), if_neg (by decide),
      if_neg (by decide), if_pos (by decide)]
    simp [scanWord]

theorem skipSpace_cons (b : UInt8) (tail : List UInt8) (h : isJsonSpace b = false) :
    skipSpace (b :: tail) = b :: tail := by
  simp [skipSpace, h]

/-- The scanner reads the elements the encoder wrote, separated by commas, up
to the closing bracket. -/
theorem scanElems_intercalate (texts : List (List UInt8)) (values : List Json)
    (h : List.Forall₂ Reads texts values) (hne : texts ≠ []) :
    ∀ (fuel : Nat) (rest : List UInt8), (List.intercalate [44] texts).length + 1 < fuel →
      scanElems fuel (List.intercalate [44] texts ++ 93 :: rest) = some (values, rest) := by
  induction h with
  | nil => exact absurd rfl hne
  | @cons text value texts values hread hrest ih =>
    intro fuel rest hfuel
    cases fuel with
    | zero => omega
    | succ fuel =>
      cases texts with
      | nil =>
        cases hrest
        simp only [List.intercalate, List.intersperse, List.flatten, List.append_nil] at hfuel ⊢
        simp only [scanElems]
        rw [hread fuel (93 :: rest) (by omega) (numberEnd_cons 93 rest (by simp))]
        simp only
        rw [skipSpace_cons 93 rest (by decide)]
        simp only
        rw [if_neg (by decide), if_pos trivial]
      | cons text2 texts =>
        have hsplit : List.intercalate [44] (text :: text2 :: texts) =
            text ++ 44 :: List.intercalate [44] (text2 :: texts) := by
          simp [List.intercalate, List.intersperse]
        rw [hsplit] at hfuel ⊢
        simp only [List.length_append, List.length_cons] at hfuel
        rw [List.append_assoc, List.cons_append]
        simp only [scanElems]
        rw [hread fuel _ (by omega) (numberEnd_cons 44 _ (by simp))]
        simp only
        rw [skipSpace_cons 44 _ (by decide)]
        simp only
        rw [if_pos trivial, ih (by simp) fuel rest (by omega)]

theorem length_jsonMember (field : String × List UInt8) :
    field.2.length + 3 ≤ (jsonMember field).length := by
  unfold jsonMember jsonString
  simp only [List.length_append, List.length_cons, List.length_nil]
  omega

/-- The scanner reads the members the encoder wrote, up to the closing
brace. -/
theorem scanMembers_intercalate (fields : List (String × List UInt8))
    (members : List (String × Json)) (h : List.Forall₂ MemberReads fields members)
    (hne : fields ≠ []) :
    ∀ (fuel : Nat) (rest : List UInt8),
      (List.intercalate [44] (fields.map jsonMember)).length + 1 < fuel →
      scanMembers fuel (List.intercalate [44] (fields.map jsonMember) ++ 125 :: rest) =
        some (members, rest) := by
  induction h with
  | nil => exact absurd rfl hne
  | @cons field member fields members hread hrest ih =>
    intro fuel rest hfuel
    obtain ⟨key, text⟩ := field
    obtain ⟨key2, value⟩ := member
    obtain ⟨hkey, hvalue⟩ := hread
    simp only at hkey hvalue
    subst hkey
    have hlen : text.length + 3 ≤ (jsonMember (key, text)).length :=
      length_jsonMember (key, text)
    have hmember : ∀ tail, jsonMember (key, text) ++ tail =
        34 :: (key.data.flatMap jsonEscapeChar ++ 34 :: 58 :: (text ++ tail)) := by
      intro tail
      simp [jsonMember, jsonString]
    cases fuel with
    | zero => omega
    | succ fuel =>
      cases fields with
      | nil =>
        cases hrest
        simp only [List.map_cons, List.map_nil, List.intercalate, List.intersperse, List.flatten,
          List.append_nil] at hfuel ⊢
        rw [hmember]
        simp only [scanMembers]
        rw [skipSpace_cons 34 _ (by decide)]
        simp only
        rw [if_pos trivial, scanString_jsonString]
        simp only
        rw [skipSpace_cons 58 _ (by decide)]
        simp only
        rw [if_pos trivial, hvalue fuel (125 :: rest) (by omega)
          (numberEnd_cons 125 rest (by simp))]
        simp only
        rw [skipSpace_cons 125 rest (by decide)]
        simp only
        rw [if_neg (by decide), if_pos trivial]
      | cons field2 fields =>
        have hsplit : List.intercalate [44] (List.map jsonMember ((key, text) :: field2 :: fields))
            = jsonMember (key, text) ++
              44 :: List.intercalate [44] (List.map jsonMember (field2 :: fields)) := by
          simp [List.intercalate, List.intersperse]
        rw [hsplit] at hfuel ⊢
        simp only [List.length_append, List.length_cons] at hfuel
        rw [List.append_assoc, hmember]
        simp only [scanMembers]
        rw [skipSpace_cons 34 _ (by decide)]
        simp only
        rw [if_pos trivial, scanString_jsonString]
        simp only
        rw [skipSpace_cons 58 _ (by decide)]
        simp only
        rw [if_pos trivial, List.cons_append,
          hvalue fuel _ (by omega) (numberEnd_cons 44 _ (by simp))]
        simp only
        rw [skipSpace_cons 44 _ (by decide)]
        simp only
        rw [if_pos trivial, ih (by simp) fuel rest (by omega)]

/-- The scanner reads an object the encoder wrote. -/
theorem reads_jsonObject (fields : List (String × List UInt8)) (members : List (String × Json))
    (h : List.Forall₂ MemberReads fields members) (hne : fields ≠ []) :
    Reads (jsonObject fields) (.object members) := by
  intro fuel rest hfuel _
  cases fuel with
  | zero => omega
  | succ fuel =>
    obtain ⟨field, others, rfl⟩ := List.exists_cons_of_ne_nil hne
    have hmember : jsonMember field =
        34 :: (field.1.data.flatMap jsonEscapeChar ++ [34] ++ [58] ++ field.2) := by
      simp [jsonMember, jsonString]
    have hstart : ∃ tail, List.intercalate [44] (List.map jsonMember (field :: others)) =
        34 :: tail := by
      cases others with
      | nil =>
        refine ⟨field.1.data.flatMap jsonEscapeChar ++ [34] ++ [58] ++ field.2, ?_⟩
        simp [List.intercalate, List.intersperse, hmember]
      | cons f2 fs =>
        refine ⟨field.1.data.flatMap jsonEscapeChar ++ [34] ++ [58] ++ field.2 ++
          44 :: List.intercalate [44] (List.map jsonMember (f2 :: fs)), ?_⟩
        simp [List.intercalate, List.intersperse, hmember]
    obtain ⟨tail, htail⟩ := hstart
    have hscan := scanMembers_intercalate (field :: others) members h hne fuel rest (by
      unfold jsonObject at hfuel
      simp only [List.length_append, List.length_cons, List.length_nil] at hfuel
      omega)
    unfold jsonObject
    rw [htail] at hscan ⊢
    simp only [List.cons_append, List.singleton_append, List.append_assoc, List.nil_append]
      at hscan ⊢
    simp only [scanValue]
    rw [skipSpace_cons 123 _ (by decide)]
    simp only
    rw [if_neg (by decide), if_pos trivial, skipSpace_cons 34 _ (by decide)]
    simp only
    rw [if_neg (by decide), hscan]

/-- The scanner reads a list of `int` the encoder wrote. -/
theorem reads_jsonInts (ids : List Int) :
    Reads (jsonInts (some ids)) (.array (ids.map Json.ofInt)) := by
  intro fuel rest hfuel _
  cases fuel with
  | zero => omega
  | succ fuel =>
    cases ids with
    | nil =>
      show scanValue (fuel + 1) (91 :: 93 :: rest) = _
      simp only [scanValue]
      rw [skipSpace_cons 91 _ (by decide)]
      simp only
      rw [if_neg (by decide), if_neg (by decide), if_pos trivial, skipSpace_cons 93 _ (by decide)]
      simp only
      rw [if_pos trivial]
      rfl
    | cons id ids =>
      have hall : List.Forall₂ Reads ((id :: ids).map jsonInt) ((id :: ids).map Json.ofInt) := by
        rw [List.forall₂_map_left_iff, List.forall₂_map_right_iff]
        exact List.forall₂_same.mpr (fun v _ => reads_jsonInt v)
      have hscan := scanElems_intercalate _ _ hall (by simp) fuel rest (by
        unfold jsonInts at hfuel
        simp only [List.length_append, List.length_cons, List.length_nil] at hfuel
        omega)
      obtain ⟨d, ds, hd, hdig⟩ : ∃ d ds, List.intercalate [44] ((id :: ids).map jsonInt) = d :: ds ∧
          (isDigit d = true ∨ d = 45) := by
        have hfirst : ∃ d ds, jsonInt id = d :: ds ∧ (isDigit d = true ∨ d = 45) := by
          cases id with
          | ofNat n =>
            obtain ⟨d, ds, h1, h2⟩ := decimal_cons n
            exact ⟨d, ds, h1, Or.inl h2⟩
          | negSucc n => exact ⟨45, _, rfl, Or.inr rfl⟩
        obtain ⟨d, ds, h1, h2⟩ := hfirst
        cases ids with
        | nil => exact ⟨d, ds, by simp [List.intercalate, List.intersperse, h1], h2⟩
        | cons id2 ids =>
          refine ⟨d, ds ++ 44 :: List.intercalate [44] ((id2 :: ids).map jsonInt), ?_, h2⟩
          simp [List.intercalate, List.intersperse, h1]
      have hfacts : isJsonSpace d = false ∧ d ≠ 93 := by
        rcases hdig with hdig | hdig
        · refine ⟨(digit_facts d hdig).1, ?_⟩
          intro hc
          subst hc
          revert hdig
          decide
        · subst hdig
          decide
      rw [hd] at hscan
      show scanValue (fuel + 1)
        ([91] ++ List.intercalate [44] ((id :: ids).map jsonInt) ++ [93] ++ rest) = _
      rw [hd]
      simp only [List.cons_append, List.singleton_append, List.append_assoc, List.nil_append]
        at hscan ⊢
      simp only [scanValue]
      rw [skipSpace_cons 91 _ (by decide)]
      simp only
      rw [if_neg (by decide), if_neg (by decide), if_pos trivial, skipSpace_cons d _ hfacts.1]
      simp only
      rw [if_neg hfacts.2, hscan]

/-- A document the scanner reads is parsed as that value. -/
theorem parseJson_of_reads (text : List UInt8) (value : Json) (h : Reads text value) :
    parseJson text = .ok value := by
  unfold parseJson
  have := h (text.length + 1) [] (by omega) numberEnd_nil
  rw [List.append_nil] at this
  rw [this]
  rfl

/-! ## base64 -/

theorem base64Value_base64Char : ∀ k : Nat, k < 64 → base64Value (base64Char k) = some k := by
  decide

theorem base64Char_ne_pad : ∀ k : Nat, k < 64 → base64Char k ≠ 61 := by decide

theorem plainByte_base64Char : ∀ k : Nat, k < 64 → PlainByte (base64Char k) := by
  unfold PlainByte
  decide

theorem plainByte_pad : PlainByte 61 := by
  unfold PlainByte
  decide

theorem ofNat_toNat_byte (a : UInt8) : UInt8.ofNat a.toNat = a := by
  apply UInt8.ext
  rw [toNat_ofNat_of_lt _ a.toNat_lt]

/-- Go `DecodeString` reads back what `EncodeToString` wrote. -/
theorem base64Decode_base64Encode (data : List UInt8) :
    base64Decode (base64Encode data) = some data := by
  induction data using base64Encode.induct with
  | case1 => rfl
  | case2 a =>
    have ha := a.toNat_lt
    simp only [base64Encode, base64Decode]
    rw [base64Value_base64Char _ (by omega), base64Value_base64Char _ (by omega)]
    simp only [and_self, if_true]
    congr 2
    rw [← ofNat_toNat_byte a]
    congr 1
    rw [toNat_ofNat_of_lt _ ha]
    omega
  | case3 a b =>
    have ha := a.toNat_lt
    have hb := b.toNat_lt
    simp only [base64Encode, base64Decode]
    rw [base64Value_base64Char _ (by omega), base64Value_base64Char _ (by omega)]
    simp only
    rw [if_neg (fun h => base64Char_ne_pad _ (by omega) h.2.1),
      base64Value_base64Char _ (by omega)]
    simp only [and_self, if_true]
    congr 2
    · rw [← ofNat_toNat_byte a]
      congr 1
      rw [toNat_ofNat_of_lt _ ha]
      omega
    · congr 1
      rw [← ofNat_toNat_byte b]
      congr 1
      rw [toNat_ofNat_of_lt _ hb]
      omega
  | case4 a b c rest ih =>
    have ha := a.toNat_lt
    have hb := b.toNat_lt
    have hc := c.toNat_lt
    simp only [base64Encode, List.cons_append, List.nil_append, base64Decode]
    rw [base64Value_base64Char _ (by omega), base64Value_base64Char _ (by omega)]
    simp only
    rw [if_neg (fun h => base64Char_ne_pad _ (by omega) h.2.1),
      base64Value_base64Char _ (by omega)]
    simp only
    have hnil : ([] : List UInt8).append (base64Encode rest) = base64Encode rest := rfl
    rw [if_neg (fun h => base64Char_ne_pad _ (by omega) h.2),
      base64Value_base64Char _ (by omega), hnil, ih]
    simp only
    congr 2
    · rw [← ofNat_toNat_byte a]
      congr 1
      rw [toNat_ofNat_of_lt _ ha]
      omega
    · congr 1
      · rw [← ofNat_toNat_byte b]
        congr 1
        rw [toNat_ofNat_of_lt _ hb]
        omega
      · congr 1
        rw [← ofNat_toNat_byte c]
        congr 1
        rw [toNat_ofNat_of_lt _ hc]
        omega

/-- Every byte of a base64 text is plain. -/
theorem plainByte_of_mem_base64Encode (data : List UInt8) :
    ∀ b ∈ base64Encode data, PlainByte b := by
  induction data using base64Encode.induct with
  | case1 =>
    intro b hb
    simp [base64Encode] at hb
  | case2 a =>
    have ha := a.toNat_lt
    intro b hb
    simp only [base64Encode, List.mem_cons, List.mem_singleton, List.not_mem_nil, or_false] at hb
    rcases hb with hb | hb | hb | hb <;> subst hb
    · exact plainByte_base64Char _ (by omega)
    · exact plainByte_base64Char _ (by omega)
    · exact plainByte_pad
    · exact plainByte_pad
  | case3 a b =>
    have ha := a.toNat_lt
    have hb := b.toNat_lt
    intro x hx
    simp only [base64Encode, List.mem_cons, List.mem_singleton, List.not_mem_nil, or_false] at hx
    rcases hx with hx | hx | hx | hx <;> subst hx
    · exact plainByte_base64Char _ (by omega)
    · exact plainByte_base64Char _ (by omega)
    · exact plainByte_base64Char _ (by omega)
    · exact plainByte_pad
  | case4 a b c rest ih =>
    have ha := a.toNat_lt
    have hb := b.toNat_lt
    have hc := c.toNat_lt
    intro x hx
    simp only [base64Encode, List.cons_append, List.nil_append, List.mem_cons] at hx
    rcases hx with hx | hx | hx | hx | hx
    · subst hx
      exact plainByte_base64Char _ (by omega)
    · subst hx
      exact plainByte_base64Char _ (by omega)
    · subst hx
      exact plainByte_base64Char _ (by omega)
    · subst hx
      exact plainByte_base64Char _ (by omega)
    · exact ih x hx

theorem toNat_ofNat_char : ∀ n : Nat, n < 128 → (Char.ofNat n).toNat = n := by decide

theorem utf8EncodeChar_ascii : ∀ n : Nat, n < 128 →
    String.utf8EncodeChar (Char.ofNat n) = [UInt8.ofNat n] := by
  decide

theorem jsonEscapeChar_plain (b : UInt8) (h : PlainByte b) :
    jsonEscapeChar (Char.ofNat b.toNat) = [b] := by
  obtain ⟨h1, h2, h3, h4, h5, h6, h7⟩ := h
  unfold jsonEscapeChar
  simp only [toNat_ofNat_char _ h2]
  rw [if_pos h2, if_pos ⟨h1, h3, h4, h5, h6, h7⟩, ofNat_toNat_byte]

theorem utf8EncodeChar_plain (b : UInt8) (h : PlainByte b) :
    String.utf8EncodeChar (Char.ofNat b.toNat) = [b] := by
  rw [utf8EncodeChar_ascii _ h.2.1, ofNat_toNat_byte]

theorem flatMap_escape_plain (bs : List UInt8) (h : ∀ b ∈ bs, PlainByte b) :
    (bs.map (fun b => Char.ofNat b.toNat)).flatMap jsonEscapeChar = bs := by
  induction bs with
  | nil => rfl
  | cons b bs ih =>
    rw [List.map_cons, List.flatMap_cons, jsonEscapeChar_plain b (h b (List.mem_cons_self _ _)),
      ih (fun x hx => h x (List.mem_cons_of_mem _ hx))]
    rfl

theorem flatMap_utf8_plain (bs : List UInt8) (h : ∀ b ∈ bs, PlainByte b) :
    (bs.map (fun b => Char.ofNat b.toNat)).flatMap String.utf8EncodeChar = bs := by
  induction bs with
  | nil => rfl
  | cons b bs ih =>
    rw [List.map_cons, List.flatMap_cons, utf8EncodeChar_plain b (h b (List.mem_cons_self _ _)),
      ih (fun x hx => h x (List.mem_cons_of_mem _ hx))]
    rfl

/-- A `[]byte` is written as the string literal of its base64 text. -/
theorem jsonBytes_some (data : List UInt8) :
    jsonBytes (some data) = jsonString (base64Text data) := by
  unfold jsonBytes jsonString base64Text
  simp only
  rw [flatMap_escape_plain _ (plainByte_of_mem_base64Encode data)]

/-- The bytes of the base64 text decode to the `[]byte`. -/
theorem base64Decode_base64Text (data : List UInt8) :
    base64Decode (utf8Bytes (base64Text data)) = some data := by
  unfold utf8Bytes base64Text
  simp only
  rw [flatMap_utf8_plain _ (plainByte_of_mem_base64Encode data), base64Decode_base64Encode]

/-! ## `float64` and the integers up to 2^53 -/

theorem bitLengthLoop_spec (fuel a : Nat) (hfuel : a ≤ fuel) (ha : 1 ≤ a) :
    1 ≤ bitLengthLoop fuel a ∧ 2 ^ (bitLengthLoop fuel a - 1) ≤ a ∧
      a < 2 ^ bitLengthLoop fuel a := by
  induction fuel generalizing a with
  | zero => omega
  | succ fuel ih =>
    simp only [bitLengthLoop]
    rw [if_neg (by omega)]
    by_cases h1 : a = 1
    · subst h1
      cases fuel with
      | zero => simp [bitLengthLoop]
      | succ fuel => simp [bitLengthLoop]
    · obtain ⟨h0, hlo, hhi⟩ := ih (a / 2) (by omega) (by omega)
      refine ⟨by omega, ?_, ?_⟩
      · rw [Nat.add_sub_cancel]
        have hpow : 2 ^ bitLengthLoop fuel (a / 2) = 2 ^ (bitLengthLoop fuel (a / 2) - 1) * 2 := by
          rw [← Nat.pow_succ]
          congr 1
          omega
        rw [hpow]
        omega
      · rw [Nat.pow_succ]
        omega

/-- The number of binary digits of a positive number: `2 ^ (L - 1) <= a <
2 ^ L`. -/
theorem bitLength_spec (a : Nat) (ha : 1 ≤ a) :
    1 ≤ bitLength a ∧ 2 ^ (bitLength a - 1) ≤ a ∧ a < 2 ^ bitLength a :=
  bitLengthLoop_spec a a (Nat.le_refl a) ha

theorem bitLength_le (a k : Nat) (ha : 1 ≤ a) (h : a < 2 ^ k) : bitLength a ≤ k := by
  obtain ⟨h0, hlo, _⟩ := bitLength_spec a ha
  by_contra hc
  have : 2 ^ k ≤ 2 ^ (bitLength a - 1) := Nat.pow_le_pow_right (by norm_num) (by omega)
  omega

theorem le_bitLength (a k : Nat) (h : 2 ^ k ≤ a) : k + 1 ≤ bitLength a := by
  have ha : 1 ≤ a := Nat.le_trans (Nat.one_le_two_pow) h
  obtain ⟨_, _, hhi⟩ := bitLength_spec a ha
  by_contra hc
  have : 2 ^ bitLength a ≤ 2 ^ k := Nat.pow_le_pow_right (by norm_num) (by omega)
  omega

theorem bitLength_one : bitLength 1 = 1 := by decide

/-- The mantissa of a positive integer below 2^53, scaled to 53 bits. -/
theorem scaled_bounds (a : Nat) (ha : 1 ≤ a) (h : a < 2 ^ 53) :
    2 ^ 52 ≤ a * 2 ^ (53 - bitLength a) ∧ a * 2 ^ (53 - bitLength a) < 2 ^ 53 := by
  obtain ⟨h0, hlo, hhi⟩ := bitLength_spec a ha
  have hL := bitLength_le a 53 ha h
  constructor
  · calc 2 ^ 52 = 2 ^ (bitLength a - 1) * 2 ^ (53 - bitLength a) := by
          rw [← Nat.pow_add]
          congr 1
          omega
      _ ≤ a * 2 ^ (53 - bitLength a) := Nat.mul_le_mul_right _ hlo
  · calc a * 2 ^ (53 - bitLength a) < 2 ^ bitLength a * 2 ^ (53 - bitLength a) :=
          Nat.mul_lt_mul_of_pos_right hhi (Nat.two_pow_pos _)
      _ = 2 ^ 53 := by
          rw [← Nat.pow_add]
          congr 1
          omega

/-- The bit pattern of a positive integer below 2^53: it is a `float64`. -/
theorem float64OfRatio_small (a : Nat) (ha : 1 ≤ a) (h : a < 2 ^ 53) :
    float64OfRatio a 1 =
      some ((bitLength a + 1021) * 2 ^ 52 + a * 2 ^ (53 - bitLength a)) := by
  obtain ⟨h0, hlo, hhi⟩ := bitLength_spec a ha
  have hL := bitLength_le a 53 ha h
  obtain ⟨hs1, hs2⟩ := scaled_bounds a ha h
  have hlow : ((bitLength a : Int) - ((1 : Nat) : Int) - 53) < 0 := by omega
  have hscale1 : scaleBinary a 1 ((bitLength a : Int) - ((1 : Nat) : Int) - 53) =
      (a * 2 ^ (54 - bitLength a), 1) := by
    unfold scaleBinary
    rw [if_neg (by omega)]
    congr 3
    omega
  have htest : 2 ^ 53 * 1 ≤ a * 2 ^ (54 - bitLength a) := by
    have : a * 2 ^ (54 - bitLength a) = a * 2 ^ (53 - bitLength a) * 2 := by
      rw [Nat.mul_assoc, ← Nat.pow_succ]
      congr 2
      omega
    rw [this]
    omega
  have he : max ((bitLength a : Int) - ((1 : Nat) : Int) - 53 + 1) (-1074) =
      (bitLength a : Int) - 53 := by
    rw [max_eq_left (by omega)]
    omega
  have hscale2 : scaleBinary a 1 ((bitLength a : Int) - 53) =
      (a * 2 ^ (53 - bitLength a), 1) := by
    unfold scaleBinary
    by_cases h53 : bitLength a = 53
    · rw [if_pos (by omega), h53]
      simp
    · rw [if_neg (by omega)]
      congr 3
      omega
  have hexp : ((bitLength a : Int) - 53 + 1074).toNat = bitLength a + 1021 := by omega
  unfold float64OfRatio
  rw [if_neg (by omega), bitLength_one]
  simp only [hscale1]
  rw [if_pos htest]
  simp only [he, hscale2, hexp, Nat.div_one, Nat.mod_one, Nat.mul_zero]
  have hround : ¬ (0 > 1 ∨ 0 = 1 ∧ a * 2 ^ (53 - bitLength a) % 2 = 1) := by omega
  rw [if_neg hround, if_pos (by omega)]

/-- An integer from 2^53 on whose bit pattern is at most that of 2^53 is 2^53
or 2^53 + 1, and the pattern is that of 2^53. -/
theorem float64OfRatio_large (c B : Nat) (h : 2 ^ 53 ≤ c)
    (hB : float64OfRatio c 1 = some B) (hle : B ≤ 1076 * 2 ^ 52) :
    B = 1076 * 2 ^ 52 ∧ (c = 2 ^ 53 ∨ c = 2 ^ 53 + 1) := by
  have hc : 1 ≤ c := by omega
  obtain ⟨h0, hlo, hhi⟩ := bitLength_spec c hc
  have hL : 54 ≤ bitLength c := le_bitLength c 53 h
  have hscale1 : scaleBinary c 1 ((bitLength c : Int) - ((1 : Nat) : Int) - 53) =
      (c, 2 ^ (bitLength c - 54)) := by
    unfold scaleBinary
    rw [if_pos (by omega), Nat.one_mul]
    congr 2
    omega
  have htest : 2 ^ 53 * 2 ^ (bitLength c - 54) ≤ c := by
    have : 2 ^ 53 * 2 ^ (bitLength c - 54) = 2 ^ (bitLength c - 1) := by
      rw [← Nat.pow_add]
      congr 1
      omega
    omega
  have he : max ((bitLength c : Int) - ((1 : Nat) : Int) - 53 + 1) (-1074) =
      (bitLength c : Int) - 53 := by
    rw [max_eq_left (by omega)]
    omega
  have hscale2 : scaleBinary c 1 ((bitLength c : Int) - 53) =
      (c, 2 ^ (bitLength c - 53)) := by
    unfold scaleBinary
    rw [if_pos (by omega), Nat.one_mul]
    congr 2
    omega
  have hexp : ((bitLength c : Int) - 53 + 1074).toNat = bitLength c + 1021 := by omega
  have hm : 2 ^ 52 ≤ c / 2 ^ (bitLength c - 53) := by
    rw [Nat.le_div_iff_mul_le (Nat.two_pow_pos _), ← Nat.pow_add]
    have : 52 + (bitLength c - 53) = bitLength c - 1 := by omega
    rw [this]
    exact hlo
  have hd : bitLength c = 54 → 2 ^ (bitLength c - 53) = 2 := by
    intro h54
    rw [h54]
    rfl
  unfold float64OfRatio at hB
  rw [if_neg (by omega), bitLength_one] at hB
  simp only [hscale1] at hB
  rw [if_pos htest] at hB
  simp only [he, hscale2, hexp] at hB
  generalize 2 ^ (bitLength c - 53) = d at hB hm hd
  split at hB
  · split at hB
    · injection hB with hB
      omega
    · exact absurd hB (by simp)
  · rename_i hno
    split at hB
    · injection hB with hB
      have h54 : bitLength c = 54 := by omega
      have hd2 := hd h54
      subst hd2
      refine ⟨by omega, ?_⟩
      omega
    · exact absurd hB (by simp)

theorem float64OfRatio_two53 : float64OfRatio (2 ^ 53) 1 = some (1076 * 2 ^ 52) := by
  rfl

/-- Two integers with the same bit pattern, one of them at most 2^53: they are
the same, or they are 2^53 and 2^53 + 1. -/
theorem float64OfRatio_inj (a c B : Nat) (ha : 1 ≤ a) (hle : a ≤ 2 ^ 53) (hc : 1 ≤ c)
    (hB : float64OfRatio a 1 = some B) (hC : float64OfRatio c 1 = some B) :
    c = a ∨ (a = 2 ^ 53 ∧ c = 2 ^ 53 + 1) := by
  by_cases ha53 : a = 2 ^ 53
  · subst ha53
    rw [float64OfRatio_two53] at hB
    injection hB with hB
    subst hB
    by_cases hc53 : c < 2 ^ 53
    · rw [float64OfRatio_small c hc hc53] at hC
      injection hC with hC
      obtain ⟨hs1, hs2⟩ := scaled_bounds c hc hc53
      have := bitLength_le c 53 hc hc53
      omega
    · obtain ⟨_, h2⟩ := float64OfRatio_large c _ (by omega) hC (Nat.le_refl _)
      rcases h2 with h2 | h2
      · exact Or.inl h2
      · exact Or.inr ⟨rfl, h2⟩
  · have ha53 : a < 2 ^ 53 := by omega
    rw [float64OfRatio_small a ha ha53] at hB
    injection hB with hB
    obtain ⟨hs1, hs2⟩ := scaled_bounds a ha ha53
    have hLa := bitLength_le a 53 ha ha53
    by_cases hc53 : c < 2 ^ 53
    · rw [float64OfRatio_small c hc hc53] at hC
      injection hC with hC
      obtain ⟨ht1, ht2⟩ := scaled_bounds c hc hc53
      have hLc := bitLength_le c 53 hc hc53
      have hL : bitLength c = bitLength a := by omega
      rw [hL] at hC ht1 ht2
      have hs : c * 2 ^ (53 - bitLength a) = a * 2 ^ (53 - bitLength a) := by omega
      exact Or.inl (Nat.eq_of_mul_eq_mul_right (Nat.two_pow_pos _) hs)
    · obtain ⟨h1, _⟩ := float64OfRatio_large c B (by omega) hC (by omega)
      omega

/-- The bit pattern of a positive integer up to 2^53, and the rational it
stands for. -/
theorem float64_of_nat (a : Nat) (ha : 1 ≤ a) (hle : a ≤ 2 ^ 53) :
    ∃ B k, float64OfRatio a 1 = some B ∧ 0 < k ∧ float64Ratio B = (a * k, k) ∧
      1023 * 2 ^ 52 ≤ B ∧ B ≤ 1076 * 2 ^ 52 := by
  by_cases ha53 : a = 2 ^ 53
  · subst ha53
    exact ⟨1076 * 2 ^ 52, 1, float64OfRatio_two53, by norm_num, by rfl, by norm_num, by norm_num⟩
  · have ha53 : a < 2 ^ 53 := by omega
    obtain ⟨hs1, hs2⟩ := scaled_bounds a ha ha53
    have hLa := bitLength_le a 53 ha ha53
    obtain ⟨h0, _, _⟩ := bitLength_spec a ha
    refine ⟨_, 2 ^ (53 - bitLength a), float64OfRatio_small a ha ha53, Nat.two_pow_pos _, ?_,
      by omega, by omega⟩
    generalize hs : a * 2 ^ (53 - bitLength a) = s at hs1 hs2
    have hdiv : ((bitLength a + 1021) * 2 ^ 52 + s) / 2 ^ 52 = bitLength a + 1022 := by omega
    have hmod : ((bitLength a + 1021) * 2 ^ 52 + s) % 2 ^ 52 = s - 2 ^ 52 := by omega
    have hparts : float64Parts ((bitLength a + 1021) * 2 ^ 52 + s) =
        (s, (bitLength a : Int) - 53) := by
      have hne : ¬ bitLength a + 1022 = 0 := by omega
      simp only [float64Parts, hdiv, hmod, if_neg hne]
      rw [Prod.mk.injEq]
      constructor
      · omega
      · push_cast
        omega
    unfold float64Ratio
    rw [hparts]
    by_cases h53 : bitLength a = 53
    · rw [if_pos (by simp only []; omega)]
      simp only [h53]
      simp
    · rw [if_neg (by simp only []; omega)]
      simp only []
      congr 2
      omega

/-- Reading a literal without sign, with digits and a power of ten that is
not negative: the bit pattern of the integer. -/
theorem float64OfDecimal_nat (c : Nat) (x : Nat) (B : Nat) (hx : x ≤ 400) (hB : B ≠ 0) :
    float64OfDecimal false c (x : Int) = some B ↔
      (c ≠ 0 ∧ float64OfRatio (c * 10 ^ x) 1 = some B) := by
  unfold float64OfDecimal decimalRatio
  by_cases hc : c = 0
  · subst hc
    simp
    exact fun h => hB h.symm
  · have h1 : ¬ ((x : Int) > 400) := by omega
    have h2 : ¬ ((x : Int) < -800) := by omega
    have h3 : (0 : Int) ≤ (x : Int) := by omega
    simp only [if_neg hc, if_neg h1, if_neg h2, if_pos h3, Int.toNat_ofNat]
    cases float64OfRatio (c * 10 ^ x) 1 with
    | none => simp
    | some bits => simp [hc]

theorem scaleDecimal_nat (a k x : Nat) (hk : 0 < k) :
    scaleDecimal (a * k) k (x : Int) = a / 10 ^ x := by
  unfold scaleDecimal
  rw [if_pos (by omega), Int.toNat_ofNat, Nat.mul_comm k (10 ^ x)]
  exact Nat.mul_div_mul_right a (10 ^ x) hk

theorem nearerLow_exact (a k : Nat) : nearerLow (a * k) k a ((0 : Nat) : Int) = true := by
  unfold nearerLow
  rw [if_pos (by omega)]
  simp only [Int.toNat_ofNat, pow_zero, Nat.mul_one, decide_eq_true_eq]
  have : 2 * (a * k) = 2 * a * k := by ring
  rw [this]
  exact Nat.mul_le_mul_right k (by omega)

/-- The shortest decimal of an integer up to 2^53 is the integer: the digits
found, scaled by their power of ten, are the integer itself. -/
theorem shortestDecimal_exact (a k B : Nat) (ha : 1 ≤ a) (hle : a ≤ 2 ^ 53) (hk : 0 < k)
    (hB : float64OfRatio a 1 = some B) (hB0 : B ≠ 0) :
    ∀ fuel nd, 1 ≤ nd → nd ≤ (decimal a).length → (decimal a).length - nd < fuel →
      0 ≤ (shortestDecimal (a * k) k B (((decimal a).length : Int) - 1) fuel nd).2 ∧
      (shortestDecimal (a * k) k B (((decimal a).length : Int) - 1) fuel nd).1 *
        10 ^ (shortestDecimal (a * k) k B (((decimal a).length : Int) - 1) fuel nd).2.toNat
        = a := by
  have hD : (decimal a).length ≤ 16 := length_decimal_le a 16 (by omega) (by norm_num)
  intro fuel
  induction fuel with
  | zero => intro nd _ _ h; omega
  | succ fuel ih =>
    intro nd h1 h2 h3
    have hx : ((decimal a).length : Int) - 1 - (nd : Int) + 1 =
        (((decimal a).length - nd : Nat) : Int) := by omega
    generalize hX : (decimal a).length - nd = X at hx
    have hX400 : X ≤ 400 := by omega
    have hpow : 0 < 10 ^ X := pow_pos (by norm_num) X
    have hP1 : a / 10 ^ X * 10 ^ X ≤ a := Nat.div_mul_le_self a (10 ^ X)
    have hP2 : a < (a / 10 ^ X + 1) * 10 ^ X := by
      rw [Nat.mul_comm]
      exact Nat.lt_mul_div_succ a hpow
    have hzero : X = 0 → float64OfDecimal false (a / 10 ^ X) (X : Int) = some B ∧
        nearerLow (a * k) k (a / 10 ^ X) (X : Int) = true := by
      intro h0
      subst h0
      rw [pow_zero, Nat.div_one]
      refine ⟨?_, nearerLow_exact a k⟩
      rw [float64OfDecimal_nat a 0 B (by omega) hB0, pow_zero, Nat.mul_one]
      exact ⟨by omega, hB⟩
    rw [shortestDecimal]
    simp only [hx, scaleDecimal_nat a k X hk]
    split
    · rename_i hcond
      refine ⟨by simp, ?_⟩
      simp only [Int.toNat_ofNat]
      have hlo := ((float64OfDecimal_nat _ X B hX400 hB0).mp hcond.1)
      have hc1 : 1 ≤ a / 10 ^ X * 10 ^ X :=
        Nat.mul_pos (Nat.pos_of_ne_zero hlo.1) hpow
      rcases float64OfRatio_inj a _ B ha hle hc1 hB hlo.2 with h | h
      · exact h
      · omega
    · rename_i hcond
      split
      · rename_i hhi
        exfalso
        have hhi2 := ((float64OfDecimal_nat _ X B hX400 hB0).mp hhi)
        have hc1 : 1 ≤ (a / 10 ^ X + 1) * 10 ^ X := Nat.mul_pos (Nat.succ_pos _) hpow
        rcases float64OfRatio_inj a _ B ha hle hc1 hB hhi2.2 with h | h
        · omega
        · have hX0 : X = 0 := by
            by_contra hne
            have hdvd : 10 ∣ (a / 10 ^ X + 1) * 10 ^ X :=
              Dvd.dvd.mul_left (dvd_pow_self 10 hne) _
            rw [h.2] at hdvd
            omega
          obtain ⟨hz1, hz2⟩ := hzero hX0
          exact hcond ⟨hz1, Or.inr hz2⟩
      · rename_i hhi
        have hlt : nd < (decimal a).length := by
          by_contra hge
          have hX0 : X = 0 := by omega
          obtain ⟨hz1, hz2⟩ := hzero hX0
          exact hcond ⟨hz1, Or.inr hz2⟩
        exact ih (nd + 1) (by omega) (by omega) (by omega)

theorem decimalExponent_nat (a k : Nat) (ha : 1 ≤ a) (hk : 0 < k) :
    decimalExponent (a * k) k = ((decimal a).length : Int) - 1 := by
  unfold decimalExponent
  rw [if_pos (Nat.le_mul_of_pos_left k ha), Nat.mul_div_cancel a hk]

/-- The encoder writes the `float64` of an integer up to 2^53 as the integer
itself, whatever the sign bit. -/
theorem renderFloat64_nat (a B : Nat) (negative : Bool) (ha : 1 ≤ a) (hle : a ≤ 2 ^ 53)
    (hB : float64OfRatio a 1 = some B) :
    renderFloat64 ((if negative then 2 ^ 63 else 0) + B) =
      .ok ((if negative then [45] else []) ++ decimal a) := by
  obtain ⟨B2, k, hB2, hk, hratio, hlo, hhi⟩ := float64_of_nat a ha hle
  rw [hB] at hB2
  injection hB2 with hB2
  subst hB2
  have hB0 : B ≠ 0 := by omega
  have hmag : ((if negative then 2 ^ 63 else 0) + B) % 2 ^ 63 = B := by
    cases negative
    · simp only [Bool.false_eq_true, if_false]
      omega
    · simp only [if_true]
      omega
  have hsign : (if ((if negative then 2 ^ 63 else 0) + B) / 2 ^ 63 % 2 = 1 then ([45] : List UInt8)
      else []) = (if negative then [45] else []) := by
    cases negative
    · simp only [Bool.false_eq_true, if_false]
      rw [if_neg (by omega)]
    · simp only [if_true]
      rw [if_pos (by omega)]
  obtain ⟨hx, hval⟩ := shortestDecimal_exact a k B ha hle hk hB hB0 17 1 (Nat.le_refl 1)
    (Nat.pos_of_ne_zero (fun h => decimal_ne_nil a (List.length_eq_zero.mp h)))
    (by have := length_decimal_le a 16 (by omega) (by norm_num); omega)
  unfold renderFloat64
  simp only [hmag, hsign, hratio, decimalExponent_nat a k ha hk]
  rw [if_neg (by omega), if_neg hB0, if_neg (by omega)]
  unfold formatPlain
  rw [if_pos hx, hval]

/-- An `int` up to 2^53 in absolute value: the literal is read as a `float64`,
and the encoder writes that `float64` as the literal again. -/
theorem float64_of_int (v : Int) (h : v.natAbs ≤ 2 ^ 53) :
    float64OfDecimal (decide (v < 0)) v.natAbs 0 = some (float64OfInt v) ∧
      renderFloat64 (float64OfInt v) = .ok (jsonInt v) := by
  by_cases h0 : v = 0
  · subst h0
    exact ⟨rfl, rfl⟩
  · have ha : 1 ≤ v.natAbs := Int.natAbs_pos.mpr h0
    obtain ⟨B, k, hB, hk, hratio, hlo, hhi⟩ := float64_of_nat v.natAbs ha h
    have hread : float64OfDecimal (decide (v < 0)) v.natAbs 0 =
        some ((if decide (v < 0) = true then 2 ^ 63 else 0) + B) := by
      unfold float64OfDecimal decimalRatio
      have h1 : ¬ ((0 : Int) > 400) := by omega
      have h2 : ¬ ((0 : Int) < -800) := by omega
      have h3 : (0 : Int) ≤ 0 := by omega
      simp only [if_neg (show ¬ v.natAbs = 0 by omega), if_neg h1, if_neg h2, if_pos h3,
        Int.toNat_zero, pow_zero, Nat.mul_one, hB]
    have hbits : float64OfInt v = (if decide (v < 0) = true then 2 ^ 63 else 0) + B := by
      unfold float64OfInt
      rw [hread]
      rfl
    refine ⟨by rw [hread, hbits], ?_⟩
    rw [hbits, renderFloat64_nat v.natAbs B (decide (v < 0)) ha h hB]
    cases v with
    | ofNat n =>
      have hneg : decide (Int.ofNat n < 0) = false := by simp
      rw [hneg]
      simp [jsonInt]
    | negSucc n =>
      have hneg : decide (Int.negSucc n < 0) = true := by simp [Int.negSucc_lt_zero]
      rw [hneg]
      simp [jsonInt, Int.natAbs]

/-! ## The document of a message, decoded and encoded again -/

theorem memberReads_fields (msg : Message) : List.Forall₂ MemberReads msg.fields msg.members := by
  have hbytes : ∀ d : Slice UInt8, Reads (jsonBytes d) (Json.ofBytes d) := by
    intro d
    cases d with
    | none => exact reads_jsonNull
    | some data =>
      rw [jsonBytes_some]
      exact reads_jsonString _
  have hints : ∀ d : Slice Int, Reads (jsonInts d) (Json.ofInts d) := by
    intro d
    cases d with
    | none => exact reads_jsonNull
    | some ids => exact reads_jsonInts ids
  cases msg with
  | requestBlock m =>
    exact .cons ⟨rfl, reads_jsonString _⟩ (.cons ⟨rfl, reads_jsonInt _⟩ .nil)
  | requestInfo m => exact .cons ⟨rfl, reads_jsonString _⟩ .nil
  | blockData m =>
    exact .cons ⟨rfl, reads_jsonString _⟩ (.cons ⟨rfl, reads_jsonInt _⟩
      (.cons ⟨rfl, hbytes _⟩ (.cons ⟨rfl, reads_jsonString _⟩ .nil)))
  | peerInfo m =>
    exact .cons ⟨rfl, reads_jsonString _⟩ (.cons ⟨rfl, hints _⟩
      (.cons ⟨rfl, reads_jsonInt _⟩ .nil))
  | error m =>
    exact .cons ⟨rfl, reads_jsonString _⟩ (.cons ⟨rfl, reads_jsonString _⟩ .nil)

theorem fields_ne_nil (msg : Message) : msg.fields ≠ [] := by
  cases msg <;> simp [Message.fields]

/-- The scanner reads the document of a message as the object of its
members. -/
theorem parseJson_payload (msg : Message) : parseJson msg.payload = .ok (.object msg.members) :=
  parseJson_of_reads _ _ (reads_jsonObject _ _ (memberReads_fields msg) (fields_ne_nil msg))

theorem insertField_reads (field : String × List UInt8) (member : String × Json)
    (h : MemberReads field member) (fields : List (String × List UInt8))
    (members : List (String × Json)) (hall : List.Forall₂ MemberReads fields members) :
    List.Forall₂ MemberReads (insertField field fields) (insertField member members) := by
  induction hall with
  | nil => exact .cons h .nil
  | cons hfirst hrest ih =>
    simp only [insertField]
    rw [← h.1, ← hfirst.1]
    split
    · exact .cons h (.cons hfirst hrest)
    · exact .cons hfirst ih

theorem sortFields_reads (fields : List (String × List UInt8)) (members : List (String × Json))
    (hall : List.Forall₂ MemberReads fields members) :
    List.Forall₂ MemberReads (sortFields fields) (sortFields members) := by
  induction hall with
  | nil => exact .nil
  | cons hfirst hrest ih =>
    simp only [sortFields]
    exact insertField_reads _ _ hfirst _ _ ih

theorem insertField_ne_nil {α : Type} (field : String × α) (fields : List (String × α)) :
    insertField field fields ≠ [] := by
  cases fields with
  | nil => simp [insertField]
  | cons first rest =>
    simp only [insertField]
    split <;> simp

theorem sortFields_ne_nil {α : Type} (fields : List (String × α)) (h : fields ≠ []) :
    sortFields fields ≠ [] := by
  cases fields with
  | nil => exact absurd rfl h
  | cons first rest => exact insertField_ne_nil _ _

/-- The scanner reads the document with the keys sorted as the object of the
members sorted. -/
theorem parseJson_sorted (msg : Message) :
    parseJson (jsonObject (sortFields msg.fields)) = .ok (.object (sortFields msg.members)) :=
  parseJson_of_reads _ _ (reads_jsonObject _ _ (sortFields_reads _ _ (memberReads_fields msg))
    (sortFields_ne_nil _ (fields_ne_nil msg)))

theorem toGoValue_ofInt (v : Int) (h : v.natAbs ≤ 2 ^ 53) :
    Json.toGoValue (Json.ofInt v) = .ok (GoValue.ofInt v) := by
  unfold Json.ofInt
  rw [Json.toGoValue, (float64_of_int v h).1]
  rfl

theorem toGoValues_ofInt (ids : List Int) (h : ∀ v ∈ ids, v.natAbs ≤ 2 ^ 53) :
    Json.toGoValues (ids.map Json.ofInt) = .ok (ids.map GoValue.ofInt) := by
  induction ids with
  | nil => rfl
  | cons v rest ih =>
    rw [List.map_cons, Json.toGoValues, toGoValue_ofInt v (h v (List.mem_cons_self v rest)),
      ih (fun w hw => h w (List.mem_cons_of_mem v hw))]
    rfl

theorem toGoValue_ofInts (d : Slice Int) (h : ∀ v ∈ d.elems, v.natAbs ≤ 2 ^ 53) :
    Json.toGoValue (Json.ofInts d) = .ok (GoValue.ofInts d) := by
  cases d with
  | none => rfl
  | some ids =>
    unfold Json.ofInts
    rw [Json.toGoValue, toGoValues_ofInt ids h]
    rfl

theorem toGoValue_ofBytes (d : Slice UInt8) :
    Json.toGoValue (Json.ofBytes d) = .ok (GoValue.ofBytes d) := by
  cases d <;> rfl

theorem toGoValue_string (s : String) : Json.toGoValue (.string s) = .ok (.string s) := by
  rw [Json.toGoValue]

/-- The generic decoder on the members of a message: the map of the message,
every `int` held as a `float64`. -/
theorem toGoMembers_members (msg : Message) (hints : msg.IntsExact) :
    Json.toGoMembers msg.members [] = .ok msg.bag := by
  cases msg with
  | requestBlock m =>
    have h1 := hints m.BlockID (by simp [Message.ints])
    simp only [Message.members, Message.bag, Json.toGoMembers, toGoValue_string,
      toGoValue_ofInt _ h1, FieldBag.put]
    rfl
  | requestInfo m =>
    simp only [Message.members, Message.bag, Json.toGoMembers, toGoValue_string, FieldBag.put]
  | blockData m =>
    have h1 := hints m.BlockID (by simp [Message.ints])
    simp only [Message.members, Message.bag, Json.toGoMembers, toGoValue_string,
      toGoValue_ofInt _ h1, toGoValue_ofBytes, FieldBag.put]
    rfl
  | peerInfo m =>
    have h1 := hints m.TotalBlocks (by simp [Message.ints])
    have h2 : ∀ v ∈ m.AvailableBlocks.elems, v.natAbs ≤ 2 ^ 53 :=
      fun v hv => hints v (by simp [Message.ints, hv])
    simp only [Message.members, Message.bag, Json.toGoMembers, toGoValue_string,
      toGoValue_ofInt _ h1, toGoValue_ofInts _ h2, FieldBag.put]
    rfl
  | error m =>
    simp only [Message.members, Message.bag, Json.toGoMembers, toGoValue_string, FieldBag.put]
    rfl

theorem lookup_type_bag (msg : Message) :
    msg.bag.lookup "type" = some (.string msg.GetType) := by
  cases msg <;> rfl

theorem render_ofInt (v : Int) (h : v.natAbs ≤ 2 ^ 53) :
    GoValue.render (GoValue.ofInt v) = .ok (jsonInt v) := by
  unfold GoValue.ofInt
  rw [GoValue.render, (float64_of_int v h).2]

theorem renderAll_ofInt (ids : List Int) (h : ∀ v ∈ ids, v.natAbs ≤ 2 ^ 53) :
    GoValue.renderAll (ids.map GoValue.ofInt) = .ok (ids.map jsonInt) := by
  induction ids with
  | nil => rfl
  | cons v rest ih =>
    rw [List.map_cons, GoValue.renderAll, render_ofInt v (h v (List.mem_cons_self v rest)),
      ih (fun w hw => h w (List.mem_cons_of_mem v hw))]
    rfl

theorem render_ofInts (d : Slice Int) (h : ∀ v ∈ d.elems, v.natAbs ≤ 2 ^ 53) :
    GoValue.render (GoValue.ofInts d) = .ok (jsonInts d) := by
  cases d with
  | none => rfl
  | some ids =>
    unfold GoValue.ofInts
    rw [GoValue.render, renderAll_ofInt ids h]
    rfl

theorem render_ofBytes (d : Slice UInt8) :
    GoValue.render (GoValue.ofBytes d) = .ok (jsonBytes d) := by
  cases d with
  | none => rfl
  | some data =>
    rw [jsonBytes_some]
    rfl

theorem render_string (s : String) : GoValue.render (.string s) = .ok (jsonString s) := by
  rw [GoValue.render]

/-- The map encoder on the map of a message: the members the struct encoder
wrote, before they are sorted. -/
theorem renderFields_bag (msg : Message) (hints : msg.IntsExact) :
    GoValue.renderFields msg.bag = .ok msg.fields := by
  cases msg with
  | requestBlock m =>
    have h1 := hints m.BlockID (by simp [Message.ints])
    simp only [Message.fields, Message.bag, GoValue.renderFields, render_string,
      render_ofInt _ h1]
  | requestInfo m =>
    simp only [Message.fields, Message.bag, GoValue.renderFields, render_string]
  | blockData m =>
    have h1 := hints m.BlockID (by simp [Message.ints])
    simp only [Message.fields, Message.bag, GoValue.renderFields, render_string,
      render_ofInt _ h1, render_ofBytes]
  | peerInfo m =>
    have h1 := hints m.TotalBlocks (by simp [Message.ints])
    have h2 : ∀ v ∈ m.AvailableBlocks.elems, v.natAbs ≤ 2 ^ 53 :=
      fun v hv => hints v (by simp [Message.ints, hv])
    simp only [Message.fields, Message.bag, GoValue.renderFields, render_string,
      render_ofInt _ h1, render_ofInts _ h2]
  | error m =>
    simp only [Message.fields, Message.bag, GoValue.renderFields, render_string]

theorem jsonMarshalMap_bag (msg : Message) (hints : msg.IntsExact) :
    jsonMarshalMap msg.bag = .ok (jsonObject (sortFields msg.fields)) := by
  unfold jsonMarshalMap
  rw [renderFields_bag msg hints]

theorem decodeIntField_ofInt (old v : Int) (h : v.natAbs ≤ 2 ^ 53) :
    decodeIntField old (Json.ofInt v) = .ok v := by
  unfold Json.ofInt decodeIntField
  by_cases hneg : v < 0
  · have hd : decide (v < 0) = true := by simp [hneg]
    simp only [hd, if_true]
    rw [if_pos ⟨trivial, by omega⟩]
    congr 1
    omega
  · have hd : decide (v < 0) = false := by simp [hneg]
    simp only [hd, Bool.false_eq_true, if_false]
    rw [if_pos ⟨trivial, by omega⟩]
    congr 1
    omega

theorem mapM_decodeIntField (ids : List Int) (h : ∀ v ∈ ids, v.natAbs ≤ 2 ^ 53) :
    (ids.map Json.ofInt).mapM (decodeIntField 0) = .ok ids := by
  induction ids with
  | nil => rfl
  | cons v rest ih =>
    rw [List.map_cons, List.mapM_cons, decodeIntField_ofInt 0 v (h v (List.mem_cons_self v rest)),
      ih (fun w hw => h w (List.mem_cons_of_mem v hw))]
    rfl

theorem decodeIntsField_ofInts (old d : Slice Int) (h : ∀ v ∈ d.elems, v.natAbs ≤ 2 ^ 53) :
    decodeIntsField old (Json.ofInts d) = .ok d := by
  cases d with
  | none => rfl
  | some ids =>
    unfold Json.ofInts decodeIntsField
    simp only [mapM_decodeIntField ids h]

theorem decodeBytesField_ofBytes (old d : Slice UInt8) :
    decodeBytesField old (Json.ofBytes d) = .ok d := by
  cases d with
  | none => rfl
  | some data =>
    unfold Json.ofBytes decodeBytesField
    simp only [base64Decode_base64Text]

/-- The struct decoder on the document with the keys sorted gives the message
back. -/
theorem unmarshalLike_sorted (sha256Hex : List UInt8 → String) (msg : Message)
    (hbuilt : msg.Built) (hints : msg.IntsExact) :
    (jsonLibrary sha256Hex).unmarshalLike msg (jsonObject (sortFields msg.fields)) = .ok msg := by
  cases msg with
  | requestBlock m =>
    have h1 := hints m.BlockID (by simp [Message.ints])
    have hsort : sortFields (Message.requestBlock m).members =
        [("block_id", Json.ofInt m.BlockID), ("type", .string m.MsgType)] := rfl
    have hid : ∀ msg : RequestBlockMsg, storeRequestBlock msg "block_id" (Json.ofInt m.BlockID) =
        .ok { msg with BlockID := m.BlockID } := by
      intro msg
      unfold storeRequestBlock
      rw [if_neg (by decide), if_pos (by decide), decodeIntField_ofInt _ _ h1]
      rfl
    have htype : ∀ msg : RequestBlockMsg, storeRequestBlock msg "type" (.string m.MsgType) =
        .ok { msg with MsgType := m.MsgType } := fun _ => rfl
    simp only [Library.unmarshalLike, jsonLibrary, jsonUnmarshal, parseJson_sorted, hsort,
      decodeStruct, List.foldlM, hid, htype]
    rfl
  | requestInfo m =>
    have hsort : sortFields (Message.requestInfo m).members = [("type", .string m.MsgType)] := rfl
    have htype : ∀ msg : RequestInfoMsg, storeRequestInfo msg "type" (.string m.MsgType) =
        .ok { msg with MsgType := m.MsgType } := fun _ => rfl
    simp only [Library.unmarshalLike, jsonLibrary, jsonUnmarshal, parseJson_sorted, hsort,
      decodeStruct, List.foldlM, htype]
    rfl
  | blockData m =>
    have h1 := hints m.BlockID (by simp [Message.ints])
    have hsort : sortFields (Message.blockData m).members =
        [("block_id", Json.ofInt m.BlockID), ("checksum", .string m.Checksum),
          ("data", Json.ofBytes m.Data), ("type", .string m.MsgType)] := rfl
    have hid : ∀ msg : BlockDataMsg, storeBlockData msg "block_id" (Json.ofInt m.BlockID) =
        .ok { msg with BlockID := m.BlockID } := by
      intro msg
      unfold storeBlockData
      rw [if_neg (by decide), if_pos (by decide), decodeIntField_ofInt _ _ h1]
      rfl
    have hsum : ∀ msg : BlockDataMsg, storeBlockData msg "checksum" (.string m.Checksum) =
        .ok { msg with Checksum := m.Checksum } := fun _ => rfl
    have hdata : ∀ msg : BlockDataMsg, storeBlockData msg "data" (Json.ofBytes m.Data) =
        .ok { msg with Data := m.Data } := by
      intro msg
      unfold storeBlockData
      rw [if_neg (by decide), if_neg (by decide), if_pos (by decide), decodeBytesField_ofBytes]
      rfl
    have htype : ∀ msg : BlockDataMsg, storeBlockData msg "type" (.string m.MsgType) =
        .ok { msg with MsgType := m.MsgType } := fun _ => rfl
    simp only [Library.unmarshalLike, jsonLibrary, jsonUnmarshal, parseJson_sorted, hsort,
      decodeStruct, List.foldlM, hid, hsum, hdata, htype]
    rfl
  | peerInfo m =>
    have h1 := hints m.TotalBlocks (by simp [Message.ints])
    have h2 : ∀ v ∈ m.AvailableBlocks.elems, v.natAbs ≤ 2 ^ 53 :=
      fun v hv => hints v (by simp [Message.ints, hv])
    have hsort : sortFields (Message.peerInfo m).members =
        [("available_blocks", Json.ofInts m.AvailableBlocks),
          ("total_blocks", Json.ofInt m.TotalBlocks), ("type", .string m.MsgType)] := rfl
    have hlist : ∀ msg : PeerInfoMsg,
        storePeerInfo msg "available_blocks" (Json.ofInts m.AvailableBlocks) =
          .ok { msg with AvailableBlocks := m.AvailableBlocks } := by
      intro msg
      unfold storePeerInfo
      rw [if_neg (by decide), if_pos (by decide), decodeIntsField_ofInts _ _ h2]
      rfl
    have htotal : ∀ msg : PeerInfoMsg, storePeerInfo msg "total_blocks" (Json.ofInt m.TotalBlocks) =
        .ok { msg with TotalBlocks := m.TotalBlocks } := by
      intro msg
      unfold storePeerInfo
      rw [if_neg (by decide), if_neg (by decide), if_pos (by decide),
        decodeIntField_ofInt _ _ h1]
      rfl
    have htype : ∀ msg : PeerInfoMsg, storePeerInfo msg "type" (.string m.MsgType) =
        .ok { msg with MsgType := m.MsgType } := fun _ => rfl
    simp only [Library.unmarshalLike, jsonLibrary, jsonUnmarshal, parseJson_sorted, hsort,
      decodeStruct, List.foldlM, hlist, htotal, htype]
    rfl
  | error m =>
    have hsort : sortFields (Message.error m).members =
        [("message", .string m.Message), ("type", .string m.MsgType)] := rfl
    have hmsg : ∀ msg : ErrorMsg, storeError msg "message" (.string m.Message) =
        .ok { msg with Message := m.Message } := fun _ => rfl
    have htype : ∀ msg : ErrorMsg, storeError msg "type" (.string m.MsgType) =
        .ok { msg with MsgType := m.MsgType } := fun _ => rfl
    simp only [Library.unmarshalLike, jsonLibrary, jsonUnmarshal, parseJson_sorted, hsort,
      decodeStruct, List.foldlM, hmsg, htype]
    rfl

/-- The decoders of the modelled `encoding/json` give a built message back when
its `int` fields are exact as `float64`: the four facts encode-then-decode
needs. -/
theorem roundTrip_jsonLibrary (sha256Hex : List UInt8 → String) (msg : Message)
    (hbuilt : msg.Built) (hsize : msg.payload.length ≤ maxMessageSize) (hints : msg.IntsExact) :
    roundTrip (jsonLibrary sha256Hex) msg = .ok msg := by
  refine roundTrip_of_decoders (jsonLibrary sha256Hex) msg msg.bag
    (jsonObject (sortFields msg.fields)) hbuilt hsize ?_ (lookup_type_bag msg)
    (jsonMarshalMap_bag msg hints) (unmarshalLike_sorted sha256Hex msg hbuilt hints)
  show jsonUnmarshalMap msg.payload = .ok msg.bag
  unfold jsonUnmarshalMap
  rw [parseJson_payload]
  exact toGoMembers_members msg hints

/-! ## Encode-then-decode through `encoding/json` -/

/-- C6, as the code has it: a message built by one of the five constructors,
whose JSON payload is at most 16 MiB and whose `int` fields (the block id, the
total, every id listed) are at most 2^53 in absolute value, survives
`SendMessage` followed by `ReceiveMessage` and `ParseMessage` with
`encoding/json` as modelled: the result is that message, same shape and equal
in every field, whatever its strings, its byte slice (`nil` and the empty one
included) and its id list (`nil` and the empty one included). -/
theorem C6_round_trip (sha256Hex : List UInt8 → String) (msg : Message) (hbuilt : msg.Built)
    (hsize : msg.payload.length ≤ 16 * 1024 * 1024)
    (hints : ∀ v ∈ msg.ints, v.natAbs ≤ 2 ^ 53) :
    roundTrip (jsonLibrary sha256Hex) msg = .ok msg :=
  roundTrip_jsonLibrary sha256Hex msg hbuilt hsize hints

/-- Witness of C6: a `BlockData` with a zero-length payload, a `PeerInfo` with
an empty id list, and `RequestBlock` with the ids 2^53 and -2^53. -/
theorem C6_round_trip_witness :
    roundTrip (jsonLibrary toyDigest) (.blockData (NewBlockData 7 (some []) "abc")) =
        .ok (.blockData (NewBlockData 7 (some []) "abc")) ∧
      roundTrip (jsonLibrary toyDigest) (.peerInfo (NewPeerInfo (some []) 3)) =
        .ok (.peerInfo (NewPeerInfo (some []) 3)) ∧
      roundTrip (jsonLibrary toyDigest) (.requestBlock (NewRequestBlock 9007199254740992)) =
        .ok (.requestBlock (NewRequestBlock 9007199254740992)) ∧
      roundTrip (jsonLibrary toyDigest) (.requestBlock (NewRequestBlock (-9007199254740992))) =
        .ok (.requestBlock (NewRequestBlock (-9007199254740992))) :=
  ⟨C6_round_trip toyDigest (.blockData (NewBlockData 7 (some []) "abc")) (by decide) (by decide)
      (by decide),
    C6_round_trip toyDigest (.peerInfo (NewPeerInfo (some []) 3)) (by decide) (by decide)
      (by decide),
    C6_round_trip toyDigest (.requestBlock (NewRequestBlock 9007199254740992)) (by decide)
      (by decide) (by decide),
    C6_round_trip toyDigest (.requestBlock (NewRequestBlock (-9007199254740992))) (by decide)
      (by decide) (by decide)⟩

set_option maxRecDepth 100000 in
set_option maxHeartbeats 4000000 in
/-- C6 as stated fails, three ways. The `BlockData` message of a block of
16 MiB of zero bytes has a payload of 22369682 bytes, which `ReceiveMessage`
refuses, so no decoder makes it survive encode-then-decode. The block id
2^53 + 1 passes through `float64` in the generic map and comes back as 2^53.
The block id 2^63 - 1 is written from the map as 9223372036854776000, which the
struct decoder refuses, so `ParseMessage` fails. -/
theorem C6_counterexample :
    (¬ ∃ lib : Library,
      roundTrip lib (blockDataOfLength 16777216) = .ok (blockDataOfLength 16777216)) ∧
    (∀ sha256Hex : List UInt8 → String,
      roundTrip (jsonLibrary sha256Hex) (.requestBlock (NewRequestBlock 9007199254740993)) =
        .ok (.requestBlock (NewRequestBlock 9007199254740992))) ∧
    (∀ sha256Hex : List UInt8 → String,
      roundTrip (jsonLibrary sha256Hex) (.requestBlock (NewRequestBlock 9223372036854775807)) =
        .error (.json "cannot unmarshal number into Go struct field of type int")) := by
  refine ⟨?_, fun _ => rfl, fun _ => rfl⟩
  rintro ⟨lib, h⟩
  have hlen := length_payload_blockDataOfLength 16777216
  have h32 : (blockDataOfLength 16777216).payload.length < 2 ^ 32 := by
    rw [hlen]
    decide
  have hmax : (blockDataOfLength 16777216).payload.length > maxMessageSize := by
    rw [hlen]
    decide
  rw [roundTrip_too_large lib _ h32 hmax] at h
  cases h

end P2P
